import Mathlib

/-!
# Balloony: a verification development

A shallow embedding of the event-processing core of the radiosonde tracker
(`sondehubpacket.go`, `sondemutex.go`, `utils.go`, `rs41.go`, `redismgr.go`,
`balloony.go`) together with theorems about it.

Modelling conventions

* A Go `map[K]V` is an association list with at most one entry per key
  (`GoMap`), read with `GoMap.get`, written with `GoMap.set` and cleared with
  `GoMap.delete`.
* A Go `float64` is a value of `F64`: a finite value (a rational), an infinity
  or NaN.  Comparisons follow IEEE-754 (everything involving NaN is false).
  Rounded arithmetic and the functions of package `math` are parameters
  (`GoMath`).
* A Go `int64` is an `Int`; additions that can wrap are written with `wrap64`.
* A `time.Time` that only carries a calendar date is a day number counted from
  0001-01-01 (`GoTime`); a receive timestamp is kept as its `Unix()` value.
* External collaborators (reverse geocoding, prediction, map rendering, the
  webhook, the session store) are represented by their outcomes (`Outcomes`)
  and every call is recorded in a log of `Event`s.
-/

namespace Balloony

/-! ## Go maps -/

/-- A Go map as an association list. -/
abbrev GoMap (κ : Type) (ν : Type) := List (κ × ν)

namespace GoMap

variable {κ ν : Type}

/-- The keys of a map, in the order of the model. -/
def keys (m : GoMap κ ν) : List κ := m.map Prod.fst

variable [DecidableEq κ]

/-- The two-result index expression `v, found := m[k]`. -/
def get : GoMap κ ν → κ → Option ν
  | [], _ => none
  | (k', v') :: m, k => if k' = k then some v' else get m k

/-- The assignment `m[k] = v`. -/
def set : GoMap κ ν → κ → ν → GoMap κ ν
  | [], k, v => [(k, v)]
  | (k', v') :: m, k, v => if k' = k then (k, v) :: m else (k', v') :: set m k v

/-- The builtin `delete(m, k)`. -/
def delete : GoMap κ ν → κ → GoMap κ ν
  | [], _ => []
  | (k', v') :: m, k => if k' = k then delete m k else (k', v') :: delete m k

end GoMap

/-! ## Floating point values -/

/-- A Go `float64`: NaN, the two infinities, or a finite value. -/
inductive F64 where
  | nan : F64
  | negInf : F64
  | fin (q : ℚ) : F64
  | posInf : F64
  deriving DecidableEq

namespace F64

/-- The comparison `a < b` of two `float64` values. -/
def lt : F64 → F64 → Bool
  | fin a, fin b => decide (a < b)
  | negInf, fin _ => true
  | negInf, posInf => true
  | fin _, posInf => true
  | _, _ => false

/-- The comparison `a > b` of two `float64` values. -/
def gt (a b : F64) : Bool := lt b a

/-- The constant `math.MaxFloat64`, `(2 - 2^(-52)) * 2^1023`. -/
def maxFloat64 : F64 := fin ((2 ^ 53 - 1) * 2 ^ 971)

end F64

/-! ## Telemetry records (`sondehubpacket.go`) -/

/-- The fields of `SHPacket` that the processing core reads.  `TimeReceived`
is kept as the value of `TimeReceived.Unix()`; the field `Type` is written
`Type_`. -/
structure SHPacket where
  UploaderCallsign : String
  TimeReceived : Int
  Manufacturer : String
  Type_ : String
  Serial : String
  Subtype : String
  Frame : Int
  Lat : F64
  Lon : F64
  Alt : F64
  VelV : F64
  Frequency : F64
  deriving DecidableEq

/-- One iteration of the loop of `FilterUnique`. -/
def FilterUnique.step (result : GoMap String SHPacket) (pkt : SHPacket) :
    GoMap String SHPacket :=
  match result.get pkt.Serial with
  | none => result.set pkt.Serial pkt
  | some existing =>
    if pkt.Frame > existing.Frame then result.set pkt.Serial pkt else result

/-- The function `FilterUnique`: a map serial -> packet that keeps, for each
serial, a packet with the highest frame. -/
def FilterUnique (packets : List SHPacket) : GoMap String SHPacket :=
  packets.foldl FilterUnique.step []

/-! ## The device lock (`sondemutex.go`) -/

/-- The lock table `sondeMutex`, a `map[string]struct{}`. -/
abbrev LockTable := GoMap String Unit

/-- The function `claimSonde`: the returned flag and the table afterwards. -/
def claimSonde (sondeMutex : LockTable) (serial : String) : Bool × LockTable :=
  match sondeMutex.get serial with
  | some _ => (false, sondeMutex)
  | none => (true, sondeMutex.set serial ())

/-- The function `releaseSonde`: the table afterwards. -/
def releaseSonde (sondeMutex : LockTable) (serial : String) : LockTable :=
  sondeMutex.delete serial

/-! ## Machine integers and bytes -/

/-- The value of an `int64` after an addition that may wrap around. -/
def wrap64 (x : Int) : Int := (x + 2 ^ 63) % 2 ^ 64 - 2 ^ 63

/-- The values an `int64` can hold. -/
def inInt64 (x : Int) : Prop := -(2 ^ 63) ≤ x ∧ x < 2 ^ 63

/-- The bytes of a Go string: the UTF-8 encoding of its characters.  `len(s)`
is the length of this list and `s[i]` its `i`-th element. -/
def goBytes (s : String) : List Nat :=
  (s.toList.flatMap String.utf8EncodeChar).map UInt8.toNat

/-- The subtraction `a - b` of two `byte` values, which wraps modulo 256. -/
def byteSub (a b : Nat) : Nat := (a + 256 - b % 256) % 256

/-! ## Dates (`time.Time` restricted to calendar dates, UTC) -/

/-- A `time.Time` at midnight UTC, as the number of days since 0001-01-01. -/
structure GoTime where
  days : Int
  deriving DecidableEq

namespace GoTime

/-- The zero value `time.Time{}`, January 1 of year 1. -/
def zero : GoTime := ⟨0⟩

/-- Whether `year` is a leap year of the Gregorian calendar. -/
def isLeap (year : Int) : Bool :=
  year % 4 = 0 ∧ (year % 100 ≠ 0 ∨ year % 400 = 0)

/-- Days from 0001-01-01 to January 1 of `year`. -/
def daysSinceYear1 (year : Int) : Int :=
  365 * (year - 1) + (year - 1) / 4 - (year - 1) / 100 + (year - 1) / 400

/-- The table `daysBefore` of package `time`: days of a non-leap year before
the month with index `m` (0 = January). -/
def daysBefore (m : Int) : Int :=
  [0, 31, 59, 90, 120, 151, 181, 212, 243, 273, 304, 334].getD m.toNat 0

/-- `time.Date(year, month, day, 0, 0, 0, 0, time.UTC)`: the month is brought
into 1..12 by carrying into the year, the day is then counted from the start
of that month (so day values outside the month carry over). -/
def date (year month day : Int) : GoTime :=
  let y := year + (month - 1) / 12
  let m := (month - 1) % 12
  ⟨daysSinceYear1 y + daysBefore m + (if isLeap y && decide (m ≥ 2) then 1 else 0) + (day - 1)⟩

/-- `t.AddDate(0, 0, n)`, which is `Date(y, m, d+n, ...)` for the date `y-m-d`
of `t`: the instant `n` days later. -/
def addDays (t : GoTime) (n : Int) : GoTime := ⟨t.days + n⟩

/-- `int(t.Weekday())`: 0 = Sunday, ..., 6 = Saturday.  Day 0 (0001-01-01) is
a Monday. -/
def weekday (t : GoTime) : Int := (t.days + 1) % 7

end GoTime

/-! ## ISO-8601 week dates (the reference notion the decoder is compared with) -/

/-- ISO weekday of a date, 1 = Monday, ..., 7 = Sunday. -/
def isoWeekday (t : GoTime) : Int := t.days % 7 + 1

/-- The Thursday of the Monday-to-Sunday week that contains `t`. -/
def isoThursday (t : GoTime) : Int := t.days - (isoWeekday t - 1) + 3

/-- ISO-8601: a date belongs to week-numbering year `Y` and week `W` when the
Thursday of its week lies in calendar year `Y` and is the `W`-th Thursday of
that year; `d` is its weekday, 1 = Monday. -/
def IsISOWeekDate (t : GoTime) (Y W d : Int) : Prop :=
  isoWeekday t = d ∧
  GoTime.daysSinceYear1 Y ≤ isoThursday t ∧
  isoThursday t < GoTime.daysSinceYear1 (Y + 1) ∧
  (isoThursday t - GoTime.daysSinceYear1 Y) / 7 + 1 = W

instance (t : GoTime) (Y W d : Int) : Decidable (IsISOWeekDate t Y W d) := by
  unfold IsISOWeekDate
  infer_instance

/-! ## The serial date decoder (`rs41.go`) -/

/-- The table `RS41DateCodeTable`: first byte of the serial -> year. -/
def RS41DateCodeTable : GoMap Nat Int :=
  [('A'.toNat, 2028), ('B'.toNat, 2029), ('C'.toNat, 2030), ('D'.toNat, 2031),
   ('E'.toNat, 2032), ('F'.toNat, 2033), ('G'.toNat, 2034), ('J'.toNat, 2013),
   ('K'.toNat, 2014), ('L'.toNat, 2015), ('M'.toNat, 2016), ('N'.toNat, 2017),
   ('P'.toNat, 2018), ('R'.toNat, 2019), ('S'.toNat, 2020), ('T'.toNat, 2021),
   ('U'.toNat, 2022), ('V'.toNat, 2023), ('W'.toNat, 2024), ('X'.toNat, 2025),
   ('Y'.toNat, 2026), ('Z'.toNat, 2027)]

/-- The function `getDateOfISOWeek`: the Monday of the given ISO week. -/
def getDateOfISOWeek (week year : Int) : GoTime :=
  let jan4 := GoTime.date year 1 4
  let isoWeekStart := jan4.addDays ((week - 1) * 7)
  let weekday := isoWeekStart.weekday
  let weekday := if weekday = 0 then 7 else weekday
  isoWeekStart.addDays (1 - weekday)

/-- The function `ResolveRS41Date` on the bytes of the serial: the date and the
error (`none` for `nil`). -/
def ResolveRS41Date.ofBytes (serial : List Nat) : GoTime × Option String :=
  if serial.length < 4 then
    (GoTime.zero, some "serial too short")
  else
    match RS41DateCodeTable.get (serial.getD 0 0) with
    | none => (GoTime.zero, some "unknown year code")
    | some year =>
      let week : Int :=
        [1, 2].foldl (fun week i => week * 10 + (byteSub (serial.getD i 0) '0'.toNat : Nat)) 0
      let days : Int := (byteSub (serial.getD 3 0) '0'.toNat : Nat) - 1
      let isoMonday := getDateOfISOWeek week year
      (isoMonday.addDays days, none)

/-- The function `ResolveRS41Date`. -/
def ResolveRS41Date (serial : String) : GoTime × Option String :=
  ResolveRS41Date.ofBytes (goBytes serial)

/-! ## The proximity index (`utils.go`) -/

/-- The rounded `float64` operations and the functions of package `math` used
by `haversineMiles`; they belong to the Go runtime and library. -/
structure GoMath where
  add : F64 → F64 → F64
  sub : F64 → F64 → F64
  mul : F64 → F64 → F64
  div : F64 → F64 → F64
  Sin : F64 → F64
  Cos : F64 → F64
  Sqrt : F64 → F64
  Atan2 : F64 → F64 → F64

/-- The constant `math.Pi` as a `float64`. -/
def mathPi : F64 := F64.fin (884279719003555 / 281474976710656)

/-- The struct `Point`. -/
structure Point where
  Lat : F64
  Lon : F64
  Name : String
  deriving DecidableEq

/-- The zero value `Point{}`. -/
def Point.zero : Point := ⟨F64.fin 0, F64.fin 0, ""⟩

/-- The function `haversineMiles`; `R` is `3958.8` as a `float64`. -/
def haversineMiles (m : GoMath) (lat1 lon1 lat2 lon2 : F64) : F64 :=
  let R := F64.fin (4352746632039629 / 1099511627776)
  let lat1Rad := m.div (m.mul lat1 mathPi) (F64.fin 180)
  let lat2Rad := m.div (m.mul lat2 mathPi) (F64.fin 180)
  let deltaLat := m.div (m.mul (m.sub lat2 lat1) mathPi) (F64.fin 180)
  let deltaLon := m.div (m.mul (m.sub lon2 lon1) mathPi) (F64.fin 180)
  let a := m.add
    (m.mul (m.Sin (m.div deltaLat (F64.fin 2))) (m.Sin (m.div deltaLat (F64.fin 2))))
    (m.mul (m.mul (m.mul (m.Cos lat1Rad) (m.Cos lat2Rad)) (m.Sin (m.div deltaLon (F64.fin 2))))
      (m.Sin (m.div deltaLon (F64.fin 2))))
  let c := m.mul (F64.fin 2) (m.Atan2 (m.Sqrt a) (m.Sqrt (m.sub (F64.fin 1) a)))
  m.mul R c

/-- One iteration of the loop of `FindClosestPoint` on the pair
`(minDist, closest)`. -/
def FindClosestPoint.step (m : GoMath) (lat lon : F64) (acc : F64 × Point) (p : Point) :
    F64 × Point :=
  let dist := haversineMiles m lat lon p.Lat p.Lon
  if F64.lt dist acc.1 then (dist, p) else acc

/-- The function `FindClosestPoint`: the point, the distance and the error
(`none` for `nil`). -/
def FindClosestPoint (m : GoMath) (lat lon : F64) (points : List Point) :
    Point × F64 × Option String :=
  if points.length = 0 then
    (Point.zero, F64.fin 0, some "no points provided")
  else
    let r := points.foldl (FindClosestPoint.step m lat lon) (F64.maxFloat64, Point.zero)
    (r.2, r.1, none)

/-- An executable instance of `GoMath` for evaluating the definitions on
examples: exact arithmetic on finite values and the first-order approximations
`sin x = x`, `cos x = 1`, `sqrt x = x`, `atan2 y x = y`. -/
def GoMath.firstOrder : GoMath where
  add := fun a b => match a, b with
    | F64.fin x, F64.fin y => F64.fin (x + y)
    | _, _ => F64.nan
  sub := fun a b => match a, b with
    | F64.fin x, F64.fin y => F64.fin (x - y)
    | _, _ => F64.nan
  mul := fun a b => match a, b with
    | F64.fin x, F64.fin y => F64.fin (x * y)
    | _, _ => F64.nan
  div := fun a b => match a, b with
    | F64.fin x, F64.fin y => if y = 0 then F64.nan else F64.fin (x / y)
    | _, _ => F64.nan
  Sin := fun a => a
  Cos := fun _ => F64.fin 1
  Sqrt := fun a => a
  Atan2 := fun y _ => y

/-! ## Sessions and external collaborators (`redismgr.go`, `balloony.go`) -/

/-- The struct `SondeSession`.  `IMetAlt` is the integer field that
`balloony.go` reads and writes as `session.IMetAlt`. -/
structure SondeSession where
  Time : Int
  Webhook : String
  FromText : String
  IMetAlt : Int
  deriving DecidableEq

/-- The session store behind `redisclient`: serial -> session. -/
abbrev SessionStore := GoMap String SondeSession

/-- The fields of `SHPredictionResult` that the handlers read. -/
structure SHPredictionResult where
  Time : Int
  Latitude : F64
  Longitude : F64
  deriving DecidableEq

/-- The process-wide settings the handlers read: `updateInterval`, the value of
`DISCORD_WEBHOOK_URL`, `launchSites`, `receivers`, and the arithmetic. -/
structure Config where
  updateInterval : Int
  webhookURL : String
  launchSites : List Point
  receivers : List Point
  math : GoMath

/-- What the external collaborators answer while one record is processed;
`none` and `false` stand for a returned error.
* `geocodeAct`: `RadarReverseGeocode(pkt.Lat, pkt.Lon)` (the location text);
* `prediction`: `GetPrediction(pkt.Serial)`;
* `render`: `RenderSondeMapToBuffer(pkt, shPred)`;
* `geocodePred`: `RadarReverseGeocode(shPred.Latitude, shPred.Longitude)`;
* `sendImage`: `SendUpdatedWebhookWithImage` (the id of the response);
* `send`: `SendDiscordWebhook` (the id of the response);
* `save`: `SaveSondeSession`. -/
structure Outcomes where
  geocodeAct : Option String
  prediction : Option SHPredictionResult
  render : Option Unit
  geocodePred : Option String
  sendImage : Option String
  send : Option String
  save : Bool

/-- A call to an external collaborator.  The body of a webhook message (embed
title and fields) is not part of the record of the call. -/
inductive Event where
  | reverseGeocode (lat lon : F64) : Event
  | getPrediction (serial : String) : Event
  | renderMap (serial : String) : Event
  | sendDiscordWebhook (webhookURL : String) (edit : Bool) : Event
  | sendUpdatedWebhookWithImage (webhookURL : String) : Event
  | saveSondeSession (serial : String) (session : SondeSession) : Event
  deriving DecidableEq

/-- The state outside the handler: the session store and the calls made so
far, oldest first. -/
structure World where
  store : SessionStore
  log : List Event

/-- Record a call. -/
def World.call (w : World) (e : Event) : World := { w with log := w.log ++ [e] }

/-- The method `SaveSondeSession`: the call is recorded and, unless the store
answers with an error, the entry of `serial` is replaced. -/
def World.SaveSondeSession (w : World) (o : Outcomes) (serial : String)
    (session : SondeSession) : World :=
  let w := w.call (Event.saveSondeSession serial session)
  if o.save then { w with store := w.store.set serial session } else w

/-- The throttle gate at the head of `handleSonde`: true when the function
returns there. -/
def handleSonde.suppressed (updateInterval : Int) (pkt : SHPacket) (session : SondeSession) :
    Bool :=
  if pkt.TimeReceived < wrap64 (session.Time + updateInterval) then
    if F64.lt pkt.Alt (F64.fin 3048) && F64.lt pkt.VelV (F64.fin 0) then
      if pkt.TimeReceived < wrap64 (session.Time + 30) then
        true
      else
        false
    else
      true
  else
    false

/-- The end of `handleSonde`: the time of the session is updated and the
session saved. -/
def handleSonde.finish (o : Outcomes) (pkt : SHPacket) (session : SondeSession) (w : World) :
    World :=
  let session := { session with Time := pkt.TimeReceived }
  w.SaveSondeSession o pkt.Serial session

/-- The function `handleSonde`. -/
def handleSonde (cfg : Config) (o : Outcomes) (pkt : SHPacket) (session : SondeSession)
    (w : World) : World :=
  if handleSonde.suppressed cfg.updateInterval pkt session then
    w
  else
    let w := w.call (Event.reverseGeocode pkt.Lat pkt.Lon)
    match o.geocodeAct with
    | none => w
    | some _ =>
      let w := w.call (Event.getPrediction pkt.Serial)
      match o.prediction with
      | none => w
      | some shPred =>
        let w := w.call (Event.renderMap pkt.Serial)
        let hasImage := o.render.isSome
        let w := w.call (Event.reverseGeocode shPred.Latitude shPred.Longitude)
        match o.geocodePred with
        | none => w
        | some _ =>
          if hasImage then
            let w := w.call (Event.sendUpdatedWebhookWithImage session.Webhook)
            handleSonde.finish o pkt session w
          else
            let w := w.call (Event.sendDiscordWebhook session.Webhook true)
            match o.send with
            | none => w
            | some _ => handleSonde.finish o pkt session w

/-- The session that `handleNewSonde` builds before it sends the notification:
the origin annotation comes from the nearest launch site. -/
def handleNewSonde.session (cfg : Config) (pkt : SHPacket) : SondeSession :=
  let session : SondeSession :=
    { Time := pkt.TimeReceived, Webhook := cfg.webhookURL, FromText := "", IMetAlt := 0 }
  let r := FindClosestPoint cfg.math pkt.Lat pkt.Lon cfg.launchSites
  let session := if r.2.2.isSome then { session with FromText := "" } else session
  if F64.lt r.2.1 (F64.fin 10) then { session with FromText := "From " ++ r.1.Name }
  else session

/-- The function `handleNewSonde`. -/
def handleNewSonde (cfg : Config) (o : Outcomes) (pkt : SHPacket) (w : World) : World :=
  let session := handleNewSonde.session cfg pkt
  let w := w.call (Event.reverseGeocode pkt.Lat pkt.Lon)
  let w := w.call (Event.sendDiscordWebhook session.Webhook false)
  match o.send with
  | none => w
  | some resID =>
    let session := { session with Webhook := session.Webhook ++ "/messages/" ++ resID }
    w.SaveSondeSession o pkt.Serial session

/-! ## Example data -/

/-- A record of an RS41 received at 1700003600, descending at 2500 m. -/
def examplePacket : SHPacket :=
  { UploaderCallsign := "N0CALL", TimeReceived := 1700003600, Manufacturer := "Vaisala",
    Type_ := "RS41", Serial := "T0511234", Subtype := "RS41-SG", Frame := 4200,
    Lat := F64.fin 41, Lon := F64.fin (-93), Alt := F64.fin 2500, VelV := F64.fin (-5),
    Frequency := F64.fin 404 }

/-- A session last processed at 1700000000. -/
def exampleSession : SondeSession :=
  { Time := 1700000000, Webhook := "https://discord.example/api/webhooks/1/abc/messages/77",
    FromText := "From Des Moines", IMetAlt := 0 }

/-- Settings with an update interval of one hour and two launch sites. -/
def exampleConfig : Config :=
  { updateInterval := 3600, webhookURL := "https://discord.example/api/webhooks/1/abc",
    launchSites := [⟨F64.fin 42, F64.fin (-93), "Des Moines"⟩, ⟨F64.fin 45, F64.fin (-93), "Chanhassen"⟩],
    receivers := [], math := GoMath.firstOrder }

/-- Every collaborator answers without error. -/
def exampleOutcomes : Outcomes :=
  { geocodeAct := some "Ames, IA", prediction := some ⟨1700007200, F64.fin 42, F64.fin (-92)⟩,
    render := some (), geocodePred := some "Waterloo, IA", sendImage := some "77",
    send := some "77", save := true }

/-- As `exampleOutcomes`, but the update with the rendered image fails. -/
def exampleOutcomesImageFails : Outcomes := { exampleOutcomes with sendImage := none }

/-- A world whose store holds `exampleSession` for the serial of
`examplePacket` and in which no call has been made. -/
def exampleWorld : World := { store := [("T0511234", exampleSession)], log := [] }

/-! ## The batch parser (`sondehubpacket.go`) -/

/-- The function `ParseBatch` applied to a payload that `json.Unmarshal`
decodes to `packets`: the returned slice and the error (`none` for `nil`).
The slice holds the values of the map of `FilterUnique`; Go ranges over a map
in an unspecified order, the model lists them in the order of `GoMap`. -/
def ParseBatch (packets : List SHPacket) : List SHPacket × Option String :=
  let uniquePackets := FilterUnique packets
  let result := uniquePackets.map Prod.snd
  if result.length = 0 then
    ([], some "no packets found in JSON")
  else
    (result, none)

/-! ## Conversions between `float64` and `int` -/

/-- The conversion `float64(n)` of an `int`.  It is exact up to `2^53` in
absolute value; a greater value has more than the 53 significant bits of a
`float64` and is rounded to the nearest value with 53 bits, a tie going to the
one whose last bit is 0: with `k` the number of bits in excess, `q` the value
without its last `k` bits and `r` those bits, the result is `q * 2^k`, or
`(q + 1) * 2^k` when `r` is more than half of `2^k`, or is the half and `q` is
odd. -/
def F64.ofInt (n : Int) : F64 :=
  if n.natAbs ≤ 2 ^ 53 then F64.fin n
  else
    let k := Nat.log2 n.natAbs - 52
    let q := n.natAbs / 2 ^ k
    let r := n.natAbs % 2 ^ k
    let up := decide (2 ^ (k - 1) < r) || (decide (r = 2 ^ (k - 1)) && decide (q % 2 = 1))
    let v : Int := (((if up then q + 1 else q) * 2 ^ k : Nat) : Int)
    F64.fin (if n < 0 then -v else v)

/-- The conversion `int(f)` of a `float64`: the fraction is discarded.  For a
value that does not fit an `int64` the Go specification leaves the result to
the implementation; the model takes the value of amd64, `-2^63`. -/
def F64.toInt : F64 → Int
  | F64.fin q =>
    if -(2 ^ 63 : Int) ≤ Int.tdiv q.num q.den ∧ Int.tdiv q.num q.den < 2 ^ 63 then
      Int.tdiv q.num q.den
    else -(2 ^ 63)
  | _ => -(2 ^ 63)

/-! ## The geofence filter (`utils.go`) -/

/-- The condition of the `if` in the loop of `InsidePoly` for the test point
`(x, y)` and the vertices `vs[i] = (xi, yi)` and `vs[j] = (xj, yj)`. -/
def InsidePoly.crosses (m : GoMath) (x y : F64) (vi vj : F64 × F64) : Bool :=
  let xi := vi.1
  let yi := vi.2
  let xj := vj.1
  let yj := vj.2
  (F64.gt yi y != F64.gt yj y) &&
    F64.lt x (m.add (m.div (m.mul (m.sub xj xi) (m.sub y yi)) (m.sub yj yi)) xi)

/-- One iteration of the loop of `InsidePoly` on the pair `(inside, vs[j])`. -/
def InsidePoly.step (m : GoMath) (x y : F64) (acc : Bool × (F64 × F64)) (vi : F64 × F64) :
    Bool × (F64 × F64) :=
  (if InsidePoly.crosses m x y vi acc.2 then !acc.1 else acc.1, vi)

/-- The function `InsidePoly`.  The point `[x, y]` and every vertex
`[vs[i][0], vs[i][1]]` are pairs; `i` runs over the vertices and `j` is the
vertex before `i`, starting with the last one. -/
def InsidePoly (m : GoMath) (point : F64 × F64) (vs : List (F64 × F64)) : Bool :=
  match vs.getLast? with
  | none => false
  | some last => (vs.foldl (InsidePoly.step m point.1 point.2) (false, last)).1

/-! ## The message handler (`balloony.go`) -/

/-- The settings of `Config` together with `boundaryPts` and
`bypassLocationFilter`. -/
structure Globals extends Config where
  boundaryPts : List (F64 × F64)
  bypassLocationFilter : Bool

/-- What the collaborators answer while one record of a batch is handled:
whether `GetSondeSession` returns an error, and the answers to the calls of
`handleSonde` or `handleNewSonde`. -/
structure RecordOutcomes where
  lookupFails : Bool
  calls : Outcomes

/-- The state the handler works on: the world of the collaborators and the lock
table `sondeMutex`. -/
structure Process where
  world : World
  sondeMutex : LockTable

/-- How an iteration of the loop of the handler ends: it goes on to the next
record (`continue` or the end of the body) or leaves the handler (`return`). -/
inductive Flow where
  | next : Flow
  | stop : Flow
  deriving DecidableEq

/-- The block "iMet sonde VelV spoofing": the record and the session as they
are after it. -/
def messagePubHandler.iMet (pkt : SHPacket) (session : Option SondeSession) :
    SHPacket × Option SondeSession :=
  if pkt.Manufacturer = "Intermet Systems" then
    match session with
    | some s =>
      let pkt :=
        if s.IMetAlt ≠ 0 then
          if F64.lt pkt.Alt (F64.ofInt s.IMetAlt) then { pkt with VelV := F64.fin (-1) }
          else { pkt with VelV := F64.fin 1 }
        else pkt
      (pkt, some { s with IMetAlt := F64.toInt pkt.Alt })
    | none => (pkt, none)
  else (pkt, session)

/-- The call of `handleNewSonde` or `handleSonde` at the end of the loop body,
after the iMet block. -/
def messagePubHandler.dispatch (g : Globals) (o : Outcomes) (pkt : SHPacket)
    (session : Option SondeSession) (w : World) : World :=
  match (messagePubHandler.iMet pkt session).2 with
  | none => handleNewSonde g.toConfig o (messagePubHandler.iMet pkt session).1 w
  | some s => handleSonde g.toConfig o (messagePubHandler.iMet pkt session).1 s w

/-- The body of the loop of `messagePubHandler` for one record. -/
def messagePubHandler.record (g : Globals) (ro : RecordOutcomes) (pkt : SHPacket)
    (p : Process) : Flow × Process :=
  if (!InsidePoly g.math (pkt.Lon, pkt.Lat) g.boundaryPts) && !g.bypassLocationFilter then
    (Flow.stop, p)
  else
    match claimSonde p.sondeMutex pkt.Serial with
    | (false, sondeMutex) => (Flow.next, { p with sondeMutex := sondeMutex })
    | (true, sondeMutex) =>
      if ro.lookupFails then
        (Flow.stop, { p with sondeMutex := releaseSonde sondeMutex pkt.Serial })
      else
        let session := p.world.store.get pkt.Serial
        let world := messagePubHandler.dispatch g ro.calls pkt session p.world
        (Flow.next, { world := world, sondeMutex := releaseSonde sondeMutex pkt.Serial })

/-- The loop of `messagePubHandler` over the records of a batch, each with the
answers of the collaborators during its turn. -/
def messagePubHandler.loop (g : Globals) :
    List (SHPacket × RecordOutcomes) → Process → Process
  | [], p => p
  | (pkt, ro) :: rest, p =>
    match messagePubHandler.record g ro pkt p with
    | (Flow.next, p') => messagePubHandler.loop g rest p'
    | (Flow.stop, p') => p'

/-- The handler `messagePubHandler` given what `ParseBatch` returned for the
payload: the packets (each with the answers of the collaborators) and the
error. -/
def messagePubHandler (g : Globals) (pkts : List (SHPacket × RecordOutcomes))
    (err : Option String) (p : Process) : Process :=
  match err with
  | some _ => p
  | none => messagePubHandler.loop g pkts p

/-! ## Example data for the message handler -/

/-- A record of an iMet sonde at 12000 m, received 60 s after the time of
`exampleIMetSession`. -/
def exampleIMetPacket : SHPacket :=
  { UploaderCallsign := "N0CALL", TimeReceived := 1700000060,
    Manufacturer := "Intermet Systems", Type_ := "iMet-4", Serial := "55067143",
    Subtype := "", Frame := 900, Lat := F64.fin 41, Lon := F64.fin (-93),
    Alt := F64.fin 12000, VelV := F64.fin 0, Frequency := F64.fin 404 }

/-- A session of the iMet sonde, last processed at 1700000000 with a last-seen
altitude of 15000 m. -/
def exampleIMetSession : SondeSession :=
  { Time := 1700000000, Webhook := "https://discord.example/api/webhooks/1/abc/messages/78",
    FromText := "", IMetAlt := 15000 }

/-- A world whose store holds `exampleIMetSession` for the iMet sonde. -/
def exampleIMetWorld : World := { store := [("55067143", exampleIMetSession)], log := [] }

/-- As `exampleIMetPacket`, but received an hour after the time of the
session. -/
def exampleIMetPacketLater : SHPacket := { exampleIMetPacket with TimeReceived := 1700003600 }

/-- The example settings with a rectangular boundary around the example
positions (longitude -100..-85, latitude 35..48) and the filter in force. -/
def exampleGlobals : Globals :=
  { toConfig := exampleConfig,
    boundaryPts := [(F64.fin (-100), F64.fin 35), (F64.fin (-85), F64.fin 35),
      (F64.fin (-85), F64.fin 48), (F64.fin (-100), F64.fin 48)],
    bypassLocationFilter := false }

/-- The iMet world with an empty lock table. -/
def exampleProcess : Process := { world := exampleIMetWorld, sondeMutex := [] }

/-- Every collaborator answers without error and the session lookup
succeeds. -/
def exampleRecordOutcomes : RecordOutcomes := { lookupFails := false, calls := exampleOutcomes }

/-- The example settings without any launch site. -/
def exampleConfigNoSites : Config := { exampleConfig with launchSites := [] }

/-- As `exampleOutcomes`, but the reverse geocoding of the position of the
record fails. -/
def exampleOutcomesGeocodeFails : Outcomes := { exampleOutcomes with geocodeAct := none }

/-- A world with an empty store and no call made. -/
def emptyWorld : World := { store := [], log := [] }

/-! ## Facts of `float64` arithmetic -/

/-- The value of `math.MaxFloat64` as a rational. -/
def F64.maxValue : ℚ := (2 ^ 53 - 1) * 2 ^ 971

/-- The value of `math.Pi` (as a `float64`) as a rational. -/
def mathPiValue : ℚ := 884279719003555 / 281474976710656

/-- Facts about the `float64` operations (IEEE-754, round to nearest) and
about the special cases documented for the functions of package `math`, as far
as the proofs about `haversineMiles` use them.  The two zeros are not told
apart.
* a result whose exact value is within `MaxFloat64` is finite; a product of at
  least `2^1024` overflows to `+Inf`;
* `x - x`, `0 * x`, `x * 0`, `0 / x` and `0 + 0` are 0, and `1 - 0` is 1;
* an operation with a NaN operand gives NaN; `+Inf / y` is `+Inf` for `y > 0`;
* `Sin(0) = 0`, `Sqrt(0) = 0`, `Sqrt(1) = 1`, `Atan2(0, 1) = 0`;
* `Cos` of a finite value is a finite value in `[-1, 1]`, `Cos(+Inf)` is NaN;
* `Sqrt(NaN)` and `Atan2(NaN, x)` are NaN. -/
structure GoMath.IEEE (m : GoMath) : Prop where
  mul_finite : ∀ x y : ℚ, |x * y| ≤ F64.maxValue →
    ∃ z : ℚ, |z| ≤ F64.maxValue ∧ m.mul (F64.fin x) (F64.fin y) = F64.fin z
  div_finite : ∀ x y : ℚ, y ≠ 0 → |x / y| ≤ F64.maxValue →
    ∃ z : ℚ, |z| ≤ F64.maxValue ∧ m.div (F64.fin x) (F64.fin y) = F64.fin z
  mul_overflow : ∀ x y : ℚ, 2 ^ 1024 ≤ x * y → m.mul (F64.fin x) (F64.fin y) = F64.posInf
  sub_self : ∀ x : ℚ, m.sub (F64.fin x) (F64.fin x) = F64.fin 0
  zero_mul : ∀ x : ℚ, m.mul (F64.fin 0) (F64.fin x) = F64.fin 0
  mul_zero : ∀ x : ℚ, m.mul (F64.fin x) (F64.fin 0) = F64.fin 0
  zero_div : ∀ x : ℚ, x ≠ 0 → m.div (F64.fin 0) (F64.fin x) = F64.fin 0
  zero_add_zero : m.add (F64.fin 0) (F64.fin 0) = F64.fin 0
  one_sub_zero : m.sub (F64.fin 1) (F64.fin 0) = F64.fin 1
  nan_mul : ∀ a : F64, m.mul F64.nan a = F64.nan
  mul_nan : ∀ a : F64, m.mul a F64.nan = F64.nan
  add_nan : ∀ a : F64, m.add a F64.nan = F64.nan
  sub_nan : ∀ a : F64, m.sub a F64.nan = F64.nan
  posInf_div : ∀ y : ℚ, 0 < y → m.div F64.posInf (F64.fin y) = F64.posInf
  sin_zero : m.Sin (F64.fin 0) = F64.fin 0
  cos_finite : ∀ x : ℚ, ∃ c : ℚ, |c| ≤ 1 ∧ m.Cos (F64.fin x) = F64.fin c
  cos_posInf : m.Cos F64.posInf = F64.nan
  sqrt_zero : m.Sqrt (F64.fin 0) = F64.fin 0
  sqrt_one : m.Sqrt (F64.fin 1) = F64.fin 1
  sqrt_nan : m.Sqrt F64.nan = F64.nan
  atan2_zero_one : m.Atan2 (F64.fin 0) (F64.fin 1) = F64.fin 0
  atan2_nan : ∀ a : F64, m.Atan2 F64.nan a = F64.nan

/-- A rational as a `float64` when only overflow is accounted for: values
beyond `MaxFloat64` become an infinity. -/
def F64.ofRat (q : ℚ) : F64 :=
  if F64.maxValue < q then F64.posInf
  else if q < -F64.maxValue then F64.negInf
  else F64.fin q

/-- An executable instance of `GoMath` that has the properties `GoMath.IEEE`:
exact arithmetic with overflow to an infinity and with NaN for every other
operation on a non-finite operand (but `+Inf / y = +Inf` for `y > 0`), and
stand-ins for the functions of `math` that agree with them at the special
arguments. -/
def GoMath.coarse : GoMath where
  add := fun a b => match a, b with
    | F64.fin x, F64.fin y => F64.ofRat (x + y)
    | _, _ => F64.nan
  sub := fun a b => match a, b with
    | F64.fin x, F64.fin y => F64.ofRat (x - y)
    | _, _ => F64.nan
  mul := fun a b => match a, b with
    | F64.fin x, F64.fin y => F64.ofRat (x * y)
    | _, _ => F64.nan
  div := fun a b => match a, b with
    | F64.fin x, F64.fin y => if y = 0 then F64.nan else F64.ofRat (x / y)
    | F64.posInf, F64.fin y => if 0 < y then F64.posInf else F64.nan
    | _, _ => F64.nan
  Sin := fun a => match a with
    | F64.fin _ => F64.fin 0
    | _ => F64.nan
  Cos := fun a => match a with
    | F64.fin _ => F64.fin 1
    | _ => F64.nan
  Sqrt := fun a => match a with
    | F64.fin x => F64.fin x
    | _ => F64.nan
  Atan2 := fun a b => match a, b with
    | F64.fin y, F64.fin _ => F64.fin y
    | _, _ => F64.nan

/-- A point at latitude `2^1023`, a finite `float64`. -/
def examplePointFar : Point := ⟨F64.fin (2 ^ 1023), F64.fin 0, "P"⟩

/-! ## Concurrent invocations of the handler: the lock protocol -/

/-- Where one invocation of `messagePubHandler` stands with respect to the
device lock.
* `atLoop ids`: at the head of the loop, with the records of serials `ids`
  still to be handled;
* `holding id ids`: between a successful `claimSonde(id)` and the
  `releaseSonde(id)` that follows it (session lookup, `handleSonde` or
  `handleNewSonde`), with `ids` still to be handled;
* `returned`: the handler has returned. -/
inductive Invocation where
  | atLoop (todo : List String) : Invocation
  | holding (id : String) (todo : List String) : Invocation
  | returned : Invocation
  deriving DecidableEq

/-- The lock table shared by the invocations of the handler that are running
or have run. -/
structure Shared where
  sondeMutex : LockTable
  invocations : List Invocation

/-- A step of the system.  `claimSonde` and `releaseSonde` hold `sondeMutexMu`
from their first to their last statement, so each of them is one step.
* `arrive ids`: the handler is invoked on a batch with serials `ids`;
* `advance i`: invocation `i` goes on: at the head of the loop it calls
  `claimSonde` for the next record (or returns when none is left), while
  holding an id it finishes the record and calls `releaseSonde`;
* `leave i`: invocation `i` returns early: at the head of the loop for a
  record outside the boundary, while holding an id after a failed session
  lookup (`releaseSonde` is called first). -/
inductive Action where
  | arrive (todo : List String) : Action
  | advance (i : Nat) : Action
  | leave (i : Nat) : Action

/-- The state after a step. -/
def Shared.step (s : Shared) : Action → Shared
  | Action.arrive todo => { s with invocations := s.invocations ++ [Invocation.atLoop todo] }
  | Action.advance i =>
    match s.invocations[i]? with
    | some (Invocation.atLoop []) =>
      { s with invocations := s.invocations.set i Invocation.returned }
    | some (Invocation.atLoop (id :: rest)) =>
      match claimSonde s.sondeMutex id with
      | (true, sondeMutex) =>
        { sondeMutex := sondeMutex,
          invocations := s.invocations.set i (Invocation.holding id rest) }
      | (false, sondeMutex) =>
        { sondeMutex := sondeMutex, invocations := s.invocations.set i (Invocation.atLoop rest) }
    | some (Invocation.holding id rest) =>
      { sondeMutex := releaseSonde s.sondeMutex id,
        invocations := s.invocations.set i (Invocation.atLoop rest) }
    | _ => s
  | Action.leave i =>
    match s.invocations[i]? with
    | some (Invocation.atLoop (_ :: _)) =>
      { s with invocations := s.invocations.set i Invocation.returned }
    | some (Invocation.holding id _) =>
      { sondeMutex := releaseSonde s.sondeMutex id,
        invocations := s.invocations.set i Invocation.returned }
    | _ => s

/-- The state at the start of the process: an empty lock table and no
invocation. -/
def Shared.init : Shared := { sondeMutex := [], invocations := [] }

/-- The state after a sequence of steps from the start. -/
def Shared.run (actions : List Action) : Shared := actions.foldl Shared.step Shared.init

/-! ## The geofence on exact rationals

The notions of the plane that the statements about `InsidePoly` use: points
with rational coordinates, the boundary of a ring, a point outside a ring, a
convex ring and its centroid.  They are not part of the program. -/

/-- The arithmetic is exact on finite values: the four operations that
`InsidePoly` uses give the rational result (the quotient for a divisor other
than zero). -/
structure GoMath.Exact (m : GoMath) : Prop where
  add : ∀ x y : ℚ, m.add (F64.fin x) (F64.fin y) = F64.fin (x + y)
  sub : ∀ x y : ℚ, m.sub (F64.fin x) (F64.fin y) = F64.fin (x - y)
  mul : ∀ x y : ℚ, m.mul (F64.fin x) (F64.fin y) = F64.fin (x * y)
  div : ∀ x y : ℚ, y ≠ 0 → m.div (F64.fin x) (F64.fin y) = F64.fin (x / y)

/-- A point of the plane with exact rational coordinates, `(x, y)`. -/
abbrev Pt := ℚ × ℚ

/-- The point as a pair of finite `float64` values. -/
def Pt.toF64 (p : Pt) : F64 × F64 := (F64.fin p.1, F64.fin p.2)

/-- The condition of the `if` in the loop of `InsidePoly` on exact rationals,
for the test point `P` and the vertices `vs[i] = A` and `vs[j] = B`. -/
def crossesQ (P A B : Pt) : Bool :=
  (decide (A.2 > P.2) != decide (B.2 > P.2)) &&
    decide (P.1 < (B.1 - A.1) * (P.2 - A.2) / (B.2 - A.2) + A.1)

/-- The pairs `(vs[i], vs[j])` that the loop of `InsidePoly` visits: every
vertex with the vertex before it, the first with the last. -/
def ringEdges {α : Type} (vs : List α) : List (α × α) :=
  match vs.getLast? with
  | none => []
  | some last => vs.zip (last :: vs)

/-- Whether an odd number of the entries is true. -/
def xorAll : List Bool → Bool
  | [] => false
  | b :: l => xor b (xorAll l)

/-- The value of `InsidePoly` on exact rationals: the parity of the number of
edges of the ring that `crossesQ` accepts. -/
def insideQ (P : Pt) (vs : List Pt) : Bool :=
  xorAll ((ringEdges vs).map (fun e => crossesQ P e.1 e.2))

/-- The point `X` lies on the segment from `A` to `B`, ends included. -/
def OnSegment (X A B : Pt) : Prop :=
  ∃ t : ℚ, 0 ≤ t ∧ t ≤ 1 ∧ X.1 = A.1 + t * (B.1 - A.1) ∧ X.2 = A.2 + t * (B.2 - A.2)

/-- A point of the boundary: a point of one of the edges. -/
def OnRing (X : Pt) (vs : List Pt) : Prop :=
  ∃ e ∈ ringEdges vs, OnSegment X e.1 e.2

/-- The segment from `Q` to `Q'` has no point on the boundary. -/
def SegmentClear (vs : List Pt) (Q Q' : Pt) : Prop :=
  ∀ X, OnSegment X Q Q' → ¬ OnRing X vs

/-- A point to the right of every vertex. -/
def Beyond (vs : List Pt) (F : Pt) : Prop := ∀ v ∈ vs, v.1 < F.1

/-- A point is outside the ring when a polygonal path that has no point on the
boundary leads from it to a point to the right of every vertex. -/
def Outside (vs : List Pt) (P : Pt) : Prop :=
  ∃ path : List Pt, List.Chain (SegmentClear vs) P path ∧ Beyond vs (path.getLastD P)

/-- The position of `V` relative to the line through `L` and `U`: positive
when `V` is on the side of greater `x` of a line that goes upward. -/
def sideOf (L U V : Pt) : ℚ :=
  (V.1 - L.1) * (U.2 - L.2) - (U.1 - L.1) * (V.2 - L.2)

/-- The mean of the vertices of a ring. -/
def centroid (vs : List Pt) : Pt :=
  ((vs.map Prod.fst).sum / vs.length, (vs.map Prod.snd).sum / vs.length)

/-- A convex, non-degenerate ring: the vertices are distinct, all of them lie
on the same side of (or on) the line of every edge, read in the direction of
the ring, and no line of an edge holds all of them. -/
def ConvexRing (vs : List Pt) : Prop :=
  vs ≠ [] ∧ vs.Nodup ∧
  ((∀ e ∈ ringEdges vs, ∀ v ∈ vs, 0 ≤ sideOf e.2 e.1 v) ∨
    (∀ e ∈ ringEdges vs, ∀ v ∈ vs, sideOf e.2 e.1 v ≤ 0)) ∧
  ∀ e ∈ ringEdges vs, ∃ v ∈ vs, sideOf e.2 e.1 v ≠ 0

/-- The boundary of `exampleGlobals` as a ring of points. -/
def exampleRing : List Pt := [(-100, 35), (-85, 35), (-85, 48), (-100, 48)]

/-- A point to the left of `exampleRing`. -/
def examplePointOutside : Pt := (-110, 40)

/-! ## The ray rule of the geofence (spec side) -/

/-- The x-coordinate at which the line through `A` and `B` meets the
horizontal line at height `y`. -/
def xAtHeight (A B : Pt) (y : ℚ) : ℚ := A.1 + (B.1 - A.1) * (y - A.2) / (B.2 - A.2)

/-- The rule as the specification words it: the edge from `A` to `B` counts for
the point `P` when the height of `P` lies strictly between the heights of the
ends and `P` is to the left of the point where the edge meets the horizontal
line through `P`. -/
def rayRuleStrict (P A B : Pt) : Bool :=
  decide ((min A.2 B.2 < P.2 ∧ P.2 < max A.2 B.2) ∧ P.1 < xAtHeight A B P.2)

/-- The rule with the lower end included: the height of `P` is at least the
smaller and less than the greater of the heights of the ends, and `P` is to
the left of the point where the edge meets the horizontal line through `P`. -/
def rayRule (P A B : Pt) : Bool :=
  decide ((min A.2 B.2 ≤ P.2 ∧ P.2 < max A.2 B.2) ∧ P.1 < xAtHeight A B P.2)

/-- A ring around the origin with two vertices at the height of the origin. -/
def exampleDiamond : List Pt := [(0, -1), (1, 0), (0, 1), (-1, 0)]

/-! ## Example data for batches of several records -/

/-- As `examplePacket`, but of another device and west of the boundary of
`exampleGlobals`. -/
def exampleOutsidePacket : SHPacket :=
  { examplePacket with Serial := "T0519999", Lon := F64.fin (-120) }

/-- As `examplePacket`, but of another device. -/
def exampleOtherPacket : SHPacket := { examplePacket with Serial := "T0519999" }

/-- The session lookup of the record fails. -/
def exampleLookupFails : RecordOutcomes := { lookupFails := true, calls := exampleOutcomes }

/-- An empty store, no call made, and an empty lock table. -/
def emptyProcess : Process := { world := emptyWorld, sondeMutex := [] }

/-! ## Example data for the iMet altitude comparison -/

/-- As `exampleIMetPacket`, but at 20000 m. -/
def exampleIMetHigh : SHPacket := { exampleIMetPacket with Alt := F64.fin 20000 }

/-- The next record of the same sonde, 60 s after `exampleIMetHigh`, at
18000 m. -/
def exampleIMetNext : SHPacket :=
  { exampleIMetPacket with Alt := F64.fin 18000, TimeReceived := 1700000120 }

/-- As `exampleIMetPacket`, but at 12000.7 m. -/
def exampleIMetFraction : SHPacket := { exampleIMetPacket with Alt := F64.fin (120007 / 10) }

/-- The next record of the same sonde, 60 s after `exampleIMetFraction`, at
12000.5 m. -/
def exampleIMetFractionNext : SHPacket :=
  { exampleIMetPacket with Alt := F64.fin (24001 / 2), TimeReceived := 1700000120 }

/-! ## Example data for the throttle gate -/

/-- The example settings with the greatest update interval an `int64` can
hold, which `strconv.ParseInt(..., 10, 64)` accepts. -/
def exampleConfigMaxInterval : Config := { exampleConfig with updateInterval := 2 ^ 63 - 1 }

/-! ## The haversine formula (spec side) -/

/-- The radius of the earth in miles, 3958.8, as a `float64`. -/
def earthRadiusMiles : F64 := F64.fin (8705493264079258 / 2 ^ 41)

/-- The loop invariant of `FilterUnique`: `m` is the result for the packets `l`
seen so far. -/
def FilterUnique.Inv (m : GoMap String SHPacket) (l : List SHPacket) : Prop :=
  m.keys.Nodup ∧
  (∀ s, s ∈ m.keys ↔ ∃ p ∈ l, p.Serial = s) ∧
  (∀ s q, m.get s = some q →
    q ∈ l ∧ q.Serial = s ∧ ∀ p ∈ l, p.Serial = s → p.Frame ≤ q.Frame)

/-- The loop invariant of `FindClosestPoint`: either no point has been seen and
the pair is the initial one, or the pair holds a point of the list seen so far
with its distance, every earlier point is strictly farther and no later point
is strictly closer. -/
def FindClosestPoint.Inv (m : GoMath) (lat lon : F64) (done : List Point) (acc : F64 × Point) :
    Prop :=
  (done = [] ∧ acc = (F64.maxFloat64, Point.zero)) ∨
  ∃ pre post, done = pre ++ acc.2 :: post ∧
    acc.1 = haversineMiles m lat lon acc.2.Lat acc.2.Lon ∧
    (∀ p ∈ pre, F64.lt acc.1 (haversineMiles m lat lon p.Lat p.Lon) = true) ∧
    (∀ p ∈ post, F64.lt (haversineMiles m lat lon p.Lat p.Lon) acc.1 = false)

/-- The invariant of the lock protocol: an id that an invocation holds is in
the lock table, and no two invocations hold the same id. -/
def Shared.Inv (s : Shared) : Prop :=
  (∀ (i : Nat) id rest, s.invocations[i]? = some (Invocation.holding id rest) →
    s.sondeMutex.get id = some ()) ∧
  (∀ (i j : Nat) id rest rest', s.invocations[i]? = some (Invocation.holding id rest) →
    s.invocations[j]? = some (Invocation.holding id rest') → i = j)

/-- The difference of the x-coordinates at height `y` of the lines `AB` and
`QQ'`, scaled by `(B.2 - A.2) * (Q'.2 - Q.2)`. -/
def gapAt (Q Q' A B : Pt) (y : ℚ) : ℚ :=
  (A.1 * (B.2 - A.2) + (B.1 - A.1) * (y - A.2)) * (Q'.2 - Q.2) -
    (Q.1 * (Q'.2 - Q.2) + (Q'.1 - Q.1) * (y - Q.2)) * (B.2 - A.2)

/-- Whether `V` lies in the region swept by the rays to the right of the
points of the segment `QQ'`, the height of `Q` excluded and that of `Q'`
included. -/
def inSweep (Q Q' V : Pt) : Bool :=
  decide (Q.2 < V.2 ∧ V.2 ≤ Q'.2 ∧ 0 < sideOf Q Q' V)

/-- Edges of a ring read in the direction that keeps the whole ring on the
nonpositive side: `E u v` is an edge from `u` to `v`. -/
structure EdgeSystem (vs : List Pt) (E : Pt → Pt → Prop) : Prop where
  mem_left : ∀ u v, E u v → u ∈ vs
  mem_right : ∀ u v, E u v → v ∈ vs
  pred : ∀ v ∈ vs, ∃ u, E u v
  functional : ∀ u v v', E u v → E u v' → v = v'
  side : ∀ u v, E u v → ∀ w ∈ vs, sideOf u v w ≤ 0
  off : ∀ u v, E u v → ∃ w ∈ vs, sideOf u v w ≠ 0

/-! # Theorems -/

/-! ## Facts about Go maps -/

namespace GoMap

variable {κ ν : Type} [DecidableEq κ]

omit [DecidableEq κ] in
theorem keys_cons (e : κ × ν) (m : GoMap κ ν) :
    GoMap.keys (e :: m : GoMap κ ν) = e.1 :: GoMap.keys m := rfl

theorem get_set_self (m : GoMap κ ν) (k : κ) (v : ν) : (m.set k v).get k = some v := by
  induction m with
  | nil => simp [set, get]
  | cons e m ih =>
    obtain ⟨k', v'⟩ := e
    by_cases h : k' = k
    · simp [set, get, h]
    · simp [set, get, h, ih]

theorem get_set_ne (m : GoMap κ ν) (k k' : κ) (v : ν) (h : k' ≠ k) :
    (m.set k v).get k' = m.get k' := by
  induction m with
  | nil => simp [set, get, Ne.symm h]
  | cons e m ih =>
    obtain ⟨k₀, v₀⟩ := e
    by_cases h₀ : k₀ = k
    · subst h₀
      simp [set, get, Ne.symm h]
    · by_cases h₁ : k₀ = k'
      · subst h₁
        simp [set, get, h₀]
      · simp [set, get, h₀, h₁, ih]

theorem mem_keys_set (m : GoMap κ ν) (k k' : κ) (v : ν) :
    k' ∈ (m.set k v).keys ↔ k' = k ∨ k' ∈ m.keys := by
  induction m with
  | nil => simp [set, keys]
  | cons e m ih =>
    obtain ⟨k₀, v₀⟩ := e
    by_cases h₀ : k₀ = k
    · subst h₀
      simp [set, keys]
    · simp only [set, h₀, if_false, keys_cons, List.mem_cons, ih]
      tauto

theorem nodup_keys_set (m : GoMap κ ν) (k : κ) (v : ν) (h : m.keys.Nodup) :
    (m.set k v).keys.Nodup := by
  induction m with
  | nil => simp [set, keys]
  | cons e m ih =>
    obtain ⟨k₀, v₀⟩ := e
    rw [keys_cons, List.nodup_cons] at h
    by_cases h₀ : k₀ = k
    · subst h₀
      simp only [set, if_true, keys_cons, List.nodup_cons]
      exact h
    · simp only [set, h₀, if_false, keys_cons, List.nodup_cons]
      refine ⟨?_, ih h.2⟩
      rw [mem_keys_set]
      rintro (h' | h')
      · exact h₀ h'
      · exact h.1 h'

theorem get_isSome_iff (m : GoMap κ ν) (k : κ) : (∃ v, m.get k = some v) ↔ k ∈ m.keys := by
  induction m with
  | nil => simp [get, keys]
  | cons e m ih =>
    obtain ⟨k₀, v₀⟩ := e
    by_cases h₀ : k₀ = k
    · simp [get, keys_cons, h₀]
    · simp only [get, h₀, if_false, keys_cons, List.mem_cons, ih]
      constructor
      · exact Or.inr
      · rintro (h | h)
        · exact absurd h.symm h₀
        · exact h

theorem get_eq_none_iff (m : GoMap κ ν) (k : κ) : m.get k = none ↔ k ∉ m.keys := by
  rw [← get_isSome_iff]
  cases m.get k <;> simp

theorem get_delete_self (m : GoMap κ ν) (k : κ) : (m.delete k).get k = none := by
  induction m with
  | nil => simp [delete, get]
  | cons e m ih =>
    obtain ⟨k₀, v₀⟩ := e
    by_cases h₀ : k₀ = k
    · simp [delete, h₀, ih]
    · simp [delete, h₀, get, ih]

theorem get_delete_ne (m : GoMap κ ν) (k k' : κ) (h : k' ≠ k) :
    (m.delete k).get k' = m.get k' := by
  induction m with
  | nil => simp [delete, get]
  | cons e m ih =>
    obtain ⟨k₀, v₀⟩ := e
    by_cases h₀ : k₀ = k
    · subst h₀
      simp [delete, get, ih, Ne.symm h]
    · by_cases h₁ : k₀ = k'
      · subst h₁
        simp [delete, h₀, get]
      · simp [delete, h₀, get, h₁, ih]

theorem delete_eq_self (m : GoMap κ ν) (k : κ) (h : m.get k = none) : m.delete k = m := by
  induction m with
  | nil => simp [delete]
  | cons e m ih =>
    obtain ⟨k₀, v₀⟩ := e
    by_cases h₀ : k₀ = k
    · simp [get, h₀] at h
    · simp only [get, h₀, if_false] at h
      simp [delete, h₀, ih h]

theorem delete_delete (m : GoMap κ ν) (k : κ) : (m.delete k).delete k = m.delete k :=
  delete_eq_self _ _ (get_delete_self m k)

end GoMap

/-! ## The batch normalizer -/

theorem FilterUnique_inv_step (m : GoMap String SHPacket) (l : List SHPacket)
    (pkt : SHPacket) (h : FilterUnique.Inv m l) :
    FilterUnique.Inv (FilterUnique.step m pkt) (l ++ [pkt]) := by
  obtain ⟨hnd, hkeys, hmax⟩ := h
  unfold FilterUnique.step
  cases hget : GoMap.get m pkt.Serial with
  | none =>
    have hnot : ∀ p ∈ l, p.Serial ≠ pkt.Serial := by
      intro p hp hs
      have : pkt.Serial ∈ GoMap.keys m := (hkeys _).2 ⟨p, hp, hs⟩
      exact (GoMap.get_eq_none_iff m _).1 hget this
    refine ⟨GoMap.nodup_keys_set m _ _ hnd, ?_, ?_⟩
    · intro s
      simp only [GoMap.mem_keys_set, hkeys, List.mem_append, List.mem_singleton]
      constructor
      · rintro (rfl | ⟨p, hp, hs⟩)
        · exact ⟨pkt, Or.inr rfl, rfl⟩
        · exact ⟨p, Or.inl hp, hs⟩
      · rintro ⟨p, hp | rfl, hs⟩
        · exact Or.inr ⟨p, hp, hs⟩
        · exact Or.inl hs.symm
    · intro s q hq
      by_cases hs : s = pkt.Serial
      · subst hs
        simp only [GoMap.get_set_self, Option.some.injEq] at hq
        subst hq
        refine ⟨by simp, rfl, ?_⟩
        intro p hp hps
        rcases List.mem_append.1 hp with hp | hp
        · exact absurd hps (hnot p hp)
        · rw [List.mem_singleton.1 hp]
      · rw [GoMap.get_set_ne m _ _ _ hs] at hq
        obtain ⟨h1, h2, h3⟩ := hmax s q hq
        refine ⟨List.mem_append.2 (Or.inl h1), h2, ?_⟩
        intro p hp hps
        rcases List.mem_append.1 hp with hp | hp
        · exact h3 p hp hps
        · rw [List.mem_singleton.1 hp] at hps
          exact absurd hps.symm hs
  | some existing =>
    obtain ⟨he1, he2, he3⟩ := hmax _ _ hget
    have hmem : pkt.Serial ∈ GoMap.keys m := (GoMap.get_isSome_iff m _).1 ⟨existing, hget⟩
    by_cases hgt : pkt.Frame > existing.Frame
    · simp only [hgt, if_true]
      refine ⟨GoMap.nodup_keys_set m _ _ hnd, ?_, ?_⟩
      · intro s
        simp only [GoMap.mem_keys_set, hkeys, List.mem_append, List.mem_singleton]
        constructor
        · rintro (rfl | ⟨p, hp, hs⟩)
          · exact ⟨pkt, Or.inr rfl, rfl⟩
          · exact ⟨p, Or.inl hp, hs⟩
        · rintro ⟨p, hp | rfl, hs⟩
          · exact Or.inr ⟨p, hp, hs⟩
          · exact Or.inl hs.symm
      · intro s q hq
        by_cases hs : s = pkt.Serial
        · subst hs
          simp only [GoMap.get_set_self, Option.some.injEq] at hq
          subst hq
          refine ⟨by simp, rfl, ?_⟩
          intro p hp hps
          rcases List.mem_append.1 hp with hp | hp
          · exact le_trans (he3 p hp hps) (le_of_lt hgt)
          · rw [List.mem_singleton.1 hp]
        · rw [GoMap.get_set_ne m _ _ _ hs] at hq
          obtain ⟨h1, h2, h3⟩ := hmax s q hq
          refine ⟨List.mem_append.2 (Or.inl h1), h2, ?_⟩
          intro p hp hps
          rcases List.mem_append.1 hp with hp | hp
          · exact h3 p hp hps
          · rw [List.mem_singleton.1 hp] at hps
            exact absurd hps.symm hs
    · simp only [hgt, if_false]
      refine ⟨hnd, ?_, ?_⟩
      · intro s
        simp only [hkeys, List.mem_append, List.mem_singleton]
        constructor
        · rintro ⟨p, hp, hs⟩
          exact ⟨p, Or.inl hp, hs⟩
        · rintro ⟨p, hp | rfl, hs⟩
          · exact ⟨p, hp, hs⟩
          · exact ⟨existing, he1, he2.trans hs⟩
      · intro s q hq
        obtain ⟨h1, h2, h3⟩ := hmax s q hq
        refine ⟨List.mem_append.2 (Or.inl h1), h2, ?_⟩
        intro p hp hps
        rcases List.mem_append.1 hp with hp | hp
        · exact h3 p hp hps
        · rw [List.mem_singleton.1 hp] at hps ⊢
          have : q = existing := by
            rw [hps, hq] at hget
            exact Option.some.inj hget
          rw [this]
          exact not_lt.1 hgt

theorem FilterUnique_inv_foldl (rest done : List SHPacket) (m : GoMap String SHPacket)
    (h : FilterUnique.Inv m done) :
    FilterUnique.Inv (rest.foldl FilterUnique.step m) (done ++ rest) := by
  induction rest generalizing done m with
  | nil => simpa using h
  | cons pkt rest ih =>
    have := ih (done ++ [pkt]) (FilterUnique.step m pkt) (FilterUnique_inv_step m done pkt h)
    simpa using this

/-- C1: `FilterUnique` returns a map with exactly one entry per serial that
occurs in the input (the keys are free of duplicates and are exactly the
serials of the input), and the packet stored under a serial is an input packet
of that serial whose frame is the maximum among the input packets of that
serial. -/
theorem FilterUnique_spec (packets : List SHPacket) :
    (FilterUnique packets).keys.Nodup ∧
    (∀ s, s ∈ (FilterUnique packets).keys ↔ ∃ p ∈ packets, p.Serial = s) ∧
    (∀ s, (∃ q, (FilterUnique packets).get s = some q) ↔ ∃ p ∈ packets, p.Serial = s) ∧
    (∀ s q, (FilterUnique packets).get s = some q →
      q ∈ packets ∧ q.Serial = s ∧ ∀ p ∈ packets, p.Serial = s → p.Frame ≤ q.Frame) := by
  have h := FilterUnique_inv_foldl packets [] []
    ⟨by simp [GoMap.keys], by simp [GoMap.keys], by simp [GoMap.get]⟩
  simp only [List.nil_append] at h
  obtain ⟨h1, h2, h3⟩ := h
  refine ⟨h1, h2, ?_, h3⟩
  intro s
  rw [GoMap.get_isSome_iff]
  exact h2 s

/-! ## The device lock -/

/-- C3: `claimSonde id` returns true exactly when `id` is not in the table;
when it returns true the new table holds `id` and every other entry is as
before, and when it returns false the table is unchanged. -/
theorem claimSonde_spec (tbl : LockTable) (id : String) :
    ((claimSonde tbl id).1 = true ↔ tbl.get id = none) ∧
    ((claimSonde tbl id).1 = true →
      (claimSonde tbl id).2.get id = some () ∧
      ∀ k, k ≠ id → (claimSonde tbl id).2.get k = tbl.get k) ∧
    ((claimSonde tbl id).1 = false → (claimSonde tbl id).2 = tbl) := by
  unfold claimSonde
  cases h : GoMap.get tbl id with
  | none =>
    refine ⟨by simp, ?_, by simp⟩
    intro _
    exact ⟨GoMap.get_set_self tbl id (), fun k hk => GoMap.get_set_ne tbl id k () hk⟩
  | some u => simp

/-- C4: `releaseSonde id` leaves `id` unclaimed whatever the table held, leaves
every other id as it was, and is idempotent; from a table where `id` is
unclaimed, claim, claim, release, claim return true, false, true. -/
theorem releaseSonde_spec (tbl : LockTable) (id : String) :
    (releaseSonde tbl id).get id = none ∧
    (∀ k, k ≠ id → (releaseSonde tbl id).get k = tbl.get k) ∧
    releaseSonde (releaseSonde tbl id) id = releaseSonde tbl id ∧
    (tbl.get id = none →
      (claimSonde tbl id).1 = true ∧
      (claimSonde (claimSonde tbl id).2 id).1 = false ∧
      (claimSonde (releaseSonde (claimSonde (claimSonde tbl id).2 id).2 id) id).1 = true) := by
  refine ⟨GoMap.get_delete_self tbl id, fun k hk => GoMap.get_delete_ne tbl id k hk,
    GoMap.delete_delete tbl id, ?_⟩
  intro h
  have h1 : claimSonde tbl id = (true, GoMap.set tbl id ()) := by
    simp [claimSonde, h]
  have h2 : claimSonde (GoMap.set tbl id ()) id = (false, GoMap.set tbl id ()) := by
    simp [claimSonde, GoMap.get_set_self]
  have h3 : (claimSonde (releaseSonde (GoMap.set tbl id ()) id) id).1 = true := by
    simp [claimSonde, releaseSonde, GoMap.get_delete_self]
  rw [h1]
  simp only [h2, h3, and_self]

/-! ## The throttle gate and the continuing-record handler -/

theorem wrap64_of_inInt64 (x : Int) (h : inInt64 x) : wrap64 x = x := by
  unfold inInt64 at h
  unfold wrap64
  omega

theorem handleSonde_of_suppressed (cfg : Config) (o : Outcomes) (pkt : SHPacket)
    (session : SondeSession) (w : World)
    (h : handleSonde.suppressed cfg.updateInterval pkt session = true) :
    handleSonde cfg o pkt session w = w := by
  simp [handleSonde, h]

theorem handleSonde_of_passed (cfg : Config) (o : Outcomes) (pkt : SHPacket)
    (session : SondeSession) (w : World)
    (h : handleSonde.suppressed cfg.updateInterval pkt session = false) :
    ∃ rest, (handleSonde cfg o pkt session w).log =
      w.log ++ Event.reverseGeocode pkt.Lat pkt.Lon :: rest := by
  simp only [handleSonde, h, Bool.false_eq_true, if_false]
  cases o.geocodeAct with
  | none => simp [World.call]
  | some a =>
    cases o.prediction with
    | none => simp [World.call]
    | some shPred =>
      cases o.geocodePred with
      | none => simp [World.call]
      | some b =>
        cases hr : o.render with
        | some u =>
          cases hs : o.save <;>
            simp [World.call, handleSonde.finish, World.SaveSondeSession, hs]
        | none =>
          cases o.send with
          | none => simp [World.call]
          | some m =>
            cases hs : o.save <;>
              simp [World.call, handleSonde.finish, World.SaveSondeSession, hs]

theorem suppressed_eq_false_iff (I : Int) (pkt : SHPacket) (session : SondeSession)
    (hI : inInt64 (session.Time + I)) (h30 : inInt64 (session.Time + 30)) :
    handleSonde.suppressed I pkt session = false ↔
      (pkt.TimeReceived ≥ session.Time + I ∨
        (F64.lt pkt.Alt (F64.fin 3048) = true ∧ F64.lt pkt.VelV (F64.fin 0) = true ∧
          pkt.TimeReceived ≥ session.Time + 30)) := by
  unfold handleSonde.suppressed
  rw [wrap64_of_inInt64 _ hI, wrap64_of_inInt64 _ h30]
  by_cases h1 : pkt.TimeReceived < session.Time + I
  · by_cases h2 : (F64.lt pkt.Alt (F64.fin 3048) && F64.lt pkt.VelV (F64.fin 0)) = true
    · by_cases h3 : pkt.TimeReceived < session.Time + 30
      · simp only [h1, h2, h3, if_true]
        constructor
        · intro h
          simp at h
        · rintro (h | ⟨_, _, h⟩) <;> omega
      · simp only [h1, h2, h3, if_true, if_false, true_iff]
        rw [Bool.and_eq_true] at h2
        exact Or.inr ⟨h2.1, h2.2, by omega⟩
    · simp only [h1, h2, if_true, if_false]
      constructor
      · intro h
        simp at h
      · rintro (h | ⟨ha, hv, _⟩)
        · omega
        · exact absurd (by rw [ha, hv]; rfl) h2
  · simp only [h1, if_false, true_iff]
    exact Or.inl (by omega)

/-- C2 (as amended): when `t0 + I` and `t0 + 30` are `int64` values, so that
the sums of the code do not wrap around, a continuing record passes the
throttle gate of `handleSonde` if and only if `t >= t0 + I`, or `alt < 3048`,
`v < 0` and `t >= t0 + 30`; a suppressed record leaves the world
as it was (no lookup, no notification, no session write) and a record that
passes goes on to the first lookup.  In particular a non-descending record at
`t0 + I - 1` is suppressed, every record at `t0 + I` passes, and a descending
record below 3048 m at `t0 + 30` passes. -/
theorem handleSonde_gate (cfg : Config) (o : Outcomes) (pkt : SHPacket)
    (session : SondeSession) (w : World)
    (hI : inInt64 (session.Time + cfg.updateInterval))
    (h30 : inInt64 (session.Time + 30)) :
    (handleSonde.suppressed cfg.updateInterval pkt session = false ↔
      (pkt.TimeReceived ≥ session.Time + cfg.updateInterval ∨
        (F64.lt pkt.Alt (F64.fin 3048) = true ∧ F64.lt pkt.VelV (F64.fin 0) = true ∧
          pkt.TimeReceived ≥ session.Time + 30))) ∧
    (handleSonde.suppressed cfg.updateInterval pkt session = true →
      handleSonde cfg o pkt session w = w) ∧
    (handleSonde.suppressed cfg.updateInterval pkt session = false →
      ∃ rest, (handleSonde cfg o pkt session w).log =
        w.log ++ Event.reverseGeocode pkt.Lat pkt.Lon :: rest) ∧
    (pkt.TimeReceived = session.Time + cfg.updateInterval - 1 →
      F64.lt pkt.VelV (F64.fin 0) = false →
      handleSonde.suppressed cfg.updateInterval pkt session = true) ∧
    (pkt.TimeReceived = session.Time + cfg.updateInterval →
      handleSonde.suppressed cfg.updateInterval pkt session = false) ∧
    (pkt.TimeReceived = session.Time + 30 →
      F64.lt pkt.Alt (F64.fin 3048) = true → F64.lt pkt.VelV (F64.fin 0) = true →
      handleSonde.suppressed cfg.updateInterval pkt session = false) := by
  have key := suppressed_eq_false_iff cfg.updateInterval pkt session hI h30
  refine ⟨key, handleSonde_of_suppressed cfg o pkt session w,
    handleSonde_of_passed cfg o pkt session w, ?_, ?_, ?_⟩
  · intro ht hv
    cases hs : handleSonde.suppressed cfg.updateInterval pkt session with
    | true => rfl
    | false =>
      rcases key.1 hs with h | ⟨_, hv', _⟩
      · omega
      · rw [hv] at hv'
        exact absurd hv' (by decide)
  · intro ht
    exact key.2 (Or.inl (by omega))
  · intro ht ha hv
    exact key.2 (Or.inr ⟨ha, hv, by omega⟩)

/-- Witness for C2: the example session and the example settings satisfy the
range hypotheses, and the gate of the example record is characterised. -/
theorem handleSonde_gate_witness :
    inInt64 (exampleSession.Time + exampleConfig.updateInterval) ∧
    inInt64 (exampleSession.Time + 30) ∧
    (handleSonde.suppressed exampleConfig.updateInterval examplePacket exampleSession = false ↔
      (examplePacket.TimeReceived ≥ exampleSession.Time + exampleConfig.updateInterval ∨
        (F64.lt examplePacket.Alt (F64.fin 3048) = true ∧
          F64.lt examplePacket.VelV (F64.fin 0) = true ∧
          examplePacket.TimeReceived ≥ exampleSession.Time + 30))) :=
  have h1 : inInt64 (exampleSession.Time + exampleConfig.updateInterval) := by
    simp [inInt64, exampleSession, exampleConfig]
  have h2 : inInt64 (exampleSession.Time + 30) := by
    simp [inInt64, exampleSession]
  ⟨h1, h2, (handleSonde_gate exampleConfig exampleOutcomes examplePacket exampleSession
    exampleWorld h1 h2).1⟩

/-- Part of C5 that the code satisfies: when the gate is passed and the first
reverse geocoding, the prediction lookup, the second reverse geocoding, or the
update without an image fails, the store is left as it was and no save is
requested. -/
theorem handleSonde_failure_keeps_store (cfg : Config) (o : Outcomes) (pkt : SHPacket)
    (session : SondeSession) (w : World)
    (hfail : o.geocodeAct = none ∨ o.prediction = none ∨ o.geocodePred = none ∨
      (o.render = none ∧ o.send = none)) :
    (handleSonde cfg o pkt session w).store = w.store ∧
    ∀ serial s', Event.saveSondeSession serial s' ∈ (handleSonde cfg o pkt session w).log →
      Event.saveSondeSession serial s' ∈ w.log := by
  unfold handleSonde
  cases handleSonde.suppressed cfg.updateInterval pkt session with
  | true => simp
  | false =>
    simp only [Bool.false_eq_true, if_false]
    cases h1 : o.geocodeAct with
    | none => simp [World.call]
    | some a =>
      cases h2 : o.prediction with
      | none => simp [World.call]
      | some shPred =>
        cases h3 : o.geocodePred with
        | none => simp [World.call]
        | some b =>
          rcases hfail with h | h | h | ⟨hr, hs⟩
          · rw [h1] at h
            exact absurd h (by simp)
          · rw [h2] at h
            exact absurd h (by simp)
          · rw [h3] at h
            exact absurd h (by simp)
          · simp [hr, hs, World.call]

/-- The run of `handleSonde` when the gate is passed, the lookups succeed and,
in case no image was rendered, the update succeeds. -/
theorem handleSonde_run (cfg : Config) (o : Outcomes) (pkt : SHPacket)
    (session : SondeSession) (w : World) (actLoc predLoc : String)
    (shPred : SHPredictionResult)
    (hgate : handleSonde.suppressed cfg.updateInterval pkt session = false)
    (hact : o.geocodeAct = some actLoc) (hpred : o.prediction = some shPred)
    (hloc : o.geocodePred = some predLoc)
    (hsend : o.render = none → o.send.isSome = true) :
    (handleSonde cfg o pkt session w).log = w.log ++
        [Event.reverseGeocode pkt.Lat pkt.Lon, Event.getPrediction pkt.Serial,
         Event.renderMap pkt.Serial, Event.reverseGeocode shPred.Latitude shPred.Longitude,
         (if o.render.isSome then Event.sendUpdatedWebhookWithImage session.Webhook
          else Event.sendDiscordWebhook session.Webhook true),
         Event.saveSondeSession pkt.Serial { session with Time := pkt.TimeReceived }] ∧
    (handleSonde cfg o pkt session w).store =
        (if o.save then w.store.set pkt.Serial { session with Time := pkt.TimeReceived }
         else w.store) := by
  cases hr : o.render with
  | some u =>
    cases hs : o.save <;>
      simp [handleSonde, hgate, hact, hpred, hloc, hr, hs, World.call, handleSonde.finish,
        World.SaveSondeSession]
  | none =>
    obtain ⟨m, hm⟩ := Option.isSome_iff_exists.1 (hsend hr)
    cases hs : o.save <;>
      simp [handleSonde, hgate, hact, hpred, hloc, hr, hm, hs, World.call, handleSonde.finish,
        World.SaveSondeSession]

/-- C5 (the defect): with the example data, the gate is passed, a map image is
rendered and `SendUpdatedWebhookWithImage` fails; `handleSonde` nevertheless
requests the save and the stored session has its time advanced from
1700000000 to the receive time 1700003600. -/
theorem handleSonde_image_update_failure_advances_session :
    handleSonde.suppressed exampleConfig.updateInterval examplePacket exampleSession = false ∧
    exampleOutcomesImageFails.render = some () ∧
    exampleOutcomesImageFails.sendImage = none ∧
    exampleWorld.store.get examplePacket.Serial = some exampleSession ∧
    exampleSession.Time = 1700000000 ∧
    (handleSonde exampleConfig exampleOutcomesImageFails examplePacket exampleSession
        exampleWorld).store.get examplePacket.Serial =
      some { exampleSession with Time := 1700003600 } ∧
    Event.saveSondeSession examplePacket.Serial { exampleSession with Time := 1700003600 } ∈
      (handleSonde exampleConfig exampleOutcomesImageFails examplePacket exampleSession
        exampleWorld).log := by
  have hs : handleSonde.suppressed exampleConfig.updateInterval examplePacket exampleSession
      = false := by
    simp [handleSonde.suppressed, exampleConfig, examplePacket, exampleSession, wrap64]
  have hrun := handleSonde_run exampleConfig exampleOutcomesImageFails examplePacket
    exampleSession exampleWorld "Ames, IA" "Waterloo, IA" ⟨1700007200, F64.fin 42, F64.fin (-92)⟩
    hs rfl rfl rfl (by simp [exampleOutcomesImageFails, exampleOutcomes])
  refine ⟨hs, rfl, rfl, ?_, rfl, ?_, ?_⟩
  · simp [exampleWorld, examplePacket, GoMap.get]
  · rw [hrun.2]
    simp [exampleOutcomesImageFails, exampleOutcomes, GoMap.get_set_self, examplePacket]
  · rw [hrun.1]
    simp [examplePacket]

/-- C6: when a continuing record passes the gate and both reverse geocodings,
the prediction lookup and the update of the notification succeed,
`handleSonde` sends the update to the handle stored in the session (with the
image when one was rendered, as an edit otherwise) and then requests the save
of a session whose time is the receive time of the record and whose handle and
origin annotation are those of the session it was given; the store holds that
session unless the store reports an error. -/
theorem handleSonde_success (cfg : Config) (o : Outcomes) (pkt : SHPacket)
    (session : SondeSession) (w : World) (actLoc predLoc : String)
    (shPred : SHPredictionResult)
    (hgate : handleSonde.suppressed cfg.updateInterval pkt session = false)
    (hact : o.geocodeAct = some actLoc) (hpred : o.prediction = some shPred)
    (hloc : o.geocodePred = some predLoc)
    (hsend : if o.render.isSome then o.sendImage.isSome = true else o.send.isSome = true) :
    ∃ saved : SondeSession,
      saved.Time = pkt.TimeReceived ∧ saved.Webhook = session.Webhook ∧
      saved.FromText = session.FromText ∧
      (handleSonde cfg o pkt session w).log = w.log ++
        [Event.reverseGeocode pkt.Lat pkt.Lon, Event.getPrediction pkt.Serial,
         Event.renderMap pkt.Serial, Event.reverseGeocode shPred.Latitude shPred.Longitude,
         (if o.render.isSome then Event.sendUpdatedWebhookWithImage session.Webhook
          else Event.sendDiscordWebhook session.Webhook true),
         Event.saveSondeSession pkt.Serial saved] ∧
      (handleSonde cfg o pkt session w).store =
        (if o.save then w.store.set pkt.Serial saved else w.store) ∧
      (o.save = true → (handleSonde cfg o pkt session w).store.get pkt.Serial = some saved) := by
  have hsend' : o.render = none → o.send.isSome = true := by
    intro hr
    rw [hr] at hsend
    simpa using hsend
  have hrun := handleSonde_run cfg o pkt session w actLoc predLoc shPred hgate hact hpred hloc
    hsend'
  refine ⟨{ session with Time := pkt.TimeReceived }, rfl, rfl, rfl, hrun.1, hrun.2, ?_⟩
  intro hs
  rw [hrun.2, hs]
  simp [GoMap.get_set_self]

/-- Witness for C6: the example record, an hour after the example session, with
every collaborator answering. -/
theorem handleSonde_success_witness :
    handleSonde.suppressed exampleConfig.updateInterval examplePacket exampleSession = false ∧
    ∃ saved : SondeSession,
      saved.Time = examplePacket.TimeReceived ∧ saved.Webhook = exampleSession.Webhook ∧
      saved.FromText = exampleSession.FromText ∧
      (handleSonde exampleConfig exampleOutcomes examplePacket exampleSession exampleWorld).log =
        exampleWorld.log ++
        [Event.reverseGeocode examplePacket.Lat examplePacket.Lon,
         Event.getPrediction examplePacket.Serial,
         Event.renderMap examplePacket.Serial,
         Event.reverseGeocode (F64.fin 42) (F64.fin (-92)),
         (if exampleOutcomes.render.isSome then
            Event.sendUpdatedWebhookWithImage exampleSession.Webhook
          else Event.sendDiscordWebhook exampleSession.Webhook true),
         Event.saveSondeSession examplePacket.Serial saved] ∧
      (handleSonde exampleConfig exampleOutcomes examplePacket exampleSession exampleWorld).store =
        (if exampleOutcomes.save then exampleWorld.store.set examplePacket.Serial saved
         else exampleWorld.store) ∧
      (exampleOutcomes.save = true →
        (handleSonde exampleConfig exampleOutcomes examplePacket exampleSession
          exampleWorld).store.get examplePacket.Serial = some saved) :=
  have hs : handleSonde.suppressed exampleConfig.updateInterval examplePacket exampleSession
      = false := by
    simp [handleSonde.suppressed, exampleConfig, examplePacket, exampleSession, wrap64]
  ⟨hs, handleSonde_success exampleConfig exampleOutcomes examplePacket exampleSession
    exampleWorld "Ames, IA" "Waterloo, IA" ⟨1700007200, F64.fin 42, F64.fin (-92)⟩ hs rfl rfl rfl
    (by simp [exampleOutcomes])⟩

/-! ## The new-record handler -/

/-- C7: `handleNewSonde` requests a new notification (a send to the configured
webhook URL that is not an edit); when the send returns message id `m` it
requests the save of a session whose time is the receive time of the record
and whose handle is the configured URL followed by `/messages/` and `m` (the
store holds it unless the store reports an error); when the send fails no save
is requested and the store is left as it was. -/
theorem handleNewSonde_spec (cfg : Config) (o : Outcomes) (pkt : SHPacket) (w : World) :
    (∀ m, o.send = some m →
      ∃ saved : SondeSession,
        saved.Time = pkt.TimeReceived ∧
        saved.Webhook = cfg.webhookURL ++ "/messages/" ++ m ∧
        (handleNewSonde cfg o pkt w).log = w.log ++
          [Event.reverseGeocode pkt.Lat pkt.Lon,
           Event.sendDiscordWebhook cfg.webhookURL false,
           Event.saveSondeSession pkt.Serial saved] ∧
        (handleNewSonde cfg o pkt w).store =
          (if o.save then w.store.set pkt.Serial saved else w.store) ∧
        (o.save = true → (handleNewSonde cfg o pkt w).store.get pkt.Serial = some saved)) ∧
    (o.send = none →
      (handleNewSonde cfg o pkt w).log = w.log ++
        [Event.reverseGeocode pkt.Lat pkt.Lon,
         Event.sendDiscordWebhook cfg.webhookURL false] ∧
      (handleNewSonde cfg o pkt w).store = w.store) := by
  have hT : (handleNewSonde.session cfg pkt).Time = pkt.TimeReceived := by
    unfold handleNewSonde.session
    simp only
    split <;> split <;> rfl
  have hW : (handleNewSonde.session cfg pkt).Webhook = cfg.webhookURL := by
    unfold handleNewSonde.session
    simp only
    split <;> split <;> rfl
  constructor
  · intro m hm
    refine ⟨{ handleNewSonde.session cfg pkt with
      Webhook := (handleNewSonde.session cfg pkt).Webhook ++ "/messages/" ++ m }, hT, ?_, ?_⟩
    · simp only [hW]
    · cases hs : o.save <;>
        simp [handleNewSonde, hm, hs, hW, World.SaveSondeSession, World.call,
          GoMap.get_set_self]
  · intro hm
    simp [handleNewSonde, hm, hW, World.call]

/-! ## The proximity index -/

namespace F64

theorem lt_irrefl (a : F64) : lt a a = false := by
  cases a <;> simp [lt]

end F64

/-- The value of `earthRadiusMiles` has 53 significant bits and is within half
a unit of the last of them of 3958.8: it is the `float64` nearest to 3958.8. -/
theorem earthRadiusMiles_nearest :
    earthRadiusMiles = F64.fin (8705493264079258 / 2 ^ 41) ∧
    (2 : ℚ) ^ 52 ≤ 8705493264079258 ∧ (8705493264079258 : ℚ) < 2 ^ 53 ∧
    |(8705493264079258 / 2 ^ 41 : ℚ) - 39588 / 10| ≤ 1 / 2 ^ 42 := by
  refine ⟨rfl, by norm_num, by norm_num, ?_⟩
  rw [abs_le]
  constructor <;> norm_num

/-- C9: `FindClosestPoint` returns an error exactly when the list is empty; for
a non-empty list the error is `nil`. -/
theorem FindClosestPoint_error_iff (m : GoMath) (lat lon : F64) (points : List Point) :
    ((FindClosestPoint m lat lon points).2.2.isSome = true ↔ points = []) ∧
    (points ≠ [] → (FindClosestPoint m lat lon points).2.2 = none) := by
  cases points with
  | nil => simp [FindClosestPoint]
  | cons p ps => simp [FindClosestPoint]

/-! ## The serial date decoder -/

theorem GoTime.date_jan4 (year : Int) :
    (GoTime.date year 1 4).days = GoTime.daysSinceYear1 year + 3 := by
  simp [GoTime.date, GoTime.daysBefore]

theorem getDateOfISOWeek_days (week year : Int) :
    ∃ wd : Int, 1 ≤ wd ∧ wd ≤ 7 ∧
      (GoTime.daysSinceYear1 year + 3 + (week - 1) * 7 + 1 - wd) % 7 = 0 ∧
      (getDateOfISOWeek week year).days =
        GoTime.daysSinceYear1 year + 3 + (week - 1) * 7 + 1 - wd := by
  unfold getDateOfISOWeek
  simp only [GoTime.addDays, GoTime.weekday, GoTime.date_jan4]
  split
  · next h => exact ⟨7, by omega, by omega, by omega, by omega⟩
  · next h =>
    exact ⟨(GoTime.daysSinceYear1 year + 3 + (week - 1) * 7 + 1) % 7,
      by omega, by omega, by omega, by omega⟩

theorem daysSinceYear1_succ (year : Int) :
    GoTime.daysSinceYear1 year + 365 ≤ GoTime.daysSinceYear1 (year + 1) := by
  unfold GoTime.daysSinceYear1
  omega

/-- The date computed from an ISO week and weekday is the date with that ISO
week date, and the only one. -/
theorem isoWeekDate_of_getDateOfISOWeek (Y W d : Int) (hW1 : 1 ≤ W) (hW2 : W ≤ 52)
    (hd1 : 1 ≤ d) (hd2 : d ≤ 7) :
    IsISOWeekDate ((getDateOfISOWeek W Y).addDays (d - 1)) Y W d ∧
    ∀ t, IsISOWeekDate t Y W d → t = (getDateOfISOWeek W Y).addDays (d - 1) := by
  obtain ⟨wd, hwd1, hwd2, hmod, hdays⟩ := getDateOfISOWeek_days W Y
  have hsucc := daysSinceYear1_succ Y
  constructor
  · unfold IsISOWeekDate isoThursday isoWeekday
    simp only [GoTime.addDays, hdays]
    refine ⟨by omega, by omega, by omega, by omega⟩
  · intro t ht
    unfold IsISOWeekDate isoThursday isoWeekday at ht
    obtain ⟨h1, h2, h3, h4⟩ := ht
    cases t with
    | mk days =>
      simp only [GoTime.addDays, hdays, GoTime.mk.injEq]
      simp only at h1 h2 h3 h4
      omega

theorem byteSub_digit (w : Nat) (h : w ≤ 9) : byteSub ('0'.toNat + w) '0'.toNat = w := by
  simp only [byteSub, Char.reduceToNat]
  omega

theorem ResolveRS41Date_eq (serial : String) (c w1 w2 d : Nat) (rest : List Nat) (Y : Int)
    (hbytes : goBytes serial =
      c :: ('0'.toNat + w1) :: ('0'.toNat + w2) :: ('0'.toNat + d) :: rest)
    (hyear : RS41DateCodeTable.get c = some Y)
    (hw1 : w1 ≤ 9) (hw2 : w2 ≤ 9) (hd : d ≤ 9) :
    ResolveRS41Date serial =
      ((getDateOfISOWeek (10 * (w1 : Int) + w2) Y).addDays ((d : Int) - 1), none) := by
  simp only [ResolveRS41Date, ResolveRS41Date.ofBytes, hbytes, List.length_cons, List.foldl_cons,
    List.foldl_nil, List.getD_cons_zero, List.getD_cons_succ, hyear, byteSub_digit, hw1, hw2, hd]
  have : ¬ (rest.length + 1 + 1 + 1 + 1 < 4) := by omega
  simp only [this, if_false]
  congr 3
  push_cast
  ring

/-- C10: for a serial of at least 4 bytes whose first byte is the year code of
year `Y`, whose 2nd and 3rd bytes are the decimal digits of a week `W` with
`1 <= W <= 52` and whose 4th byte is a digit `d` in 1..7, `ResolveRS41Date`
returns without error the date whose ISO-8601 week-numbering year is `Y`, ISO
week is `W` and ISO weekday is `d` (1 = Monday), and that date is the only one
with this week date; a serial that starts with `T051` decodes to 2021-02-01, a
Monday. -/
theorem ResolveRS41Date_spec (serial : String) (c w1 w2 d : Nat) (rest : List Nat) (Y : Int)
    (hbytes : goBytes serial =
      c :: ('0'.toNat + w1) :: ('0'.toNat + w2) :: ('0'.toNat + d) :: rest)
    (hyear : RS41DateCodeTable.get c = some Y)
    (hw1 : w1 ≤ 9) (hw2 : w2 ≤ 9) (hW1 : 1 ≤ 10 * w1 + w2) (hW2 : 10 * w1 + w2 ≤ 52)
    (hd1 : 1 ≤ d) (hd2 : d ≤ 7) :
    (ResolveRS41Date serial).2 = none ∧
    IsISOWeekDate (ResolveRS41Date serial).1 Y (10 * (w1 : Int) + w2) d ∧
    (∀ t, IsISOWeekDate t Y (10 * (w1 : Int) + w2) d → t = (ResolveRS41Date serial).1) ∧
    (c = 'T'.toNat → w1 = 0 → w2 = 5 → d = 1 →
      (ResolveRS41Date serial).1 = GoTime.date 2021 2 1 ∧
      isoWeekday (ResolveRS41Date serial).1 = 1) := by
  have heq := ResolveRS41Date_eq serial c w1 w2 d rest Y hbytes hyear hw1 hw2 (by omega)
  have hiso := isoWeekDate_of_getDateOfISOWeek Y (10 * (w1 : Int) + w2) d (by omega) (by omega)
    (by omega) (by omega)
  rw [heq]
  refine ⟨rfl, hiso.1, hiso.2, ?_⟩
  intro hc h1 h2 h3
  subst hc h1 h2 h3
  have hY : Y = 2021 := by
    have : RS41DateCodeTable.get 'T'.toNat = some 2021 := by decide
    rw [this] at hyear
    exact (Option.some.inj hyear).symm
  subst hY
  constructor <;> decide

/-- Witness for C10: the serial `T0511234` (year code `T` for 2021, week 05,
weekday digit 1). -/
theorem ResolveRS41Date_spec_witness :
    goBytes "T0511234" =
      'T'.toNat :: ('0'.toNat + 0) :: ('0'.toNat + 5) :: ('0'.toNat + 1) :: goBytes "1234" ∧
    RS41DateCodeTable.get 'T'.toNat = some 2021 ∧
    IsISOWeekDate (ResolveRS41Date "T0511234").1 2021 (10 * ((0 : Nat) : Int) + (5 : Nat))
      (1 : Nat) ∧
    (ResolveRS41Date "T0511234").1 = GoTime.date 2021 2 1 :=
  have h := ResolveRS41Date_spec "T0511234" 'T'.toNat 0 5 1 (goBytes "1234") 2021
    (by decide) (by decide) (by decide) (by decide) (by decide) (by decide) (by decide)
    (by decide)
  ⟨by decide, by decide, h.2.1, (h.2.2.2 rfl rfl rfl rfl).1⟩

/-! ## The error results of the serial date decoder -/

/-- C11: `ResolveRS41Date` returns the too-short error for every serial of
fewer than 4 bytes, whatever its first byte; the unknown-year-code error for
every serial of at least 4 bytes whose first byte is not in the year table;
and a date with a `nil` error for every other serial, whatever its 2nd to 4th
bytes are (for instance `T?/x`). -/
theorem ResolveRS41Date_errors (serial : String) :
    ((goBytes serial).length < 4 →
      ResolveRS41Date serial = (GoTime.zero, some "serial too short")) ∧
    (4 ≤ (goBytes serial).length →
      RS41DateCodeTable.get ((goBytes serial).getD 0 0) = none →
      ResolveRS41Date serial = (GoTime.zero, some "unknown year code")) ∧
    (4 ≤ (goBytes serial).length →
      ∀ year, RS41DateCodeTable.get ((goBytes serial).getD 0 0) = some year →
      (ResolveRS41Date serial).2 = none) ∧
    ResolveRS41Date "I05" = (GoTime.zero, some "serial too short") ∧
    ResolveRS41Date "I0511234" = (GoTime.zero, some "unknown year code") ∧
    (ResolveRS41Date "T?/x").2 = none := by
  refine ⟨?_, ?_, ?_, by decide, by decide, by decide⟩
  · intro h
    simp [ResolveRS41Date, ResolveRS41Date.ofBytes, h]
  · intro h hnone
    have h' : ¬ (goBytes serial).length < 4 := by omega
    simp only [ResolveRS41Date, ResolveRS41Date.ofBytes, h', if_false, hnone]
  · intro h year hyear
    have h' : ¬ (goBytes serial).length < 4 := by omega
    simp only [ResolveRS41Date, ResolveRS41Date.ofBytes, h', if_false, hyear]

/-! ## The batch parser -/

theorem GoMap.get_of_mem {κ ν : Type} [DecidableEq κ] (m : GoMap κ ν) (k : κ) (v : ν)
    (hnd : m.keys.Nodup) (h : (k, v) ∈ m) : m.get k = some v := by
  induction m with
  | nil => simp at h
  | cons e m ih =>
    obtain ⟨k₀, v₀⟩ := e
    rw [GoMap.keys_cons, List.nodup_cons] at hnd
    rcases List.mem_cons.1 h with h | h
    · simp only [Prod.mk.injEq] at h
      simp [GoMap.get, h.1, h.2]
    · have hk : k₀ ≠ k := by
        rintro rfl
        exact hnd.1 (List.mem_map.2 ⟨(k₀, v), h, rfl⟩)
      simp only [GoMap.get, hk, if_false]
      exact ih hnd.2 h

theorem FilterUnique_values (packets : List SHPacket) :
    (FilterUnique packets).map (fun e => e.2.Serial) = (FilterUnique packets).keys ∧
    ∀ e ∈ FilterUnique packets, e.2 ∈ packets := by
  have h := FilterUnique_inv_foldl packets [] []
    ⟨by simp [GoMap.keys], by simp [GoMap.keys], by simp [GoMap.get]⟩
  simp only [List.nil_append] at h
  obtain ⟨hnd, _, hget⟩ := h
  have hentry : ∀ e ∈ FilterUnique packets, e.2 ∈ packets ∧ e.2.Serial = e.1 := by
    intro e he
    have := hget e.1 e.2 (GoMap.get_of_mem _ _ _ hnd he)
    exact ⟨this.1, this.2.1⟩
  refine ⟨?_, fun e he => (hentry e he).1⟩
  unfold GoMap.keys
  exact List.map_congr_left (fun e he => (hentry e he).2)

/-- C18: for a payload that decodes to `packets`, `ParseBatch` returns an error
exactly when the deduplicated output would be empty, which is exactly when
`packets` is empty (the returned slice is then `nil`); when it succeeds the
returned list is non-empty, its packets are packets of the input, no two of
them share a serial, and every serial of the input occurs. -/
theorem ParseBatch_spec (packets : List SHPacket) :
    ((ParseBatch packets).2.isSome = true ↔ (FilterUnique packets).map Prod.snd = []) ∧
    ((ParseBatch packets).2.isSome = true ↔ packets = []) ∧
    ((ParseBatch packets).2.isSome = true → (ParseBatch packets).1 = []) ∧
    ((ParseBatch packets).2 = none →
      (ParseBatch packets).1 ≠ [] ∧
      (∀ q ∈ (ParseBatch packets).1, q ∈ packets) ∧
      ((ParseBatch packets).1.map (fun q => q.Serial)).Nodup ∧
      ∀ s, s ∈ (ParseBatch packets).1.map (fun q => q.Serial) ↔
        ∃ p ∈ packets, p.Serial = s) := by
  have h := FilterUnique_inv_foldl packets [] []
    ⟨by simp [GoMap.keys], by simp [GoMap.keys], by simp [GoMap.get]⟩
  simp only [List.nil_append] at h
  obtain ⟨hnd, hkeys, _⟩ := h
  obtain ⟨hser, hmem⟩ := FilterUnique_values packets
  have hempty : FilterUnique packets = [] ↔ packets = [] := by
    constructor
    · intro hnil
      cases packets with
      | nil => rfl
      | cons p ps =>
        have : p.Serial ∈ (FilterUnique (p :: ps)).keys := (hkeys _).2 ⟨p, by simp, rfl⟩
        rw [hnil] at this
        simp [GoMap.keys] at this
    · intro hnil
      rw [hnil]
      rfl
  by_cases hnil : FilterUnique packets = []
  · have hp := hempty.1 hnil
    subst hp
    simp [ParseBatch, FilterUnique]
  · have hp : ¬ packets = [] := fun hp => hnil (hempty.2 hp)
    have hlen : ¬ (List.map Prod.snd (FilterUnique packets)).length = 0 := by
      simpa using hnil
    have hdef : ParseBatch packets = ((FilterUnique packets).map Prod.snd, none) := by
      simp only [ParseBatch, hlen, if_false]
    rw [hdef]
    refine ⟨by simp [hnil], by simp [hp], by simp, ?_⟩
    intro _
    refine ⟨by simpa using hnil, ?_, ?_, ?_⟩
    · intro q hq
      obtain ⟨e, he, rfl⟩ := List.mem_map.1 hq
      exact hmem e he
    · rw [List.map_map]
      exact hser ▸ hnd
    · intro s
      rw [List.map_map]
      have : (List.map ((fun q : SHPacket => q.Serial) ∘ Prod.snd) (FilterUnique packets))
          = (FilterUnique packets).keys := hser
      rw [this]
      exact hkeys s

/-! ## The message handler -/

theorem GoMap.delete_set_of_get_none {κ ν : Type} [DecidableEq κ] (m : GoMap κ ν) (k : κ)
    (v : ν) (h : m.get k = none) : (m.set k v).delete k = m := by
  induction m with
  | nil => simp [GoMap.set, GoMap.delete]
  | cons e m ih =>
    obtain ⟨k₀, v₀⟩ := e
    by_cases h₀ : k₀ = k
    · simp [GoMap.get, h₀] at h
    · simp only [GoMap.get, h₀, if_false] at h
      simp [GoMap.set, GoMap.delete, h₀, ih h]

theorem claim_release (tbl : LockTable) (id : String) (tbl' : LockTable)
    (h : claimSonde tbl id = (true, tbl')) : releaseSonde tbl' id = tbl := by
  unfold claimSonde at h
  cases hget : GoMap.get tbl id with
  | some u => simp [hget] at h
  | none =>
    simp only [hget, Prod.mk.injEq, true_and] at h
    rw [← h]
    exact GoMap.delete_set_of_get_none tbl id () hget

theorem record_sondeMutex (g : Globals) (ro : RecordOutcomes) (pkt : SHPacket) (p : Process) :
    (messagePubHandler.record g ro pkt p).2.sondeMutex = p.sondeMutex := by
  unfold messagePubHandler.record
  split
  · rfl
  · split
    · next tbl hc =>
      have : tbl = p.sondeMutex := by
        unfold claimSonde at hc
        cases hget : GoMap.get p.sondeMutex pkt.Serial with
        | some u =>
          simp only [hget, Prod.mk.injEq, true_and] at hc
          exact hc.symm
        | none => simp [hget] at hc
      simp [this]
    · next tbl hc =>
      have hrel := claim_release _ _ _ hc
      split <;> simp [hrel]

theorem loop_sondeMutex (g : Globals) (pkts : List (SHPacket × RecordOutcomes)) (p : Process) :
    (messagePubHandler.loop g pkts p).sondeMutex = p.sondeMutex := by
  induction pkts generalizing p with
  | nil => rfl
  | cons e rest ih =>
    obtain ⟨pkt, ro⟩ := e
    have hrec := record_sondeMutex g ro pkt p
    unfold messagePubHandler.loop
    split
    · next p' h =>
      rw [h] at hrec
      rw [ih p']
      exact hrec
    · next p' h =>
      rw [h] at hrec
      exact hrec

/-- C15: whatever the batch and whatever the collaborators answer, the lock
table is the same after `messagePubHandler` as before it, so every id the
handler claimed has been released; and a record whose claim fails leaves the
whole state, the lock table included, as it was. -/
theorem messagePubHandler_releases (g : Globals) (pkts : List (SHPacket × RecordOutcomes))
    (err : Option String) (p : Process) :
    (messagePubHandler g pkts err p).sondeMutex = p.sondeMutex ∧
    (∀ pkt ro, (messagePubHandler.record g ro pkt p).2.sondeMutex = p.sondeMutex) ∧
    (∀ pkt ro, (claimSonde p.sondeMutex pkt.Serial).1 = false →
      (messagePubHandler.record g ro pkt p).2 = p) := by
  refine ⟨?_, fun pkt ro => record_sondeMutex g ro pkt p, ?_⟩
  · unfold messagePubHandler
    cases err with
    | some e => rfl
    | none => exact loop_sondeMutex g pkts p
  · intro pkt ro hc
    unfold messagePubHandler.record
    split
    · rfl
    · split
      · next tbl hc' =>
        have : tbl = p.sondeMutex := by
          unfold claimSonde at hc'
          cases hget : GoMap.get p.sondeMutex pkt.Serial with
          | some u =>
            simp only [hget, Prod.mk.injEq, true_and] at hc'
            exact hc'.symm
          | none => simp [hget] at hc'
        simp [this]
      · next tbl hc' =>
        rw [hc'] at hc
        simp at hc

theorem exampleIMet_inside :
    InsidePoly exampleGlobals.math (exampleIMetPacket.Lon, exampleIMetPacket.Lat)
      exampleGlobals.boundaryPts = true := by
  simp [InsidePoly, InsidePoly.step, InsidePoly.crosses, exampleGlobals, exampleConfig,
    exampleIMetPacket, GoMath.firstOrder, F64.lt, F64.gt]
  norm_num

/-! ## The conversion of an `int` to a `float64` -/

theorem F64.ofInt_of_natAbs_le (n : Int) (h : n.natAbs ≤ 2 ^ 53) : F64.ofInt n = F64.fin n := by
  unfold F64.ofInt
  rw [if_pos h]

theorem log2_eq_of_le_of_lt (a k : Nat) (h1 : 2 ^ k ≤ a) (h2 : a < 2 ^ (k + 1)) :
    Nat.log2 a = k := by
  have ha : a ≠ 0 := by
    rintro rfl
    have := Nat.two_pow_pos k
    omega
  have u := (Nat.log2_lt ha).2 h2
  have l : ¬ Nat.log2 a < k := fun h => by
    have := (Nat.log2_lt ha).1 h
    omega
  omega

/-- Examples of the rounding: `2^53 + 1` lies halfway between two `float64`
values and goes to the even one, `2^53`; `2^53 + 3` goes to `2^53 + 4`; the
greatest `int64` goes to `2^63`. -/
theorem F64.ofInt_examples :
    F64.ofInt (2 ^ 53 + 1) = F64.fin (2 ^ 53) ∧
    F64.ofInt (2 ^ 53 + 3) = F64.fin (2 ^ 53 + 4) ∧
    F64.ofInt (-(2 ^ 53 + 3)) = F64.fin (-(2 ^ 53 + 4)) ∧
    F64.ofInt (2 ^ 63 - 1) = F64.fin (2 ^ 63) := by
  have hl : Nat.log2 (2 ^ 53 + 1) = 53 := log2_eq_of_le_of_lt _ 53 (by norm_num) (by norm_num)
  have hl3 : Nat.log2 (2 ^ 53 + 3) = 53 := log2_eq_of_le_of_lt _ 53 (by norm_num) (by norm_num)
  have hl63 : Nat.log2 (2 ^ 63 - 1) = 62 := log2_eq_of_le_of_lt _ 62 (by norm_num) (by norm_num)
  have hn : ((2 : Int) ^ 53 + 1).natAbs = 2 ^ 53 + 1 := by decide
  have hn3 : ((2 : Int) ^ 53 + 3).natAbs = 2 ^ 53 + 3 := by decide
  have hn3' : (-((2 : Int) ^ 53 + 3)).natAbs = 2 ^ 53 + 3 := by decide
  have hn63 : ((2 : Int) ^ 63 - 1).natAbs = 2 ^ 63 - 1 := by decide
  refine ⟨?_, ?_, ?_, ?_⟩
  · unfold F64.ofInt
    rw [hn, hl]
    norm_num
  · unfold F64.ofInt
    rw [hn3, hl3]
    norm_num
  · unfold F64.ofInt
    rw [hn3', hl3]
    norm_num
  · unfold F64.ofInt
    rw [hn63, hl63]
    norm_num

/-! ## The iMet vertical-velocity correction -/

theorem iMet_of_session (pkt : SHPacket) (s : SondeSession)
    (hm : pkt.Manufacturer = "Intermet Systems") :
    messagePubHandler.iMet pkt (some s) =
      ((if s.IMetAlt ≠ 0 then
          if F64.lt pkt.Alt (F64.ofInt s.IMetAlt) then { pkt with VelV := F64.fin (-1) }
          else { pkt with VelV := F64.fin 1 }
        else pkt),
       some { s with IMetAlt := F64.toInt pkt.Alt }) := by
  unfold messagePubHandler.iMet
  rw [if_pos hm]
  by_cases hz : s.IMetAlt = 0
  · simp [hz]
  · by_cases hl : F64.lt pkt.Alt (F64.ofInt s.IMetAlt) = true <;> simp [hz, hl]

/-- C13 (as amended): for a record of manufacturer "Intermet Systems" whose
session holds a last-seen altitude (`IMetAlt`, an integer, is not 0), the
handler replaces the vertical velocity by -1 when the altitude of the record
is below `float64(session.IMetAlt)` and by +1 otherwise (for an altitude `a`
that is a number and `IMetAlt` up to `2^53`: by -1 when `a < IMetAlt`, by +1
when `a >= IMetAlt`); with `IMetAlt` 0 the record is left as it is.  The
session handed on holds the altitude of the record cut to an integer.
`handleSonde`, and so the throttle gate, is run on the record so changed.  A
record of another manufacturer is passed on as it is. -/
theorem iMet_velocity (g : Globals) (o : Outcomes) (pkt : SHPacket) (s : SondeSession)
    (session : Option SondeSession) (w : World) :
    (pkt.Manufacturer = "Intermet Systems" → s.IMetAlt ≠ 0 →
      (F64.lt pkt.Alt (F64.ofInt s.IMetAlt) = true →
        (messagePubHandler.iMet pkt (some s)).1 = { pkt with VelV := F64.fin (-1) }) ∧
      (F64.lt pkt.Alt (F64.ofInt s.IMetAlt) = false →
        (messagePubHandler.iMet pkt (some s)).1 = { pkt with VelV := F64.fin 1 }) ∧
      (∀ a : ℚ, pkt.Alt = F64.fin a → s.IMetAlt.natAbs ≤ 2 ^ 53 →
        (a < s.IMetAlt → (messagePubHandler.iMet pkt (some s)).1.VelV = F64.fin (-1)) ∧
        (a ≥ s.IMetAlt → (messagePubHandler.iMet pkt (some s)).1.VelV = F64.fin 1))) ∧
    (pkt.Manufacturer = "Intermet Systems" → s.IMetAlt = 0 →
      (messagePubHandler.iMet pkt (some s)).1 = pkt) ∧
    (pkt.Manufacturer = "Intermet Systems" →
      (messagePubHandler.iMet pkt (some s)).2 =
        some { s with IMetAlt := F64.toInt pkt.Alt }) ∧
    (pkt.Manufacturer ≠ "Intermet Systems" →
      messagePubHandler.iMet pkt session = (pkt, session)) ∧
    (∃ s', (messagePubHandler.iMet pkt (some s)).2 = some s' ∧
      messagePubHandler.dispatch g o pkt (some s) w =
        handleSonde g.toConfig o (messagePubHandler.iMet pkt (some s)).1 s' w) := by
  refine ⟨?_, ?_, ?_, ?_, ?_⟩
  · intro hm hz
    rw [iMet_of_session pkt s hm]
    simp only [hz, ne_eq, not_false_eq_true, if_true]
    refine ⟨fun h => by simp [h], fun h => by simp [h], ?_⟩
    intro a ha hsmall
    rw [F64.ofInt_of_natAbs_le _ hsmall]
    constructor
    · intro hlt
      have : F64.lt pkt.Alt (F64.fin s.IMetAlt) = true := by
        simp [ha, F64.lt, hlt]
      simp [this]
    · intro hge
      have : F64.lt pkt.Alt (F64.fin s.IMetAlt) = false := by
        simp [ha, F64.lt, hge]
      simp [this]
  · intro hm hz
    rw [iMet_of_session pkt s hm]
    simp [hz]
  · intro hm
    rw [iMet_of_session pkt s hm]
  · intro hm
    simp [messagePubHandler.iMet, hm]
  · by_cases hm : pkt.Manufacturer = "Intermet Systems"
    · refine ⟨{ s with IMetAlt := F64.toInt pkt.Alt }, ?_, ?_⟩
      · rw [iMet_of_session pkt s hm]
      · unfold messagePubHandler.dispatch
        rw [iMet_of_session pkt s hm]
    · refine ⟨s, ?_, ?_⟩
      · simp [messagePubHandler.iMet, hm]
      · unfold messagePubHandler.dispatch
        simp [messagePubHandler.iMet, hm]

/-- C14 (counterexample): the iMet record at 12000 m arrives 60 s after the
session was last processed, inside the boundary, with an empty lock table and
every collaborator answering; the gate suppresses it, and after the loop body
the session store still holds the last-seen altitude 15000, not 12000. -/
theorem iMet_altitude_not_stored_when_suppressed :
    exampleIMetPacket.Manufacturer = "Intermet Systems" ∧
    exampleProcess.world.store.get exampleIMetPacket.Serial = some exampleIMetSession ∧
    F64.toInt exampleIMetPacket.Alt = 12000 ∧
    (messagePubHandler.record exampleGlobals exampleRecordOutcomes exampleIMetPacket
      exampleProcess).1 = Flow.next ∧
    ∃ stored,
      (messagePubHandler.record exampleGlobals exampleRecordOutcomes exampleIMetPacket
        exampleProcess).2.world.store.get exampleIMetPacket.Serial = some stored ∧
      stored.IMetAlt = 15000 := by
  have hget : exampleProcess.world.store.get exampleIMetPacket.Serial
      = some exampleIMetSession := by
    simp [exampleProcess, exampleIMetWorld, exampleIMetPacket, GoMap.get]
  have halt : F64.toInt exampleIMetPacket.Alt = 12000 := by
    simp [F64.toInt, exampleIMetPacket]
  have hsup : handleSonde.suppressed exampleGlobals.updateInterval
      (messagePubHandler.iMet exampleIMetPacket (some exampleIMetSession)).1
      { exampleIMetSession with IMetAlt := 12000 } = true := by
    rw [iMet_of_session _ _ rfl]
    have hof : F64.ofInt exampleIMetSession.IMetAlt = F64.fin 15000 :=
      F64.ofInt_of_natAbs_le _ (by decide)
    rw [hof]
    simp [handleSonde.suppressed, exampleGlobals, exampleConfig, exampleIMetPacket,
      exampleIMetSession, wrap64, F64.lt]
    norm_num
  have hdisp : messagePubHandler.dispatch exampleGlobals exampleRecordOutcomes.calls
      exampleIMetPacket (some exampleIMetSession) exampleProcess.world
      = exampleProcess.world := by
    unfold messagePubHandler.dispatch
    have h2 : (messagePubHandler.iMet exampleIMetPacket (some exampleIMetSession)).2
        = some { exampleIMetSession with IMetAlt := 12000 } := by
      rw [iMet_of_session _ _ rfl, halt]
    rw [h2]
    exact handleSonde_of_suppressed _ _ _ _ _ hsup
  have hclaim : claimSonde exampleProcess.sondeMutex exampleIMetPacket.Serial
      = (true, [(exampleIMetPacket.Serial, ())]) := by
    simp [claimSonde, exampleProcess, GoMap.get, GoMap.set]
  have hrec : messagePubHandler.record exampleGlobals exampleRecordOutcomes exampleIMetPacket
      exampleProcess = (Flow.next, exampleProcess) := by
    unfold messagePubHandler.record
    rw [exampleIMet_inside, hclaim]
    simp only [Bool.not_true, Bool.false_and, Bool.false_eq_true, if_false, hget]
    have : exampleRecordOutcomes.lookupFails = false := rfl
    simp only [this, Bool.false_eq_true, if_false, hdisp]
    simp [releaseSonde, GoMap.delete, exampleProcess]
  refine ⟨rfl, hget, halt, ?_, exampleIMetSession, ?_, rfl⟩
  · rw [hrec]
  · rw [hrec]
    exact hget

/-- C14 (as amended): for a record of manufacturer "Intermet Systems" handled
against an existing session, the session that is handed to `handleSonde` has
the altitude of the record, cut to an integer, as its last-seen altitude,
whatever the gate decides afterwards.  The session store receives it only
through the save at the end of `handleSonde`: when the gate suppresses the
record the store is unchanged, and when the gate is passed, the lookups
succeed, the update is sent and the save succeeds, the stored session holds
that altitude. -/
theorem iMet_altitude_store (g : Globals) (o : Outcomes) (pkt : SHPacket) (s : SondeSession)
    (w : World) (hm : pkt.Manufacturer = "Intermet Systems") :
    ∃ pkt' s',
      messagePubHandler.iMet pkt (some s) = (pkt', some s') ∧
      s'.IMetAlt = F64.toInt pkt.Alt ∧
      messagePubHandler.dispatch g o pkt (some s) w = handleSonde g.toConfig o pkt' s' w ∧
      (handleSonde.suppressed g.updateInterval pkt' s' = true →
        (messagePubHandler.dispatch g o pkt (some s) w).store = w.store) ∧
      (handleSonde.suppressed g.updateInterval pkt' s' = false →
        o.geocodeAct.isSome = true → o.prediction.isSome = true →
        o.geocodePred.isSome = true → (o.render = none → o.send.isSome = true) →
        o.save = true →
        ∃ stored, (messagePubHandler.dispatch g o pkt (some s) w).store.get pkt.Serial
            = some stored ∧
          stored.IMetAlt = F64.toInt pkt.Alt) := by
  have hi := iMet_of_session pkt s hm
  have hd : messagePubHandler.dispatch g o pkt (some s) w =
      handleSonde g.toConfig o (messagePubHandler.iMet pkt (some s)).1
        { s with IMetAlt := F64.toInt pkt.Alt } w := by
    unfold messagePubHandler.dispatch
    rw [hi]
  have hserial : (messagePubHandler.iMet pkt (some s)).1.Serial = pkt.Serial := by
    rw [hi]
    simp only
    split
    · split <;> rfl
    · rfl
  have htime : (messagePubHandler.iMet pkt (some s)).1.TimeReceived = pkt.TimeReceived := by
    rw [hi]
    simp only
    split
    · split <;> rfl
    · rfl
  refine ⟨(messagePubHandler.iMet pkt (some s)).1, { s with IMetAlt := F64.toInt pkt.Alt },
    ?_, rfl, hd, ?_, ?_⟩
  · rw [hi]
  · intro hsup
    rw [hd, handleSonde_of_suppressed _ _ _ _ _ hsup]
  · intro hpass hact hpred hloc hsend hsave
    obtain ⟨a, ha⟩ := Option.isSome_iff_exists.1 hact
    obtain ⟨sp, hsp⟩ := Option.isSome_iff_exists.1 hpred
    obtain ⟨b, hb⟩ := Option.isSome_iff_exists.1 hloc
    have hrun := handleSonde_run g.toConfig o (messagePubHandler.iMet pkt (some s)).1
      { s with IMetAlt := F64.toInt pkt.Alt } w a b sp hpass ha hsp hb hsend
    refine ⟨{ s with IMetAlt := F64.toInt pkt.Alt, Time := pkt.TimeReceived }, ?_, rfl⟩
    rw [hd, hrun.2, hsave, hserial, htime]
    simp [GoMap.get_set_self]

/-- Witness for C14 as amended: the iMet record received an hour after the
session was last processed; the gate is passed and the stored session holds
the altitude 12000. -/
theorem iMet_altitude_store_witness :
    exampleIMetPacketLater.Manufacturer = "Intermet Systems" ∧
    ∃ pkt' s',
      messagePubHandler.iMet exampleIMetPacketLater (some exampleIMetSession)
        = (pkt', some s') ∧
      s'.IMetAlt = F64.toInt exampleIMetPacketLater.Alt ∧
      messagePubHandler.dispatch exampleGlobals exampleOutcomes exampleIMetPacketLater
        (some exampleIMetSession) exampleIMetWorld =
        handleSonde exampleGlobals.toConfig exampleOutcomes pkt' s' exampleIMetWorld ∧
      (handleSonde.suppressed exampleGlobals.updateInterval pkt' s' = true →
        (messagePubHandler.dispatch exampleGlobals exampleOutcomes exampleIMetPacketLater
          (some exampleIMetSession) exampleIMetWorld).store = exampleIMetWorld.store) ∧
      (handleSonde.suppressed exampleGlobals.updateInterval pkt' s' = false →
        exampleOutcomes.geocodeAct.isSome = true → exampleOutcomes.prediction.isSome = true →
        exampleOutcomes.geocodePred.isSome = true →
        (exampleOutcomes.render = none → exampleOutcomes.send.isSome = true) →
        exampleOutcomes.save = true →
        ∃ stored, (messagePubHandler.dispatch exampleGlobals exampleOutcomes
            exampleIMetPacketLater (some exampleIMetSession) exampleIMetWorld).store.get
              exampleIMetPacketLater.Serial = some stored ∧
          stored.IMetAlt = F64.toInt exampleIMetPacketLater.Alt) :=
  ⟨rfl, iMet_altitude_store exampleGlobals exampleOutcomes exampleIMetPacketLater
    exampleIMetSession exampleIMetWorld rfl⟩

/-! ## The new-record handler: launch sites and reverse geocoding -/

theorem handleNewSonde_session_fields (cfg : Config) (pkt : SHPacket) :
    (handleNewSonde.session cfg pkt).Time = pkt.TimeReceived ∧
    (handleNewSonde.session cfg pkt).Webhook = cfg.webhookURL := by
  unfold handleNewSonde.session
  simp only
  constructor <;> split <;> split <;> rfl

theorem handleNewSonde_of_sent (cfg : Config) (o : Outcomes) (pkt : SHPacket) (w : World)
    (m : String) (hm : o.send = some m) (hs : o.save = true) :
    (handleNewSonde cfg o pkt w).log = w.log ++
      [Event.reverseGeocode pkt.Lat pkt.Lon, Event.sendDiscordWebhook cfg.webhookURL false,
       Event.saveSondeSession pkt.Serial
         { handleNewSonde.session cfg pkt with Webhook := cfg.webhookURL ++ "/messages/" ++ m }] ∧
    (handleNewSonde cfg o pkt w).store.get pkt.Serial =
      some { handleNewSonde.session cfg pkt with
        Webhook := cfg.webhookURL ++ "/messages/" ++ m } := by
  have hW := (handleNewSonde_session_fields cfg pkt).2
  simp [handleNewSonde, hm, hs, hW, World.SaveSondeSession, World.call, GoMap.get_set_self]

theorem handleNewSonde_session_of_no_sites (cfg : Config) (pkt : SHPacket)
    (h : cfg.launchSites = []) :
    (handleNewSonde.session cfg pkt).FromText = "From " := by
  have h10 : F64.lt (F64.fin 0) (F64.fin 10) = true := by
    simp [F64.lt]
  simp [handleNewSonde.session, FindClosestPoint, h, h10, Point.zero]

/-- C16 (the defect): with no launch site configured, `FindClosestPoint`
returns an error together with the distance 0, `handleNewSonde` clears the
origin annotation and then, because 0 is below 10, sets it to `From ` followed
by the empty name of `Point{}`; the session it saves carries that annotation. -/
theorem handleNewSonde_no_launch_sites_annotation :
    exampleConfigNoSites.launchSites = [] ∧
    FindClosestPoint exampleConfigNoSites.math examplePacket.Lat examplePacket.Lon
      exampleConfigNoSites.launchSites = (Point.zero, F64.fin 0, some "no points provided") ∧
    (handleNewSonde.session exampleConfigNoSites examplePacket).FromText = "From " ∧
    ∃ stored,
      (handleNewSonde exampleConfigNoSites exampleOutcomes examplePacket emptyWorld).store.get
        examplePacket.Serial = some stored ∧
      stored.FromText = "From " := by
  have hF := handleNewSonde_session_of_no_sites exampleConfigNoSites examplePacket rfl
  refine ⟨rfl, rfl, hF, _,
    (handleNewSonde_of_sent exampleConfigNoSites exampleOutcomes examplePacket emptyWorld "77"
      rfl rfl).2, hF⟩

/-- C17 (the defect): the device has no session and the reverse geocoding of
the position fails; `handleNewSonde` only reports the error, then sends the
arrival notification (a send that is not an edit) and saves a session. -/
theorem handleNewSonde_geocode_failure_still_notifies :
    exampleOutcomesGeocodeFails.geocodeAct = none ∧
    emptyWorld.store.get examplePacket.Serial = none ∧
    (handleNewSonde exampleConfig exampleOutcomesGeocodeFails examplePacket emptyWorld).log =
      [Event.reverseGeocode examplePacket.Lat examplePacket.Lon,
       Event.sendDiscordWebhook exampleConfig.webhookURL false,
       Event.saveSondeSession examplePacket.Serial
         { handleNewSonde.session exampleConfig examplePacket with
           Webhook := exampleConfig.webhookURL ++ "/messages/" ++ "77" }] ∧
    ∃ stored,
      (handleNewSonde exampleConfig exampleOutcomesGeocodeFails examplePacket
        emptyWorld).store.get examplePacket.Serial = some stored ∧
      stored.Time = examplePacket.TimeReceived := by
  have h := handleNewSonde_of_sent exampleConfig exampleOutcomesGeocodeFails examplePacket
    emptyWorld "77" rfl rfl
  refine ⟨rfl, rfl, ?_, _, h.2, (handleNewSonde_session_fields _ _).1⟩
  rw [h.1]
  rfl

/-! ## The distance of a point to itself -/

theorem F64.maxValue_pos : (0 : ℚ) < F64.maxValue := by
  unfold F64.maxValue
  norm_num

theorem F64.maxValue_lt : F64.maxValue < 2 ^ 1024 := by
  unfold F64.maxValue
  norm_num

theorem F64.one_le_maxValue : (1 : ℚ) ≤ F64.maxValue := by
  unfold F64.maxValue
  norm_num

theorem F64.ofRat_of_abs_le (q : ℚ) (h : |q| ≤ F64.maxValue) : F64.ofRat q = F64.fin q := by
  have h' := abs_le.1 h
  unfold F64.ofRat
  rw [if_neg (not_lt.2 h'.2), if_neg (not_lt.2 h'.1)]

theorem GoMath.coarse_IEEE : GoMath.coarse.IEEE where
  mul_finite := fun x y h => ⟨x * y, h, by simp [GoMath.coarse, F64.ofRat_of_abs_le _ h]⟩
  div_finite := fun x y hy h => ⟨x / y, h, by simp [GoMath.coarse, hy, F64.ofRat_of_abs_le _ h]⟩
  mul_overflow := fun x y h => by
    have : F64.maxValue < x * y := lt_of_lt_of_le F64.maxValue_lt h
    simp [GoMath.coarse, F64.ofRat, this]
  sub_self := fun x => by
    simp [GoMath.coarse, F64.ofRat_of_abs_le 0 (by simpa using F64.maxValue_pos.le)]
  zero_mul := fun x => by
    simp [GoMath.coarse, F64.ofRat_of_abs_le 0 (by simpa using F64.maxValue_pos.le)]
  mul_zero := fun x => by
    simp [GoMath.coarse, F64.ofRat_of_abs_le 0 (by simpa using F64.maxValue_pos.le)]
  zero_div := fun x hx => by
    simp [GoMath.coarse, hx, F64.ofRat_of_abs_le 0 (by simpa using F64.maxValue_pos.le)]
  zero_add_zero := by
    simp [GoMath.coarse, F64.ofRat_of_abs_le 0 (by simpa using F64.maxValue_pos.le)]
  one_sub_zero := by
    simp [GoMath.coarse, F64.ofRat_of_abs_le 1 (by simpa using F64.one_le_maxValue)]
  nan_mul := fun a => by simp [GoMath.coarse]
  mul_nan := fun a => by cases a <;> simp [GoMath.coarse]
  add_nan := fun a => by cases a <;> simp [GoMath.coarse]
  sub_nan := fun a => by cases a <;> simp [GoMath.coarse]
  posInf_div := fun y hy => by simp [GoMath.coarse, hy]
  sin_zero := by simp [GoMath.coarse]
  cos_finite := fun x => ⟨1, by simp, by simp [GoMath.coarse]⟩
  cos_posInf := by simp [GoMath.coarse]
  sqrt_zero := by simp [GoMath.coarse]
  sqrt_one := by simp [GoMath.coarse]
  sqrt_nan := by simp [GoMath.coarse]
  atan2_zero_one := by simp [GoMath.coarse]
  atan2_nan := fun a => by simp [GoMath.coarse]

/-- With lawful arithmetic, the haversine distance of a point to itself is 0
as soon as the latitude in radians is finite. -/
theorem haversineMiles_self (m : GoMath) (hm : m.IEEE) (lat lon : ℚ)
    (hlat : |lat * mathPiValue| ≤ F64.maxValue) :
    haversineMiles m (F64.fin lat) (F64.fin lon) (F64.fin lat) (F64.fin lon) = F64.fin 0 := by
  obtain ⟨z, hz, hmul⟩ := hm.mul_finite lat mathPiValue hlat
  have hz180 : |z / 180| ≤ F64.maxValue := by
    rw [abs_div]
    have : |z| / |(180 : ℚ)| ≤ |z| := by
      apply div_le_self (abs_nonneg z)
      norm_num
    exact le_trans this hz
  obtain ⟨r, _, hdiv⟩ := hm.div_finite z 180 (by norm_num) hz180
  obtain ⟨c, hc, hcos⟩ := hm.cos_finite r
  have hcc : |c * c| ≤ F64.maxValue := by
    rw [abs_mul]
    have : |c| * |c| ≤ 1 := by
      have h0 := abs_nonneg c
      nlinarith
    exact le_trans this F64.one_le_maxValue
  obtain ⟨cc, _, hccmul⟩ := hm.mul_finite c c hcc
  have hpi : mathPi = F64.fin mathPiValue := rfl
  unfold haversineMiles
  simp only [hpi, hm.sub_self, hm.zero_mul, hm.zero_div 180 (by norm_num),
    hm.zero_div 2 (by norm_num), hm.sin_zero, hmul, hdiv, hcos, hccmul, hm.mul_zero,
    hm.zero_add_zero, hm.sqrt_zero, hm.one_sub_zero, hm.sqrt_one, hm.atan2_zero_one]

/-- With lawful arithmetic, the haversine distance of a point at latitude
`2^1023` to itself is NaN: the latitude in radians overflows. -/
theorem haversineMiles_self_overflow (m : GoMath) (hm : m.IEEE) (lon : ℚ) :
    haversineMiles m (F64.fin (2 ^ 1023)) (F64.fin lon) (F64.fin (2 ^ 1023)) (F64.fin lon)
      = F64.nan := by
  have hpi : mathPi = F64.fin mathPiValue := rfl
  have hover : (2 : ℚ) ^ 1024 ≤ 2 ^ 1023 * mathPiValue := by
    unfold mathPiValue
    norm_num
  unfold haversineMiles
  simp only [hpi, hm.mul_overflow _ _ hover, hm.posInf_div 180 (by norm_num), hm.cos_posInf,
    hm.nan_mul, hm.add_nan, hm.sqrt_nan, hm.atan2_nan, hm.mul_nan]

/-- C19 (counterexample): arithmetic with the properties `GoMath.IEEE` exists,
and with any such arithmetic the point `P` at latitude `2^1023` (a finite
`float64`) and longitude 0 has the distance NaN to itself, so that
`FindClosestPoint(P.Lat, P.Lon, [P])` returns `Point{}` and `MaxFloat64`
instead of `P` and 0. -/
theorem FindClosestPoint_self_overflow :
    (∃ m : GoMath, m.IEEE) ∧
    ∀ m : GoMath, m.IEEE →
      haversineMiles m examplePointFar.Lat examplePointFar.Lon examplePointFar.Lat
        examplePointFar.Lon = F64.nan ∧
      FindClosestPoint m examplePointFar.Lat examplePointFar.Lon [examplePointFar] =
        (Point.zero, F64.maxFloat64, none) ∧
      Point.zero ≠ examplePointFar := by
  refine ⟨⟨GoMath.coarse, GoMath.coarse_IEEE⟩, ?_⟩
  intro m hm
  have h := haversineMiles_self_overflow m hm 0
  refine ⟨h, ?_, by simp [Point.zero, examplePointFar]⟩
  have h' : haversineMiles m examplePointFar.Lat examplePointFar.Lon examplePointFar.Lat
      examplePointFar.Lon = F64.nan := h
  simp [FindClosestPoint, FindClosestPoint.step, h', F64.lt]

/-- C19 (as amended): with arithmetic that has the properties `GoMath.IEEE`,
for every point `P` with finite latitude and longitude whose latitude in
radians does not overflow (`|lat| * Pi <= MaxFloat64`),
`haversineMiles(lat, lon, lat, lon)` is exactly 0 and
`FindClosestPoint(P.Lat, P.Lon, [P])` returns `P`, the distance 0 and no
error. -/
theorem FindClosestPoint_self (m : GoMath) (hm : m.IEEE) (lat lon : ℚ) (name : String)
    (hlat : |lat * mathPiValue| ≤ F64.maxValue) :
    haversineMiles m (F64.fin lat) (F64.fin lon) (F64.fin lat) (F64.fin lon) = F64.fin 0 ∧
    FindClosestPoint m (F64.fin lat) (F64.fin lon) [⟨F64.fin lat, F64.fin lon, name⟩] =
      (⟨F64.fin lat, F64.fin lon, name⟩, F64.fin 0, none) := by
  have h := haversineMiles_self m hm lat lon hlat
  refine ⟨h, ?_⟩
  have hlt : F64.lt (F64.fin 0) F64.maxFloat64 = true := by
    simp only [F64.lt, F64.maxFloat64, decide_eq_true_eq]
    exact F64.maxValue_pos
  simp [FindClosestPoint, FindClosestPoint.step, h, hlt]

/-- Witness for C19 as amended: the point at 41 N, 93 W with the arithmetic
`GoMath.coarse`. -/
theorem FindClosestPoint_self_witness :
    GoMath.coarse.IEEE ∧ |(41 : ℚ) * mathPiValue| ≤ F64.maxValue ∧
    haversineMiles GoMath.coarse (F64.fin 41) (F64.fin (-93)) (F64.fin 41) (F64.fin (-93))
      = F64.fin 0 ∧
    FindClosestPoint GoMath.coarse (F64.fin 41) (F64.fin (-93))
      [⟨F64.fin 41, F64.fin (-93), "Ames"⟩] =
      (⟨F64.fin 41, F64.fin (-93), "Ames"⟩, F64.fin 0, none) :=
  have h : |(41 : ℚ) * mathPiValue| ≤ F64.maxValue := by
    unfold mathPiValue F64.maxValue
    rw [abs_of_nonneg (by norm_num)]
    norm_num
  ⟨GoMath.coarse_IEEE, h, FindClosestPoint_self GoMath.coarse GoMath.coarse_IEEE 41 (-93) "Ames" h⟩

/-! ## Concurrent invocations: mutual exclusion per device id -/

theorem holding_of_set (l : List Invocation) (i k : Nat) (x : Invocation) (id : String)
    (rest : List String) (h : (l.set i x)[k]? = some (Invocation.holding id rest)) :
    (k = i ∧ x = Invocation.holding id rest) ∨
    (k ≠ i ∧ l[k]? = some (Invocation.holding id rest)) := by
  by_cases hk : i = k
  · subst hk
    rw [List.getElem?_set_self'] at h
    cases hl : l[i]? with
    | none => simp [hl] at h
    | some y =>
      simp [hl] at h
      exact Or.inl ⟨rfl, h⟩
  · rw [List.getElem?_set_ne hk] at h
    exact Or.inr ⟨fun h' => hk h'.symm, h⟩

theorem holding_of_append (l : List Invocation) (k : Nat) (todo : List String) (id : String)
    (rest : List String)
    (h : (l ++ [Invocation.atLoop todo])[k]? = some (Invocation.holding id rest)) :
    l[k]? = some (Invocation.holding id rest) := by
  by_cases hk : k < l.length
  · rwa [List.getElem?_append_left hk] at h
  · rw [List.getElem?_append_right (by omega)] at h
    cases hk' : k - l.length with
    | zero => simp [hk'] at h
    | succ n => simp [hk'] at h

/-- Replacing an invocation by one that holds nothing, with the lock table
kept on the ids that other invocations hold, preserves the invariant. -/
theorem Inv_set_idle (s : Shared) (i : Nat) (x : Invocation) (tbl : LockTable)
    (hx : ∀ id rest, x ≠ Invocation.holding id rest)
    (htbl : ∀ k id rest, k ≠ i → s.invocations[k]? = some (Invocation.holding id rest) →
      tbl.get id = some ())
    (h : s.Inv) :
    Shared.Inv { sondeMutex := tbl, invocations := s.invocations.set i x } := by
  constructor
  · intro k id rest hk
    rcases holding_of_set _ _ _ _ _ _ hk with ⟨_, hx'⟩ | ⟨hne, hk'⟩
    · exact absurd hx' (hx id rest)
    · exact htbl k id rest hne hk'
  · intro k j id rest rest' hk hj
    rcases holding_of_set _ _ _ _ _ _ hk with ⟨_, hx'⟩ | ⟨_, hk'⟩
    · exact absurd hx' (hx id rest)
    · rcases holding_of_set _ _ _ _ _ _ hj with ⟨_, hx'⟩ | ⟨_, hj'⟩
      · exact absurd hx' (hx id rest')
      · exact h.2 k j id rest rest' hk' hj'

theorem Inv_release (s : Shared) (i : Nat) (x : Invocation) (id : String) (rest : List String)
    (hx : ∀ id rest, x ≠ Invocation.holding id rest)
    (hi : s.invocations[i]? = some (Invocation.holding id rest)) (h : s.Inv) :
    Shared.Inv { sondeMutex := releaseSonde s.sondeMutex id,
                 invocations := s.invocations.set i x } := by
  apply Inv_set_idle s i x _ hx _ h
  intro k id' rest' hne hk
  have hid : id' ≠ id := by
    rintro rfl
    exact hne (h.2 k i id' rest' rest hk hi)
  unfold releaseSonde
  rw [GoMap.get_delete_ne _ _ _ hid]
  exact h.1 k id' rest' hk

theorem Inv_step (s : Shared) (a : Action) (h : s.Inv) : (s.step a).Inv := by
  cases a with
  | arrive todo =>
    constructor
    · intro k id rest hk
      exact h.1 k id rest (holding_of_append _ _ _ _ _ hk)
    · intro k j id rest rest' hk hj
      exact h.2 k j id rest rest' (holding_of_append _ _ _ _ _ hk)
        (holding_of_append _ _ _ _ _ hj)
  | advance i =>
    simp only [Shared.step]
    split
    · exact Inv_set_idle s i _ _ (by simp) (fun k id rest _ hk => h.1 k id rest hk) h
    · next id rest hi =>
      cases hget : GoMap.get s.sondeMutex id with
      | some u =>
        have hc : claimSonde s.sondeMutex id = (false, s.sondeMutex) := by
          simp [claimSonde, hget]
        simp only [hc]
        exact Inv_set_idle s i _ _ (by simp) (fun k id rest _ hk => h.1 k id rest hk) h
      | none =>
        have hc : claimSonde s.sondeMutex id = (true, GoMap.set s.sondeMutex id ()) := by
          simp [claimSonde, hget]
        simp only [hc]
        have hfree : ∀ (k : Nat) id' rest', s.invocations[k]? = some (Invocation.holding id' rest') →
            id' ≠ id := by
          intro k id' rest' hk hid
          have := h.1 k id' rest' hk
          rw [hid, hget] at this
          exact absurd this (by simp)
        constructor
        · intro k id' rest' hk
          rcases holding_of_set _ _ _ _ _ _ hk with ⟨_, hx⟩ | ⟨_, hk'⟩
          · simp only [Invocation.holding.injEq] at hx
            rw [← hx.1]
            exact GoMap.get_set_self _ _ _
          · rw [GoMap.get_set_ne _ _ _ _ (hfree k id' rest' hk')]
            exact h.1 k id' rest' hk'
        · intro k j id' rest' rest'' hk hj
          rcases holding_of_set _ _ _ _ _ _ hk with ⟨hki, hx⟩ | ⟨_, hk'⟩
          · rcases holding_of_set _ _ _ _ _ _ hj with ⟨hji, _⟩ | ⟨_, hj'⟩
            · rw [hki, hji]
            · simp only [Invocation.holding.injEq] at hx
              exact absurd hx.1.symm (hfree j id' rest'' hj')
          · rcases holding_of_set _ _ _ _ _ _ hj with ⟨_, hx⟩ | ⟨_, hj'⟩
            · simp only [Invocation.holding.injEq] at hx
              exact absurd hx.1.symm (hfree k id' rest' hk')
            · exact h.2 k j id' rest' rest'' hk' hj'
    · next id rest hi =>
      exact Inv_release s i _ id rest (by simp) hi h
    · exact h
  | leave i =>
    simp only [Shared.step]
    split
    · exact Inv_set_idle s i _ _ (by simp) (fun k id rest _ hk => h.1 k id rest hk) h
    · next id rest hi =>
      exact Inv_release s i _ id rest (by simp) hi h
    · exact h

theorem Inv_run (actions : List Action) : (Shared.run actions).Inv := by
  have key : ∀ (s : Shared), s.Inv → (actions.foldl Shared.step s).Inv := by
    induction actions with
    | nil => exact fun s h => h
    | cons a rest ih => exact fun s h => ih (s.step a) (Inv_step s a h)
  exact key Shared.init ⟨by simp [Shared.init], by simp [Shared.init]⟩

/-- C20: in every state that the invocations of the handler can reach from the
start of the process, whatever the interleaving of their steps, no two
invocations are between a successful `claimSonde(id)` and its
`releaseSonde(id)` for the same id, and an id that is held is in the lock
table.  A `claimSonde` that fails does not wait: in that very step the
invocation goes on to its next record and the lock table is left as it was. -/
theorem claim_mutual_exclusion (actions : List Action) :
    (∀ (i j : Nat) id rest rest',
      (Shared.run actions).invocations[i]? = some (Invocation.holding id rest) →
      (Shared.run actions).invocations[j]? = some (Invocation.holding id rest') → i = j) ∧
    (∀ (i : Nat) id rest,
      (Shared.run actions).invocations[i]? = some (Invocation.holding id rest) →
      (Shared.run actions).sondeMutex.get id = some ()) ∧
    (∀ (s : Shared) (i : Nat) id rest,
      s.invocations[i]? = some (Invocation.atLoop (id :: rest)) →
      (claimSonde s.sondeMutex id).1 = false →
      (s.step (Action.advance i)).invocations[i]? = some (Invocation.atLoop rest) ∧
      (s.step (Action.advance i)).sondeMutex = s.sondeMutex) ∧
    (∀ (s : Shared) (i : Nat) id rest,
      s.invocations[i]? = some (Invocation.atLoop (id :: rest)) →
      (claimSonde s.sondeMutex id).1 = true →
      (s.step (Action.advance i)).invocations[i]? = some (Invocation.holding id rest)) := by
  have hinv := Inv_run actions
  refine ⟨hinv.2, hinv.1, ?_, ?_⟩
  · intro s i id rest hi hc
    have hlt : i < s.invocations.length := by
      by_contra hge
      rw [List.getElem?_eq_none (by omega)] at hi
      exact absurd hi (by simp)
    cases hget : GoMap.get s.sondeMutex id with
    | none => simp [claimSonde, hget] at hc
    | some u =>
      have hc' : claimSonde s.sondeMutex id = (false, s.sondeMutex) := by
        simp [claimSonde, hget]
      simp [Shared.step, hi, hc', hlt]
  · intro s i id rest hi hc
    have hlt : i < s.invocations.length := by
      by_contra hge
      rw [List.getElem?_eq_none (by omega)] at hi
      exact absurd hi (by simp)
    cases hget : GoMap.get s.sondeMutex id with
    | some u => simp [claimSonde, hget] at hc
    | none =>
      have hc' : claimSonde s.sondeMutex id = (true, GoMap.set s.sondeMutex id ()) := by
        simp [claimSonde, hget]
      simp [Shared.step, hi, hc', hlt]

/-! ## The geofence on exact rationals -/

theorem crossesQ_iff (P A B : Pt) :
    crossesQ P A B = true ↔
      (A.2 ≤ P.2 ∧ P.2 < B.2 ∧ (P.1 - A.1) * (B.2 - A.2) < (B.1 - A.1) * (P.2 - A.2)) ∨
      (B.2 ≤ P.2 ∧ P.2 < A.2 ∧ (B.1 - A.1) * (P.2 - A.2) < (P.1 - A.1) * (B.2 - A.2)) := by
  unfold crossesQ
  simp only [Bool.and_eq_true, bne_iff_ne, ne_eq, decide_eq_decide, decide_eq_true_eq, gt_iff_lt]
  constructor
  · rintro ⟨hs, hx⟩
    by_cases hA : P.2 < A.2
    · have hB : ¬ P.2 < B.2 := fun hB => hs ⟨fun _ => hB, fun _ => hA⟩
      right
      have hd : B.2 - A.2 < 0 := by linarith
      refine ⟨by linarith, hA, ?_⟩
      have h1 : P.1 - A.1 < (B.1 - A.1) * (P.2 - A.2) / (B.2 - A.2) := by linarith
      rw [lt_div_iff_of_neg hd] at h1
      exact h1
    · have hB : P.2 < B.2 := by
        by_contra hB
        exact hs ⟨fun h => absurd h hA, fun h => absurd h hB⟩
      left
      have hd : 0 < B.2 - A.2 := by linarith
      refine ⟨by linarith, hB, ?_⟩
      have h1 : P.1 - A.1 < (B.1 - A.1) * (P.2 - A.2) / (B.2 - A.2) := by linarith
      rw [lt_div_iff₀ hd] at h1
      exact h1
  · rintro (⟨h1, h2, h3⟩ | ⟨h1, h2, h3⟩)
    · have hd : 0 < B.2 - A.2 := by linarith
      refine ⟨fun h => ?_, ?_⟩
      · have := h.2 h2
        linarith
      · have : P.1 - A.1 < (B.1 - A.1) * (P.2 - A.2) / (B.2 - A.2) := by
          rw [lt_div_iff₀ hd]
          exact h3
        linarith
    · have hd : B.2 - A.2 < 0 := by linarith
      refine ⟨fun h => ?_, ?_⟩
      · have := h.1 h2
        linarith
      · have : P.1 - A.1 < (B.1 - A.1) * (P.2 - A.2) / (B.2 - A.2) := by
          rw [lt_div_iff_of_neg hd]
          exact h3
        linarith

theorem crossesQ_symm (P A B : Pt) : crossesQ P A B = crossesQ P B A := by
  have h : ∀ A B : Pt, crossesQ P A B = true → crossesQ P B A = true := by
    intro A B h
    rw [crossesQ_iff] at h ⊢
    rcases h with ⟨h1, h2, h3⟩ | ⟨h1, h2, h3⟩
    · right
      exact ⟨h1, h2, by nlinarith⟩
    · left
      exact ⟨h1, h2, by nlinarith⟩
  cases h1 : crossesQ P A B with
  | true => exact (h A B h1).symm
  | false =>
    cases h2 : crossesQ P B A with
    | false => rfl
    | true =>
      rw [h B A h2] at h1
      exact absurd h1 (by decide)

/-- An affine function that changes sign on an interval has a root there. -/
theorem affine_root (f0 a y1 y2 : ℚ) (h12 : y1 ≤ y2) (hs : (f0 + a * y1) * (f0 + a * y2) ≤ 0) :
    ∃ y, y1 ≤ y ∧ y ≤ y2 ∧ f0 + a * y = 0 := by
  by_cases h1 : f0 + a * y1 = 0
  · exact ⟨y1, le_refl _, h12, h1⟩
  by_cases h2 : f0 + a * y2 = 0
  · exact ⟨y2, h12, le_refl _, h2⟩
  have ha : a ≠ 0 := by
    rintro rfl
    simp only [zero_mul, add_zero] at hs h1
    have : 0 < f0 * f0 := mul_self_pos.2 h1
    linarith
  have hroot : f0 + a * (-f0 / a) = 0 := by
    field_simp
    ring
  have hne : (f0 + a * y1) * (f0 + a * y2) < 0 := lt_of_le_of_ne hs (mul_ne_zero h1 h2)
  have hd : (f0 + a * y2) - (f0 + a * y1) = a * (y2 - y1) := by ring
  rcases lt_or_gt_of_ne ha with ha' | ha'
  · have huv : f0 + a * y2 ≤ f0 + a * y1 := by
      have := mul_nonpos_of_nonpos_of_nonneg ha'.le (sub_nonneg.2 h12)
      linarith
    have hv : f0 + a * y2 ≤ 0 := by
      by_contra hc
      push_neg at hc
      have := mul_pos (lt_of_lt_of_le hc huv) hc
      linarith
    have hu : 0 ≤ f0 + a * y1 := by
      by_contra hc
      push_neg at hc
      have := mul_pos_of_neg_of_neg hc (lt_of_le_of_lt huv hc)
      linarith
    refine ⟨-f0 / a, ?_, ?_, hroot⟩
    · rw [le_div_iff_of_neg ha']
      linarith
    · rw [div_le_iff_of_neg ha']
      linarith
  · have huv : f0 + a * y1 ≤ f0 + a * y2 := by
      have := mul_nonneg ha'.le (sub_nonneg.2 h12)
      linarith
    have hu : f0 + a * y1 ≤ 0 := by
      by_contra hc
      push_neg at hc
      have := mul_pos hc (lt_of_lt_of_le hc huv)
      linarith
    have hv : 0 ≤ f0 + a * y2 := by
      by_contra hc
      push_neg at hc
      have := mul_pos_of_neg_of_neg (lt_of_le_of_lt huv hc) hc
      linarith
    refine ⟨-f0 / a, ?_, ?_, hroot⟩
    · rw [le_div_iff₀ ha']
      linarith
    · rw [div_le_iff₀ ha']
      linarith

theorem inter_of_sign (Q Q' A B : Pt) (hq : Q.2 < Q'.2) (hab : A.2 < B.2) (y1 y2 : ℚ)
    (h12 : y1 ≤ y2) (hA : A.2 ≤ y1) (hB : y2 ≤ B.2) (hQ : Q.2 ≤ y1) (hQ' : y2 ≤ Q'.2)
    (hs : gapAt Q Q' A B y1 * gapAt Q Q' A B y2 ≤ 0) :
    ∃ X, OnSegment X Q Q' ∧ OnSegment X A B := by
  have haff : ∀ y, gapAt Q Q' A B y =
      gapAt Q Q' A B 0 + (gapAt Q Q' A B 1 - gapAt Q Q' A B 0) * y := by
    intro y
    unfold gapAt
    ring
  rw [haff y1, haff y2] at hs
  obtain ⟨y, hy1, hy2, hy⟩ := affine_root _ _ y1 y2 h12 hs
  rw [← haff y] at hy
  have hdq : 0 < Q'.2 - Q.2 := by linarith
  have hda : 0 < B.2 - A.2 := by linarith
  refine ⟨(Q.1 + (y - Q.2) / (Q'.2 - Q.2) * (Q'.1 - Q.1), y), ?_, ?_⟩
  · refine ⟨(y - Q.2) / (Q'.2 - Q.2), ?_, ?_, rfl, ?_⟩
    · exact div_nonneg (by linarith) hdq.le
    · rw [div_le_one hdq]
      linarith
    · simp only
      field_simp
  · refine ⟨(y - A.2) / (B.2 - A.2), ?_, ?_, ?_, ?_⟩
    · exact div_nonneg (by linarith) hda.le
    · rw [div_le_one hda]
      linarith
    · simp only
      unfold gapAt at hy
      field_simp
      linarith
    · simp only
      field_simp

theorem inter_horizontal (L U C D : Pt) (hlu : L.2 < U.2) (hcd : C.2 = D.2)
    (h1 : L.2 ≤ C.2) (h2 : C.2 ≤ U.2) (hs : sideOf L U C * sideOf L U D ≤ 0) :
    ∃ X, OnSegment X L U ∧ OnSegment X C D := by
  have hs' : (sideOf L U C + (sideOf L U D - sideOf L U C) * 0) *
      (sideOf L U C + (sideOf L U D - sideOf L U C) * 1) ≤ 0 := by
    simpa using hs
  obtain ⟨t, ht0, ht1, ht⟩ := affine_root _ _ 0 1 (by norm_num) hs'
  have hd : 0 < U.2 - L.2 := by linarith
  refine ⟨(C.1 + t * (D.1 - C.1), C.2), ?_, ?_⟩
  · refine ⟨(C.2 - L.2) / (U.2 - L.2), ?_, ?_, ?_, ?_⟩
    · exact div_nonneg (by linarith) hd.le
    · rw [div_le_one hd]
      linarith
    · simp only
      unfold sideOf at ht
      rw [← hcd] at ht
      field_simp
      linarith
    · simp only
      field_simp
  · refine ⟨t, ht0, ht1, rfl, ?_⟩
    simp only
    rw [← hcd]
    ring

theorem gapAt_left (Q Q' A B : Pt) :
    gapAt Q Q' A B Q.2 = -sideOf A B Q * (Q'.2 - Q.2) := by
  unfold gapAt sideOf
  ring

theorem gapAt_right (Q Q' A B : Pt) :
    gapAt Q Q' A B Q'.2 = -sideOf A B Q' * (Q'.2 - Q.2) := by
  unfold gapAt sideOf
  ring

theorem gapAt_low (Q Q' A B : Pt) :
    gapAt Q Q' A B A.2 = sideOf Q Q' A * (B.2 - A.2) := by
  unfold gapAt sideOf
  ring

theorem gapAt_high (Q Q' A B : Pt) :
    gapAt Q Q' A B B.2 = sideOf Q Q' B * (B.2 - A.2) := by
  unfold gapAt sideOf
  ring

/-- For an edge that goes upward, `crossesQ` in terms of `sideOf`. -/
theorem crossesQ_up (P A B : Pt) (hab : A.2 < B.2) :
    crossesQ P A B = decide (A.2 ≤ P.2 ∧ P.2 < B.2 ∧ sideOf A B P < 0) := by
  rw [Bool.eq_iff_iff, crossesQ_iff, decide_eq_true_iff]
  unfold sideOf
  constructor
  · rintro (⟨h1, h2, h3⟩ | ⟨h1, h2, h3⟩)
    · exact ⟨h1, h2, by linarith⟩
    · linarith
  · rintro ⟨h1, h2, h3⟩
    exact Or.inl ⟨h1, h2, by linarith⟩

theorem crossesQ_horizontal (P A B : Pt) (hab : A.2 = B.2) : crossesQ P A B = false := by
  cases h : crossesQ P A B with
  | false => rfl
  | true =>
    rw [crossesQ_iff] at h
    rcases h with ⟨h1, h2, _⟩ | ⟨h1, h2, _⟩ <;> linarith

theorem xor_decide (p q r s : Prop) [Decidable p] [Decidable q] [Decidable r] [Decidable s]
    (h : ¬(p ↔ q) ↔ ¬(r ↔ s)) :
    xor (decide p) (decide q) = xor (decide r) (decide s) := by
  by_cases hp : p <;> by_cases hq : q <;> by_cases hr : r <;> by_cases hs : s <;>
    simp_all

/-- The parity identity for one edge that goes upward and a segment `QQ'` that
goes upward and does not meet the edge. -/
theorem edge_parity_up (Q Q' A B : Pt) (hq : Q.2 < Q'.2) (hab : A.2 < B.2)
    (hclear : ∀ X, OnSegment X Q Q' → ¬ OnSegment X A B) :
    xor (crossesQ Q A B) (crossesQ Q' A B) = xor (inSweep Q Q' A) (inSweep Q Q' B) := by
  have hdq : 0 < Q'.2 - Q.2 := by linarith
  have hda : 0 < B.2 - A.2 := by linarith
  have hsame : ∀ y1 y2, y1 ≤ y2 → A.2 ≤ y1 → y2 ≤ B.2 → Q.2 ≤ y1 → y2 ≤ Q'.2 →
      (0 < gapAt Q Q' A B y1 ↔ 0 < gapAt Q Q' A B y2) := by
    intro y1 y2 h12 hA hB hQ hQ'
    have hpos : 0 < gapAt Q Q' A B y1 * gapAt Q Q' A B y2 := by
      by_contra hc
      push_neg at hc
      obtain ⟨X, hX1, hX2⟩ := inter_of_sign Q Q' A B hq hab y1 y2 h12 hA hB hQ hQ' hc
      exact hclear X hX1 hX2
    rcases pos_and_pos_or_neg_and_neg_of_mul_pos hpos with ⟨h1, h2⟩ | ⟨h1, h2⟩
    · exact ⟨fun _ => h2, fun _ => h1⟩
    · exact ⟨fun h => absurd h (not_lt.2 h1.le), fun h => absurd h (not_lt.2 h2.le)⟩
  have hcQ : crossesQ Q A B = decide (A.2 ≤ Q.2 ∧ Q.2 < B.2 ∧ 0 < gapAt Q Q' A B Q.2) := by
    rw [crossesQ_up Q A B hab, decide_eq_decide, gapAt_left]
    have : sideOf A B Q < 0 ↔ 0 < -sideOf A B Q * (Q'.2 - Q.2) := by
      constructor
      · intro h
        exact mul_pos (by linarith) hdq
      · intro h
        by_contra hc
        push_neg at hc
        have := mul_nonneg hc hdq.le
        linarith
    rw [this]
  have hcQ' : crossesQ Q' A B = decide (A.2 ≤ Q'.2 ∧ Q'.2 < B.2 ∧ 0 < gapAt Q Q' A B Q'.2) := by
    rw [crossesQ_up Q' A B hab, decide_eq_decide, gapAt_right]
    have : sideOf A B Q' < 0 ↔ 0 < -sideOf A B Q' * (Q'.2 - Q.2) := by
      constructor
      · intro h
        exact mul_pos (by linarith) hdq
      · intro h
        by_contra hc
        push_neg at hc
        have := mul_nonneg hc hdq.le
        linarith
    rw [this]
  have hgA : inSweep Q Q' A = decide (Q.2 < A.2 ∧ A.2 ≤ Q'.2 ∧ 0 < gapAt Q Q' A B A.2) := by
    unfold inSweep
    rw [decide_eq_decide, gapAt_low]
    have : 0 < sideOf Q Q' A ↔ 0 < sideOf Q Q' A * (B.2 - A.2) := by
      constructor
      · intro h
        exact mul_pos h hda
      · intro h
        by_contra hc
        push_neg at hc
        have := mul_nonneg (neg_nonneg.2 hc) hda.le
        linarith
    rw [this]
  have hgB : inSweep Q Q' B = decide (Q.2 < B.2 ∧ B.2 ≤ Q'.2 ∧ 0 < gapAt Q Q' A B B.2) := by
    unfold inSweep
    rw [decide_eq_decide, gapAt_high]
    have : 0 < sideOf Q Q' B ↔ 0 < sideOf Q Q' B * (B.2 - A.2) := by
      constructor
      · intro h
        exact mul_pos h hda
      · intro h
        by_contra hc
        push_neg at hc
        have := mul_nonneg (neg_nonneg.2 hc) hda.le
        linarith
    rw [this]
  rw [hcQ, hcQ', hgA, hgB]
  apply xor_decide
  clear hcQ hcQ' hgA hgB hclear
  by_cases h1 : A.2 ≤ Q.2
  · have n1 : ¬ Q.2 < A.2 := not_lt.2 h1
    have k1 : A.2 ≤ Q'.2 := by linarith
    by_cases h2 : B.2 ≤ Q'.2
    · have n2 : ¬ Q'.2 < B.2 := not_lt.2 h2
      by_cases h3 : Q.2 < B.2
      · have := hsame Q.2 B.2 h3.le h1 (le_refl _) (le_refl _) h2
        simp only [h1, n1, h2, n2, h3, this, true_and, false_and, and_false]
        by_cases hg : 0 < gapAt Q Q' A B B.2 <;> simp [hg]
      · simp only [h1, n1, h2, n2, h3, true_and, false_and, and_false]
    · have k2 : Q'.2 < B.2 := not_le.1 h2
      have k3 : Q.2 < B.2 := by linarith
      have := hsame Q.2 Q'.2 hq.le h1 k2.le (le_refl _) (le_refl _)
      simp only [h1, n1, h2, k1, k2, k3, this, true_and, false_and, and_false, iff_self,
        not_true_eq_false]
  · have k1 : Q.2 < A.2 := not_le.1 h1
    have k3 : Q.2 < B.2 := by linarith
    by_cases h2 : B.2 ≤ Q'.2
    · have n2 : ¬ Q'.2 < B.2 := not_lt.2 h2
      have k4 : A.2 ≤ Q'.2 := by linarith
      have := hsame A.2 B.2 hab.le (le_refl _) (le_refl _) k1.le h2
      simp only [h1, k1, h2, n2, k3, k4, this, true_and, false_and, and_false, iff_self,
        not_true_eq_false]
    · have k2 : Q'.2 < B.2 := not_le.1 h2
      by_cases h4 : A.2 ≤ Q'.2
      · have := hsame A.2 Q'.2 h4 (le_refl _) k2.le k1.le (le_refl _)
        simp only [h1, k1, h2, k2, k3, h4, this, true_and, false_and, and_false]
        tauto
      · simp only [h1, k1, h2, k2, k3, h4, true_and, false_and, and_false]

theorem OnSegment_symm (X A B : Pt) (h : OnSegment X A B) : OnSegment X B A := by
  obtain ⟨t, h0, h1, hx, hy⟩ := h
  exact ⟨1 - t, by linarith, by linarith, by rw [hx]; ring, by rw [hy]; ring⟩

theorem sideOf_same_of_clear (Q Q' A B : Pt) (hq : Q.2 < Q'.2) (hab : A.2 = B.2)
    (h1 : Q.2 ≤ A.2) (h2 : A.2 ≤ Q'.2)
    (hclear : ∀ X, OnSegment X Q Q' → ¬ OnSegment X A B) :
    (0 < sideOf Q Q' A ↔ 0 < sideOf Q Q' B) := by
  have hpos : 0 < sideOf Q Q' A * sideOf Q Q' B := by
    by_contra hc
    push_neg at hc
    obtain ⟨X, hX1, hX2⟩ := inter_horizontal Q Q' A B hq hab h1 h2 hc
    exact hclear X hX1 hX2
  rcases pos_and_pos_or_neg_and_neg_of_mul_pos hpos with ⟨h1, h2⟩ | ⟨h1, h2⟩
  · exact ⟨fun _ => h2, fun _ => h1⟩
  · exact ⟨fun h => absurd h (not_lt.2 h1.le), fun h => absurd h (not_lt.2 h2.le)⟩

/-- The parity identity for one edge and a segment `QQ'` that goes upward and
does not meet the edge. -/
theorem edge_parity (Q Q' A B : Pt) (hq : Q.2 < Q'.2)
    (hclear : ∀ X, OnSegment X Q Q' → ¬ OnSegment X A B) :
    xor (crossesQ Q A B) (crossesQ Q' A B) = xor (inSweep Q Q' A) (inSweep Q Q' B) := by
  rcases lt_trichotomy A.2 B.2 with hab | hab | hab
  · exact edge_parity_up Q Q' A B hq hab hclear
  · rw [crossesQ_horizontal Q A B hab, crossesQ_horizontal Q' A B hab]
    have : inSweep Q Q' A = inSweep Q Q' B := by
      unfold inSweep
      rw [decide_eq_decide, ← hab]
      constructor
      · rintro ⟨h1, h2, h3⟩
        exact ⟨h1, h2, (sideOf_same_of_clear Q Q' A B hq hab h1.le h2 hclear).1 h3⟩
      · rintro ⟨h1, h2, h3⟩
        exact ⟨h1, h2, (sideOf_same_of_clear Q Q' A B hq hab h1.le h2 hclear).2 h3⟩
    rw [this]
    simp
  · rw [crossesQ_symm Q A B, crossesQ_symm Q' A B, Bool.xor_comm (inSweep Q Q' A)]
    exact edge_parity_up Q Q' B A hq hab
      (fun X h1 h2 => hclear X h1 (OnSegment_symm X B A h2))

/-- A level segment that does not meet an edge has both ends on the same side
of the edge as far as `crossesQ` is concerned. -/
theorem edge_parity_level (Q Q' A B : Pt) (hq : Q.2 = Q'.2)
    (hclear : ∀ X, OnSegment X Q Q' → ¬ OnSegment X A B) :
    crossesQ Q A B = crossesQ Q' A B := by
  have key : ∀ A B : Pt, A.2 < B.2 → (∀ X, OnSegment X Q Q' → ¬ OnSegment X A B) →
      crossesQ Q A B = crossesQ Q' A B := by
    intro A B hab hclear
    rw [crossesQ_up Q A B hab, crossesQ_up Q' A B hab, decide_eq_decide, ← hq]
    have hside : A.2 ≤ Q.2 → Q.2 < B.2 → (sideOf A B Q < 0 ↔ sideOf A B Q' < 0) := by
      intro h1 h2
      have hpos : 0 < sideOf A B Q * sideOf A B Q' := by
        by_contra hc
        push_neg at hc
        obtain ⟨X, hX1, hX2⟩ := inter_horizontal A B Q Q' hab hq h1 h2.le hc
        exact hclear X hX2 hX1
      rcases pos_and_pos_or_neg_and_neg_of_mul_pos hpos with ⟨h1, h2⟩ | ⟨h1, h2⟩
      · exact ⟨fun h => absurd h (not_lt.2 h1.le), fun h => absurd h (not_lt.2 h2.le)⟩
      · exact ⟨fun _ => h2, fun _ => h1⟩
    constructor
    · rintro ⟨h1, h2, h3⟩
      exact ⟨h1, h2, (hside h1 h2).1 h3⟩
    · rintro ⟨h1, h2, h3⟩
      exact ⟨h1, h2, (hside h1 h2).2 h3⟩
  rcases lt_trichotomy A.2 B.2 with hab | hab | hab
  · exact key A B hab hclear
  · rw [crossesQ_horizontal Q A B hab, crossesQ_horizontal Q' A B hab]
  · rw [crossesQ_symm Q A B, crossesQ_symm Q' A B]
    exact key B A hab (fun X h1 h2 => hclear X h1 (OnSegment_symm X B A h2))

/-! ### Rings -/

theorem xorAll_map_xor {α : Type} (f h : α → Bool) (l : List α) :
    xorAll (l.map (fun e => xor (f e) (h e))) = xor (xorAll (l.map f)) (xorAll (l.map h)) := by
  induction l with
  | nil => rfl
  | cons a l ih =>
    simp only [List.map_cons, xorAll, ih]
    cases f a <;> cases h a <;> cases xorAll (l.map f) <;> cases xorAll (l.map h) <;> rfl

theorem xorAll_telescope {α : Type} (g : α → Bool) (vs : List α) (prev : α) :
    xorAll ((vs.zip (prev :: vs)).map (fun e => xor (g e.1) (g e.2))) =
      xor (g prev) (g (vs.getLastD prev)) := by
  induction vs generalizing prev with
  | nil => simp [xorAll]
  | cons v rest ih =>
    have hz : (v :: rest).zip (prev :: v :: rest) = (v, prev) :: rest.zip (v :: rest) := rfl
    rw [hz, List.map_cons, xorAll, ih v, List.getLastD_cons]
    cases g v <;> cases g prev <;> cases g (rest.getLastD v) <;> rfl

theorem xorAll_ring {α : Type} (g : α → Bool) (vs : List α) :
    xorAll ((ringEdges vs).map (fun e => xor (g e.1) (g e.2))) = false := by
  unfold ringEdges
  cases h : vs.getLast? with
  | none => rfl
  | some last =>
    simp only
    rw [xorAll_telescope]
    have : vs.getLastD last = last := by
      rw [List.getLastD_eq_getLast?, h]
      rfl
    rw [this]
    simp

theorem insideQ_of_clear_up (vs : List Pt) (Q Q' : Pt) (hq : Q.2 ≤ Q'.2)
    (h : SegmentClear vs Q Q') : insideQ Q vs = insideQ Q' vs := by
  have hedge : ∀ e ∈ ringEdges vs, ∀ X, OnSegment X Q Q' → ¬ OnSegment X e.1 e.2 :=
    fun e he X hX hXe => h X hX ⟨e, he, hXe⟩
  unfold insideQ
  rcases lt_or_eq_of_le hq with hlt | heq
  · have h1 : xorAll ((ringEdges vs).map
        (fun e => xor (crossesQ Q e.1 e.2) (crossesQ Q' e.1 e.2))) = false := by
      have : (ringEdges vs).map (fun e => xor (crossesQ Q e.1 e.2) (crossesQ Q' e.1 e.2)) =
          (ringEdges vs).map (fun e => xor (inSweep Q Q' e.1) (inSweep Q Q' e.2)) :=
        List.map_congr_left (fun e he => edge_parity Q Q' e.1 e.2 hlt (hedge e he))
      rw [this]
      exact xorAll_ring (inSweep Q Q') vs
    rw [xorAll_map_xor] at h1
    revert h1
    cases xorAll ((ringEdges vs).map (fun e => crossesQ Q e.1 e.2)) <;>
      cases xorAll ((ringEdges vs).map (fun e => crossesQ Q' e.1 e.2)) <;> simp
  · congr 1
    exact List.map_congr_left (fun e he => edge_parity_level Q Q' e.1 e.2 heq (hedge e he))

theorem insideQ_of_clear (vs : List Pt) (Q Q' : Pt) (h : SegmentClear vs Q Q') :
    insideQ Q vs = insideQ Q' vs := by
  rcases le_total Q.2 Q'.2 with hq | hq
  · exact insideQ_of_clear_up vs Q Q' hq h
  · exact (insideQ_of_clear_up vs Q' Q hq
      (fun X hX => h X (OnSegment_symm X Q' Q hX))).symm

/-! ### Points beyond the ring and points outside it -/

theorem mem_of_mem_ringEdges {α : Type} (vs : List α) (e : α × α) (h : e ∈ ringEdges vs) :
    e.1 ∈ vs ∧ e.2 ∈ vs := by
  unfold ringEdges at h
  cases hl : vs.getLast? with
  | none => simp [hl] at h
  | some last =>
    simp only [hl] at h
    have hlast : last ∈ vs := List.mem_of_getLast?_eq_some hl
    have h' := List.of_mem_zip h
    refine ⟨h'.1, ?_⟩
    rcases List.mem_cons.1 h'.2 with h2 | h2
    · rw [h2]
      exact hlast
    · exact h2

theorem xorAll_false {α : Type} (c : α → Bool) (l : List α) (h : ∀ e ∈ l, c e = false) :
    xorAll (l.map c) = false := by
  induction l with
  | nil => rfl
  | cons a l ih =>
    simp only [List.map_cons, xorAll, h a (List.mem_cons_self a l),
      ih (fun e he => h e (List.mem_cons_of_mem a he))]
    rfl

theorem crossesQ_lt_max (P A B : Pt) (h : crossesQ P A B = true) : P.1 < A.1 ∨ P.1 < B.1 := by
  rw [crossesQ_iff] at h
  by_contra hc
  push_neg at hc
  obtain ⟨hA, hB⟩ := hc
  rcases h with ⟨h1, h2, h3⟩ | ⟨h1, h2, h3⟩
  · nlinarith [mul_nonneg (sub_nonneg.2 hA) (sub_nonneg.2 h2.le),
      mul_nonneg (sub_nonneg.2 hB) (sub_nonneg.2 h1)]
  · nlinarith [mul_nonneg (sub_nonneg.2 hA) (sub_nonneg.2 h1),
      mul_nonneg (sub_nonneg.2 hB) (sub_nonneg.2 h2.le)]

theorem insideQ_of_beyond (vs : List Pt) (F : Pt) (h : Beyond vs F) : insideQ F vs = false := by
  unfold insideQ
  apply xorAll_false
  intro e he
  obtain ⟨h1, h2⟩ := mem_of_mem_ringEdges vs e he
  cases hc : crossesQ F e.1 e.2 with
  | false => rfl
  | true =>
    rcases crossesQ_lt_max F e.1 e.2 hc with h' | h'
    · exact absurd (h e.1 h1) (not_lt.2 h'.le)
    · exact absurd (h e.2 h2) (not_lt.2 h'.le)

theorem insideQ_of_outside (vs : List Pt) (P : Pt) (h : Outside vs P) : insideQ P vs = false := by
  obtain ⟨path, hchain, hfar⟩ := h
  induction path generalizing P with
  | nil => exact insideQ_of_beyond vs P hfar
  | cons Q rest ih =>
    rw [List.chain_cons] at hchain
    rw [insideQ_of_clear vs P Q hchain.1]
    rw [List.getLastD_cons] at hfar
    exact ih Q hchain.2 hfar

/-! ### Convex rings -/

theorem sideOf_swap (L U V : Pt) : sideOf U L V = -sideOf L U V := by
  unfold sideOf
  ring

theorem sideOf_left (L U : Pt) : sideOf L U L = 0 := by
  unfold sideOf
  ring

theorem sideOf_right (L U : Pt) : sideOf L U U = 0 := by
  unfold sideOf
  ring

/-- The test `crossesQ` in terms of the edge taken upward: the height of the point is
between the ends and the point is on the side of smaller `x`. -/
theorem crossesQ_side (P A B : Pt) :
    crossesQ P A B = true ↔
      (A.2 ≤ P.2 ∧ P.2 < B.2 ∧ sideOf A B P < 0) ∨
      (B.2 ≤ P.2 ∧ P.2 < A.2 ∧ sideOf B A P < 0) := by
  rcases lt_trichotomy A.2 B.2 with hab | hab | hab
  · rw [crossesQ_up P A B hab, decide_eq_true_iff]
    constructor
    · exact Or.inl
    · rintro (h | ⟨h1, h2, _⟩)
      · exact h
      · linarith
  · rw [crossesQ_horizontal P A B hab]
    constructor
    · intro h
      exact absurd h (by decide)
    · rintro (⟨h1, h2, _⟩ | ⟨h1, h2, _⟩) <;> linarith
  · rw [crossesQ_symm, crossesQ_up P B A hab, decide_eq_true_iff]
    constructor
    · exact Or.inr
    · rintro (⟨h1, h2, _⟩ | h)
      · linarith
      · exact h

theorem xorAll_unique {α : Type} (c : α → Bool) (E : List α) (hnd : E.Nodup)
    (huniq : ∀ e ∈ E, ∀ e' ∈ E, c e = true → c e' = true → e = e')
    (hex : ∃ e ∈ E, c e = true) : xorAll (E.map c) = true := by
  induction E with
  | nil =>
    obtain ⟨e, he, _⟩ := hex
    simp at he
  | cons a l ih =>
    rw [List.nodup_cons] at hnd
    cases ha : c a with
    | true =>
      have hall : ∀ e ∈ l, c e = false := by
        intro e he
        cases hce : c e with
        | false => rfl
        | true =>
          have := huniq a (List.mem_cons_self a l) e (List.mem_cons_of_mem a he) ha hce
          rw [this] at hnd
          exact absurd he hnd.1
      simp only [List.map_cons, xorAll, ha, xorAll_false c l hall]
      rfl
    | false =>
      have hex' : ∃ e ∈ l, c e = true := by
        obtain ⟨e, he, hce⟩ := hex
        rcases List.mem_cons.1 he with h | h
        · rw [h, ha] at hce
          exact absurd hce (by decide)
        · exact ⟨e, h, hce⟩
      have := ih hnd.2
        (fun e he e' he' => huniq e (List.mem_cons_of_mem a he) e' (List.mem_cons_of_mem a he'))
        hex'
      simp only [List.map_cons, xorAll, ha, this]
      rfl

/-- In a list read after a start element where `p` fails, an element where `p`
holds is preceded somewhere by a step from failing to holding. -/
theorem exists_step {α : Type} (p : α → Prop) (l : List α) (prev : α) (hprev : ¬ p prev)
    (hex : ∃ v ∈ l, p v) : ∃ e ∈ l.zip (prev :: l), ¬ p e.2 ∧ p e.1 := by
  induction l generalizing prev with
  | nil =>
    obtain ⟨v, hv, _⟩ := hex
    simp at hv
  | cons a l ih =>
    have hz : (a :: l).zip (prev :: a :: l) = (a, prev) :: l.zip (a :: l) := rfl
    rw [hz]
    by_cases ha : p a
    · exact ⟨(a, prev), List.mem_cons_self _ _, hprev, ha⟩
    · have hex' : ∃ v ∈ l, p v := by
        obtain ⟨v, hv, hpv⟩ := hex
        rcases List.mem_cons.1 hv with h | h
        · rw [h] at hpv
          exact absurd hpv ha
        · exact ⟨v, h, hpv⟩
      obtain ⟨e, he, h⟩ := ih a ha hex'
      exact ⟨e, List.mem_cons_of_mem _ he, h⟩

/-- Around a ring that has a vertex where `p` holds and one where it fails,
some vertex where `p` holds follows one where it fails. -/
theorem exists_ring_step {α : Type} (p : α → Prop) (vs : List α) (hyes : ∃ v ∈ vs, p v)
    (hno : ∃ v ∈ vs, ¬ p v) : ∃ e ∈ ringEdges vs, ¬ p e.2 ∧ p e.1 := by
  unfold ringEdges
  cases hl : vs.getLast? with
  | none =>
    obtain ⟨v, hv, _⟩ := hyes
    rw [List.getLast?_eq_none_iff] at hl
    rw [hl] at hv
    simp at hv
  | some last =>
    simp only
    by_cases hlast : p last
    · obtain ⟨v, hv, hpv⟩ := hno
      obtain ⟨pre, post, rfl⟩ := List.append_of_mem hv
      have hpost : post ≠ [] := by
        rintro rfl
        rw [List.getLast?_append_of_ne_nil _ (by simp)] at hl
        simp only [List.getLast?_singleton, Option.some.injEq] at hl
        rw [hl] at hpv
        exact hpv hlast
      have hlast_post : last ∈ post := by
        have : (v :: post).getLast? = some last := by
          rw [List.getLast?_append_of_ne_nil _ (by simp)] at hl
          exact hl
        cases post with
        | nil => exact absurd rfl hpost
        | cons b t =>
          rw [List.getLast?_cons_cons] at this
          exact List.mem_of_getLast?_eq_some this
      obtain ⟨e, he, h⟩ := exists_step p post v hpv ⟨last, hlast_post, hlast⟩
      refine ⟨e, ?_, h⟩
      have hsplit : (pre ++ v :: post).zip (last :: (pre ++ v :: post)) =
          (pre ++ [v]).zip (last :: pre) ++ post.zip (v :: post) := by
        have e1 : pre ++ v :: post = (pre ++ [v]) ++ post := by simp
        have e2 : last :: (pre ++ v :: post) = (last :: pre) ++ (v :: post) := by simp
        rw [e2]
        conv_lhs => rw [e1]
        exact List.zip_append (by simp)
      rw [hsplit]
      exact List.mem_append_right _ he
    · exact exists_step p vs last hlast hyes

theorem sideOf_master (a b p q w : Pt) :
    (b.2 - a.2) * sideOf p q w =
      (q.2 - p.2) * sideOf a b w + (w.2 - q.2) * sideOf a b p + (p.2 - w.2) * sideOf a b q := by
  unfold sideOf
  ring

theorem sideOf_between (a b c c' : Pt) :
    (b.2 - c.2) * sideOf c' c a + (c.2 - a.2) * sideOf c' c b =
      -(c.2 - c'.2) * sideOf a b c := by
  unfold sideOf
  ring

theorem sideOf_same (c w : Pt) : sideOf c c w = 0 := by
  unfold sideOf
  ring

theorem eq_of_collinear_of_height (a b p q : Pt) (hab : a.2 < b.2) (hp : sideOf a b p = 0)
    (hq : sideOf a b q = 0) (h : p.2 = q.2) : p = q := by
  have hd : (p.1 - q.1) * (b.2 - a.2) = 0 := by
    have e : sideOf a b p - sideOf a b q =
        (p.1 - q.1) * (b.2 - a.2) - (b.1 - a.1) * (p.2 - q.2) := by
      unfold sideOf
      ring
    rw [hp, hq, h] at e
    linarith
  have : p.1 - q.1 = 0 := by
    rcases mul_eq_zero.1 hd with h1 | h1
    · exact h1
    · linarith
  exact Prod.ext (by linarith) h

theorem EdgeSystem.descend {vs : List Pt} {E : Pt → Pt → Prop} (hE : EdgeSystem vs E)
    (a b c : Pt) (hab : E a b) (hup : a.2 < b.2) (hc : c ∈ vs) (hcol : sideOf a b c = 0)
    (hac : a.2 < c.2) (hcb : c.2 < b.2) :
    ∃ a₂ b₂ c₂, E a₂ b₂ ∧ a₂.2 < b₂.2 ∧ c₂ ∈ vs ∧ sideOf a₂ b₂ c₂ = 0 ∧ a₂.2 < c₂.2 ∧
      c₂.2 < b₂.2 ∧ c₂.2 < c.2 := by
  obtain ⟨c', hcc⟩ := hE.pred c hc
  have hc'mem : c' ∈ vs := hE.mem_left _ _ hcc
  have hamem : a ∈ vs := hE.mem_left _ _ hab
  have hbmem : b ∈ vs := hE.mem_right _ _ hab
  have hne_a : c' ≠ a := by
    rintro rfl
    have := hE.functional _ _ _ hcc hab
    rw [this] at hcb
    exact lt_irrefl _ hcb
  have hne_c : c' ≠ c := by
    rintro rfl
    obtain ⟨w, _, hw⟩ := hE.off _ _ hcc
    exact hw (sideOf_same _ _)
  have hsa := hE.side _ _ hcc a hamem
  have hsb := hE.side _ _ hcc b hbmem
  have hza : sideOf c' c a = 0 := by
    have e := sideOf_between a b c c'
    rw [hcol, mul_zero] at e
    have t1 := mul_nonpos_of_nonneg_of_nonpos (sub_nonneg.2 hcb.le) hsa
    have t2 := mul_nonpos_of_nonneg_of_nonpos (sub_nonneg.2 hac.le) hsb
    have t3 : (b.2 - c.2) * sideOf c' c a = 0 := by linarith
    rcases mul_eq_zero.1 t3 with h | h
    · linarith
    · exact h
  have hc'col : sideOf a b c' = 0 := by
    have e := sideOf_master a b c' c a
    rw [hza, mul_zero, sideOf_left, mul_zero, hcol, mul_zero] at e
    have t : (a.2 - c.2) * sideOf a b c' = 0 := by linarith
    rcases mul_eq_zero.1 t with h | h
    · linarith
    · exact h
  have hh_c : c'.2 ≠ c.2 := fun h => hne_c (eq_of_collinear_of_height a b c' c hup hc'col hcol h)
  have hh_a : c'.2 ≠ a.2 :=
    fun h => hne_a (eq_of_collinear_of_height a b c' a hup hc'col (sideOf_left a b) h)
  have hlt : c'.2 < c.2 := by
    rcases lt_or_gt_of_ne hh_c with h | h
    · exact h
    · exfalso
      obtain ⟨w, hwmem, hw⟩ := hE.off _ _ hab
      have hwneg : sideOf a b w < 0 := lt_of_le_of_ne (hE.side _ _ hab w hwmem) hw
      have hside := hE.side _ _ hcc w hwmem
      have e := sideOf_master a b c' c w
      rw [hc'col, hcol, mul_zero, mul_zero] at e
      have t1 : 0 < (c.2 - c'.2) * sideOf a b w :=
        mul_pos_of_neg_of_neg (by linarith) hwneg
      have t2 := mul_nonpos_of_nonneg_of_nonpos (sub_nonneg.2 hup.le) hside
      linarith
  rcases lt_or_gt_of_ne hh_a with h | h
  · exact ⟨c', c, a, hcc, hlt, hamem, hza, h, hac, hac⟩
  · exact ⟨a, b, c', hab, hup, hc'mem, hc'col, h, hlt.trans hcb, hlt⟩

theorem EdgeSystem.no_vertex_inside {vs : List Pt} {E : Pt → Pt → Prop}
    (hE : EdgeSystem vs E) (n : Nat) :
    ∀ a b c : Pt, E a b → a.2 < b.2 → c ∈ vs → sideOf a b c = 0 → a.2 < c.2 → c.2 < b.2 →
      (vs.toFinset.filter (fun v => v.2 < c.2)).card ≤ n → False := by
  induction n with
  | zero =>
    intro a b c hab _ _ _ hac _ hn
    have hamem : a ∈ vs.toFinset.filter (fun v => v.2 < c.2) := by
      simp [hE.mem_left _ _ hab, hac]
    have := Finset.card_pos.2 ⟨a, hamem⟩
    omega
  | succ n ih =>
    intro a b c hab hup hc hcol hac hcb hn
    obtain ⟨a₂, b₂, c₂, h1, h2, h3, h4, h5, h6, h7⟩ := hE.descend a b c hab hup hc hcol hac hcb
    refine ih a₂ b₂ c₂ h1 h2 h3 h4 h5 h6 ?_
    have hss : vs.toFinset.filter (fun v => v.2 < c₂.2) ⊂
        vs.toFinset.filter (fun v => v.2 < c.2) := by
      rw [Finset.ssubset_iff_of_subset]
      · refine ⟨c₂, ?_, ?_⟩
        · simp [h3, h7]
        · simp
      · intro v hv
        simp only [Finset.mem_filter, List.mem_toFinset] at hv ⊢
        exact ⟨hv.1, hv.2.trans h7⟩
    have := Finset.card_lt_card hss
    omega

/-- Two upward edges of a convex ring that contain the same height (lower end
included, upper end excluded) start at the same vertex. -/
theorem EdgeSystem.crossing_unique {vs : List Pt} {E : Pt → Pt → Prop} (hE : EdgeSystem vs E)
    (a b c d : Pt) (y : ℚ) (hab : E a b) (hcd : E c d) (ha : a.2 ≤ y) (hb : y < b.2)
    (hc : c.2 ≤ y) (hd : y < d.2) : a = c := by
  have hamem := hE.mem_left _ _ hab
  have hbmem := hE.mem_right _ _ hab
  have hcmem := hE.mem_left _ _ hcd
  have hdmem := hE.mem_right _ _ hcd
  have h1 := hE.side _ _ hcd a hamem
  have h2 := hE.side _ _ hcd b hbmem
  have h3 := hE.side _ _ hab c hcmem
  have h4 := hE.side _ _ hab d hdmem
  have hsum : ((b.2 - y) * sideOf c d a + (y - a.2) * sideOf c d b) +
      ((d.2 - y) * sideOf a b c + (y - c.2) * sideOf a b d) = 0 := by
    unfold sideOf
    ring
  have t1 := mul_nonpos_of_nonneg_of_nonpos (sub_nonneg.2 hb.le) h1
  have t2 := mul_nonpos_of_nonneg_of_nonpos (sub_nonneg.2 ha) h2
  have t3 := mul_nonpos_of_nonneg_of_nonpos (sub_nonneg.2 hd.le) h3
  have t4 := mul_nonpos_of_nonneg_of_nonpos (sub_nonneg.2 hc) h4
  have hza : sideOf c d a = 0 := by
    have t : (b.2 - y) * sideOf c d a = 0 := by linarith
    rcases mul_eq_zero.1 t with h | h
    · linarith
    · exact h
  have hzc : sideOf a b c = 0 := by
    have t : (d.2 - y) * sideOf a b c = 0 := by linarith
    rcases mul_eq_zero.1 t with h | h
    · linarith
    · exact h
  rcases lt_trichotomy a.2 c.2 with h | h | h
  · exact (hE.no_vertex_inside _ a b c hab (by linarith) hcmem hzc h (by linarith) le_rfl).elim
  · exact eq_of_collinear_of_height a b a c (by linarith) (sideOf_left a b) hzc h
  · exact (hE.no_vertex_inside _ c d a hcd (by linarith) hamem hza h (by linarith) le_rfl).elim

/-! ### The edges of a ring as a list -/

theorem map_snd_zip_cons {α : Type} (l : List α) (x : α) :
    (l.zip (x :: l)).map Prod.snd = (x :: l).dropLast := by
  induction l generalizing x with
  | nil => rfl
  | cons a t ih =>
    have hz : (a :: t).zip (x :: a :: t) = (a, x) :: t.zip (a :: t) := rfl
    rw [hz, List.map_cons, ih a]
    rfl

theorem ringEdges_fst {α : Type} (vs : List α) : (ringEdges vs).map Prod.fst = vs := by
  unfold ringEdges
  cases hl : vs.getLast? with
  | none =>
    rw [List.getLast?_eq_none_iff] at hl
    simp [hl]
  | some last =>
    simp only
    exact List.map_fst_zip _ _ (by simp)

theorem ringEdges_snd_perm {α : Type} (vs : List α) :
    ((ringEdges vs).map Prod.snd).Perm vs := by
  unfold ringEdges
  cases hl : vs.getLast? with
  | none =>
    rw [List.getLast?_eq_none_iff] at hl
    simp [hl]
  | some last =>
    simp only
    rw [map_snd_zip_cons]
    have hne : vs ≠ [] := by
      rintro rfl
      simp at hl
    rw [List.dropLast_cons_of_ne_nil hne]
    have h : vs.dropLast ++ [last] = vs := List.dropLast_append_getLast? last (by simp [hl])
    have hp : (last :: vs.dropLast).Perm (vs.dropLast ++ [last]) :=
      (List.perm_append_singleton last vs.dropLast).symm
    rw [h] at hp
    exact hp

theorem ringEdges_nodup {α : Type} (vs : List α) (h : vs.Nodup) : (ringEdges vs).Nodup := by
  apply List.Nodup.of_map Prod.fst
  rw [ringEdges_fst]
  exact h

theorem ringEdges_fst_inj {α : Type} (vs : List α) (h : vs.Nodup) (a b b' : α)
    (h1 : (a, b) ∈ ringEdges vs) (h2 : (a, b') ∈ ringEdges vs) : b = b' := by
  have hnd : ((ringEdges vs).map Prod.fst).Nodup := by
    rw [ringEdges_fst]
    exact h
  have := List.inj_on_of_nodup_map hnd h1 h2 rfl
  exact (Prod.mk.inj this).2

theorem ringEdges_snd_inj {α : Type} (vs : List α) (h : vs.Nodup) (a a' b : α)
    (h1 : (a, b) ∈ ringEdges vs) (h2 : (a', b) ∈ ringEdges vs) : a = a' := by
  have hnd : ((ringEdges vs).map Prod.snd).Nodup :=
    (ringEdges_snd_perm vs).nodup_iff.2 h
  have := List.inj_on_of_nodup_map hnd h1 h2 rfl
  exact (Prod.mk.inj this).1

theorem exists_edge_of_fst {α : Type} (vs : List α) (v : α) (h : v ∈ vs) :
    ∃ u, (v, u) ∈ ringEdges vs := by
  rw [← ringEdges_fst vs, List.mem_map] at h
  obtain ⟨e, he, rfl⟩ := h
  exact ⟨e.2, he⟩

theorem exists_edge_of_snd {α : Type} (vs : List α) (v : α) (h : v ∈ vs) :
    ∃ u, (u, v) ∈ ringEdges vs := by
  rw [← (ringEdges_snd_perm vs).mem_iff, List.mem_map] at h
  obtain ⟨e, he, rfl⟩ := h
  exact ⟨e.1, he⟩

/-! ### Convex rings and their centroid -/

theorem sum_pos_of_nonneg (l : List ℚ) (h : ∀ x ∈ l, 0 ≤ x) (hex : ∃ x ∈ l, x ≠ 0) :
    0 < l.sum := by
  induction l with
  | nil =>
    obtain ⟨x, hx, _⟩ := hex
    simp at hx
  | cons a t ih =>
    rw [List.sum_cons]
    have ha := h a (List.mem_cons_self a t)
    have ht : 0 ≤ t.sum := List.sum_nonneg (fun x hx => h x (List.mem_cons_of_mem a hx))
    by_cases ha0 : a = 0
    · have : 0 < t.sum := by
        apply ih (fun x hx => h x (List.mem_cons_of_mem a hx))
        obtain ⟨x, hx, hx0⟩ := hex
        rcases List.mem_cons.1 hx with h1 | h1
        · rw [h1] at hx0
          exact absurd ha0 hx0
        · exact ⟨x, h1, hx0⟩
      linarith
    · have : 0 < a := lt_of_le_of_ne ha (Ne.symm ha0)
      linarith

theorem sum_sideOf (L U : Pt) (vs : List Pt) :
    (vs.map (sideOf L U)).sum =
      (U.2 - L.2) * (vs.map Prod.fst).sum - (U.1 - L.1) * (vs.map Prod.snd).sum +
        vs.length * ((U.1 - L.1) * L.2 - L.1 * (U.2 - L.2)) := by
  induction vs with
  | nil => simp
  | cons a t ih =>
    simp only [List.map_cons, List.sum_cons, List.length_cons, Nat.cast_add, Nat.cast_one, ih]
    unfold sideOf
    ring

theorem sum_sideOf_centroid (L U : Pt) (vs : List Pt) (hne : vs ≠ []) :
    (vs.map (sideOf L U)).sum = vs.length * sideOf L U (centroid vs) := by
  have hn : (vs.length : ℚ) ≠ 0 := by
    have : 0 < vs.length := List.length_pos.2 hne
    exact_mod_cast this.ne'
  rw [sum_sideOf]
  unfold centroid sideOf
  field_simp
  ring

theorem sum_height (c : ℚ) (vs : List Pt) :
    (vs.map (fun v => v.2 - c)).sum = (vs.map Prod.snd).sum - vs.length * c := by
  induction vs with
  | nil => simp
  | cons a t ih =>
    simp only [List.map_cons, List.sum_cons, List.length_cons, Nat.cast_add, Nat.cast_one, ih]
    ring

theorem sum_height_centroid (vs : List Pt) (hne : vs ≠ []) :
    (vs.map (fun v => v.2 - (centroid vs).2)).sum = 0 := by
  have hn : (vs.length : ℚ) ≠ 0 := by
    have : 0 < vs.length := List.length_pos.2 hne
    exact_mod_cast this.ne'
  rw [sum_height]
  unfold centroid
  field_simp

theorem sum_map_neg_eq (l : List ℚ) : (l.map (fun x => -x)).sum = -l.sum := by
  induction l with
  | nil => simp
  | cons a t ih =>
    simp only [List.map_cons, List.sum_cons, ih]
    ring

theorem sum_neg_of_nonpos (l : List ℚ) (h : ∀ x ∈ l, x ≤ 0) (hex : ∃ x ∈ l, x ≠ 0) :
    l.sum < 0 := by
  have h1 : 0 < (l.map (fun x => -x)).sum := by
    apply sum_pos_of_nonneg
    · intro x hx
      obtain ⟨z, hz, rfl⟩ := List.mem_map.1 hx
      have := h z hz
      linarith
    · obtain ⟨x, hx, hx0⟩ := hex
      exact ⟨-x, List.mem_map.2 ⟨x, hx, rfl⟩, neg_ne_zero.2 hx0⟩
  rw [sum_map_neg_eq] at h1
  linarith

theorem edgeSystem_neg (vs : List Pt) (hnd : vs.Nodup)
    (hside : ∀ e ∈ ringEdges vs, ∀ v ∈ vs, sideOf e.2 e.1 v ≤ 0)
    (hoff : ∀ e ∈ ringEdges vs, ∃ v ∈ vs, sideOf e.2 e.1 v ≠ 0) :
    EdgeSystem vs (fun u v => (v, u) ∈ ringEdges vs) where
  mem_left := fun _ _ h => (mem_of_mem_ringEdges vs _ h).2
  mem_right := fun _ _ h => (mem_of_mem_ringEdges vs _ h).1
  pred := fun v hv => exists_edge_of_fst vs v hv
  functional := fun u v v' h h' => ringEdges_snd_inj vs hnd v v' u h h'
  side := fun u v h w hw => hside (v, u) h w hw
  off := fun u v h => hoff (v, u) h

theorem edgeSystem_pos (vs : List Pt) (hnd : vs.Nodup)
    (hside : ∀ e ∈ ringEdges vs, ∀ v ∈ vs, 0 ≤ sideOf e.2 e.1 v)
    (hoff : ∀ e ∈ ringEdges vs, ∃ v ∈ vs, sideOf e.2 e.1 v ≠ 0) :
    EdgeSystem vs (fun u v => (u, v) ∈ ringEdges vs) where
  mem_left := fun _ _ h => (mem_of_mem_ringEdges vs _ h).1
  mem_right := fun _ _ h => (mem_of_mem_ringEdges vs _ h).2
  pred := fun v hv => exists_edge_of_snd vs v hv
  functional := fun u v v' h h' => ringEdges_fst_inj vs hnd u v v' h h'
  side := fun u v h w hw => by
    have := hside (u, v) h w hw
    rw [sideOf_swap]
    simpa using this
  off := fun u v h => by
    obtain ⟨w, hw, hne⟩ := hoff (u, v) h
    refine ⟨w, hw, ?_⟩
    rw [sideOf_swap]
    exact neg_ne_zero.2 hne

/-- The ray test is true at a point that is strictly on the inner side of the
line of every edge of a convex ring and has a vertex above it and a vertex at
its height or below. -/
theorem insideQ_of_inner (vs : List Pt) (h : ConvexRing vs) (G : Pt)
    (hin : ∀ e ∈ ringEdges vs, ∃ v ∈ vs, 0 < sideOf e.2 e.1 v * sideOf e.2 e.1 G)
    (habove : ∃ v ∈ vs, G.2 < v.2) (hbelow : ∃ v ∈ vs, v.2 ≤ G.2) : insideQ G vs = true := by
  obtain ⟨_, hnd, hor, hoff⟩ := h
  unfold insideQ
  apply xorAll_unique (fun e : Pt × Pt => crossesQ G e.1 e.2) (ringEdges vs)
    (ringEdges_nodup vs hnd)
  · rcases hor with hpos | hneg
    · have hE := edgeSystem_pos vs hnd hpos hoff
      have hcross : ∀ e ∈ ringEdges vs, crossesQ G e.1 e.2 = true →
          e.1.2 ≤ G.2 ∧ G.2 < e.2.2 := by
        intro e he hc
        obtain ⟨v, hv, hprod⟩ := hin e he
        have hv0 := hpos e he v hv
        have hG : 0 < sideOf e.2 e.1 G := by
          by_contra hcon
          have := mul_nonpos_of_nonneg_of_nonpos hv0 (not_lt.1 hcon)
          linarith
        rcases (crossesQ_side G e.1 e.2).1 hc with ⟨h1, h2, _⟩ | ⟨_, _, h3⟩
        · exact ⟨h1, h2⟩
        · linarith
      intro e he e' he' hc hc'
      obtain ⟨h1, h2⟩ := hcross e he hc
      obtain ⟨h1', h2'⟩ := hcross e' he' hc'
      have e1 : e.1 = e'.1 := hE.crossing_unique e.1 e.2 e'.1 e'.2 G.2 he he' h1 h2 h1' h2'
      have he2 : (e.1, e'.2) ∈ ringEdges vs := by
        rw [e1]
        exact he'
      exact Prod.ext e1 (ringEdges_fst_inj vs hnd e.1 e.2 e'.2 he he2)
    · have hE := edgeSystem_neg vs hnd hneg hoff
      have hcross : ∀ e ∈ ringEdges vs, crossesQ G e.1 e.2 = true →
          e.2.2 ≤ G.2 ∧ G.2 < e.1.2 := by
        intro e he hc
        obtain ⟨v, hv, hprod⟩ := hin e he
        have hv0 := hneg e he v hv
        have hG : sideOf e.2 e.1 G < 0 := by
          by_contra hcon
          have := mul_nonpos_of_nonpos_of_nonneg hv0 (not_lt.1 hcon)
          linarith
        rcases (crossesQ_side G e.1 e.2).1 hc with ⟨_, _, h3⟩ | ⟨h1, h2, _⟩
        · rw [sideOf_swap] at h3
          linarith
        · exact ⟨h1, h2⟩
      intro e he e' he' hc hc'
      obtain ⟨h1, h2⟩ := hcross e he hc
      obtain ⟨h1', h2'⟩ := hcross e' he' hc'
      have e2 : e.2 = e'.2 := hE.crossing_unique e.2 e.1 e'.2 e'.1 G.2 he he' h1 h2 h1' h2'
      have he2 : (e'.1, e.2) ∈ ringEdges vs := by
        rw [e2]
        exact he'
      exact Prod.ext (ringEdges_snd_inj vs hnd e.1 e'.1 e.2 he he2) e2
  · rcases hor with hpos | hneg
    · obtain ⟨e, he, hn, hy⟩ := exists_ring_step (fun v : Pt => v.2 ≤ G.2) vs hbelow
        (by
          obtain ⟨v, hv, hgt⟩ := habove
          exact ⟨v, hv, not_le.2 hgt⟩)
      refine ⟨e, he, ?_⟩
      obtain ⟨v, hv, hprod⟩ := hin e he
      have hv0 := hpos e he v hv
      have hG : 0 < sideOf e.2 e.1 G := by
        by_contra hcon
        have := mul_nonpos_of_nonneg_of_nonpos hv0 (not_lt.1 hcon)
        linarith
      refine (crossesQ_side G e.1 e.2).2 (Or.inl ⟨hy, not_le.1 hn, ?_⟩)
      rw [sideOf_swap]
      linarith
    · obtain ⟨e, he, hn, hy⟩ := exists_ring_step (fun v : Pt => G.2 < v.2) vs habove
        (by
          obtain ⟨v, hv, hle⟩ := hbelow
          exact ⟨v, hv, not_lt.2 hle⟩)
      refine ⟨e, he, ?_⟩
      obtain ⟨v, hv, hprod⟩ := hin e he
      have hv0 := hneg e he v hv
      have hG : sideOf e.2 e.1 G < 0 := by
        by_contra hcon
        have := mul_nonpos_of_nonpos_of_nonneg hv0 (not_lt.1 hcon)
        linarith
      exact (crossesQ_side G e.1 e.2).2 (Or.inr ⟨not_lt.1 hn, hy, hG⟩)

theorem insideQ_centroid (vs : List Pt) (h : ConvexRing vs) :
    insideQ (centroid vs) vs = true := by
  have h' := h
  obtain ⟨hne, hnd, hor, hoff⟩ := h'
  have hn : (0 : ℚ) < vs.length := by
    have : 0 < vs.length := List.length_pos.2 hne
    exact_mod_cast this
  apply insideQ_of_inner vs h
  · intro e he
    obtain ⟨w, hw, hw0⟩ := hoff e he
    refine ⟨w, hw, ?_⟩
    have hsum := sum_sideOf_centroid e.2 e.1 vs hne
    rcases hor with hpos | hneg
    · have h1 : 0 < (vs.map (sideOf e.2 e.1)).sum := by
        apply sum_pos_of_nonneg
        · intro x hx
          obtain ⟨v, hv, rfl⟩ := List.mem_map.1 hx
          exact hpos e he v hv
        · exact ⟨_, List.mem_map.2 ⟨w, hw, rfl⟩, hw0⟩
      rw [hsum] at h1
      have hG : 0 < sideOf e.2 e.1 (centroid vs) := by
        by_contra hcon
        have := mul_nonpos_of_nonneg_of_nonpos hn.le (not_lt.1 hcon)
        linarith
      exact mul_pos (lt_of_le_of_ne (hpos e he w hw) (Ne.symm hw0)) hG
    · have h1 : (vs.map (sideOf e.2 e.1)).sum < 0 := by
        apply sum_neg_of_nonpos
        · intro x hx
          obtain ⟨v, hv, rfl⟩ := List.mem_map.1 hx
          exact hneg e he v hv
        · exact ⟨_, List.mem_map.2 ⟨w, hw, rfl⟩, hw0⟩
      rw [hsum] at h1
      have hG : sideOf e.2 e.1 (centroid vs) < 0 := by
        by_contra hcon
        have := mul_nonneg hn.le (not_lt.1 hcon)
        linarith
      exact mul_pos_of_neg_of_neg (lt_of_le_of_ne (hneg e he w hw) hw0) hG
  · by_contra hcon
    push_neg at hcon
    have hall : ∀ v ∈ vs, v.2 = (centroid vs).2 := by
      intro v hv
      by_contra hv0
      have h1 : (vs.map (fun v => v.2 - (centroid vs).2)).sum < 0 := by
        apply sum_neg_of_nonpos
        · intro x hx
          obtain ⟨z, hz, rfl⟩ := List.mem_map.1 hx
          have := hcon z hz
          linarith
        · exact ⟨_, List.mem_map.2 ⟨v, hv, rfl⟩, sub_ne_zero.2 hv0⟩
      rw [sum_height_centroid vs hne] at h1
      exact lt_irrefl _ h1
    obtain ⟨v, hv⟩ := List.exists_mem_of_ne_nil vs hne
    obtain ⟨u, hu⟩ := exists_edge_of_fst vs v hv
    obtain ⟨w, hw, hw0⟩ := hoff (v, u) hu
    apply hw0
    have hmem := mem_of_mem_ringEdges vs _ hu
    have e1 := hall v hmem.1
    have e2 := hall u hmem.2
    have e3 := hall w hw
    show sideOf u v w = 0
    unfold sideOf
    rw [e1, e2, e3]
    ring
  · by_contra hcon
    push_neg at hcon
    have h1 : 0 < (vs.map (fun v => v.2 - (centroid vs).2)).sum := by
      apply sum_pos_of_nonneg
      · intro x hx
        obtain ⟨z, hz, rfl⟩ := List.mem_map.1 hx
        have := hcon z hz
        linarith
      · obtain ⟨v, hv⟩ := List.exists_mem_of_ne_nil vs hne
        have := hcon v hv
        exact ⟨_, List.mem_map.2 ⟨v, hv, rfl⟩, by linarith⟩
    rw [sum_height_centroid vs hne] at h1
    exact lt_irrefl _ h1

/-! ## The program on exact rationals -/

theorem firstOrder_exact : GoMath.firstOrder.Exact where
  add := fun _ _ => rfl
  sub := fun _ _ => rfl
  mul := fun _ _ => rfl
  div := fun x y hy => by simp [GoMath.firstOrder, hy]

theorem crosses_exact (m : GoMath) (hm : m.Exact) (P A B : Pt) :
    InsidePoly.crosses m (F64.fin P.1) (F64.fin P.2) (Pt.toF64 A) (Pt.toF64 B) =
      crossesQ P A B := by
  unfold InsidePoly.crosses crossesQ Pt.toF64
  by_cases h : B.2 - A.2 = 0
  · have hAB : A.2 = B.2 := by linarith
    simp [F64.gt, F64.lt, hAB]
  · simp only [hm.sub, hm.mul, hm.div _ _ h, hm.add, F64.gt, F64.lt, gt_iff_lt]

theorem foldl_step_exact (m : GoMath) (hm : m.Exact) (P : Pt) (l : List Pt) (b : Bool)
    (prev : Pt) :
    ((l.map Pt.toF64).foldl (InsidePoly.step m (F64.fin P.1) (F64.fin P.2))
        (b, Pt.toF64 prev)).1 =
      xor b (xorAll ((l.zip (prev :: l)).map (fun e => crossesQ P e.1 e.2))) := by
  induction l generalizing b prev with
  | nil => simp [xorAll]
  | cons a t ih =>
    have hz : (a :: t).zip (prev :: a :: t) = (a, prev) :: t.zip (a :: t) := rfl
    rw [hz, List.map_cons, List.foldl_cons, List.map_cons, xorAll]
    have hs : InsidePoly.step m (F64.fin P.1) (F64.fin P.2) (b, Pt.toF64 prev) (Pt.toF64 a) =
        (xor b (crossesQ P a prev), Pt.toF64 a) := by
      unfold InsidePoly.step
      rw [crosses_exact m hm]
      cases crossesQ P a prev <;> cases b <;> rfl
    rw [hs, ih]
    cases b <;> cases crossesQ P a prev <;> simp

/-- With exact arithmetic `InsidePoly` is the parity of the number of edges
that `crossesQ` accepts. -/
theorem InsidePoly_exact (m : GoMath) (hm : m.Exact) (P : Pt) (vs : List Pt) :
    InsidePoly m (Pt.toF64 P) (vs.map Pt.toF64) = insideQ P vs := by
  unfold InsidePoly insideQ ringEdges
  rw [List.getLast?_map]
  cases vs.getLast? with
  | none => rfl
  | some last =>
    simp only [Option.map_some']
    have := foldl_step_exact m hm P vs false last
    simpa [Pt.toF64] using this

theorem exampleRing_convex : ConvexRing exampleRing := by
  refine ⟨by simp [exampleRing], ?_, Or.inr ?_, ?_⟩
  · norm_num [exampleRing]
  · norm_num [ringEdges, exampleRing, sideOf]
  · norm_num [ringEdges, exampleRing, sideOf]

theorem exampleRing_outside : Outside exampleRing examplePointOutside := by
  refine ⟨[(-110, 50), (-80, 50)], ?_, ?_⟩
  · refine List.Chain.cons ?_ (List.Chain.cons ?_ List.Chain.nil)
    · rintro X ⟨t, ht0, ht1, hx, hy⟩ ⟨e, he, s, hs0, hs1, hx', hy'⟩
      simp [ringEdges, exampleRing] at he
      simp [examplePointOutside] at hx hy
      rcases he with rfl | rfl | rfl | rfl <;> simp at hx' hy' <;> linarith
    · rintro X ⟨t, ht0, ht1, hx, hy⟩ ⟨e, he, s, hs0, hs1, hx', hy'⟩
      simp [ringEdges, exampleRing] at he
      simp at hx hy
      rcases he with rfl | rfl | rfl | rfl <;> simp at hx' hy' <;> linarith
  · simp [Beyond, exampleRing]
    norm_num

theorem exampleRing_boundary : exampleGlobals.boundaryPts = exampleRing.map Pt.toF64 := rfl

/-- C12: with exact arithmetic on rational coordinates, `InsidePoly` is false
at every point outside a ring, whatever the number of its vertices (a point is
outside when a polygonal path that does not meet the boundary leads from it to
a point to the right of every vertex), and true at the centroid, the mean of
the vertices, of every convex, non-degenerate ring. -/
theorem InsidePoly_spec (m : GoMath) (hm : m.Exact) :
    (∀ (vs : List Pt) (P : Pt), Outside vs P →
        InsidePoly m (Pt.toF64 P) (vs.map Pt.toF64) = false) ∧
    (∀ vs : List Pt, ConvexRing vs →
        InsidePoly m (Pt.toF64 (centroid vs)) (vs.map Pt.toF64) = true) := by
  constructor
  · intro vs P h
    rw [InsidePoly_exact m hm]
    exact insideQ_of_outside vs P h
  · intro vs h
    rw [InsidePoly_exact m hm]
    exact insideQ_centroid vs h

theorem InsidePoly_spec_witness :
    GoMath.firstOrder.Exact ∧ Outside exampleRing examplePointOutside ∧
      ConvexRing exampleRing ∧
      InsidePoly GoMath.firstOrder (Pt.toF64 examplePointOutside)
        (exampleRing.map Pt.toF64) = false ∧
      InsidePoly GoMath.firstOrder (Pt.toF64 (centroid exampleRing))
        (exampleRing.map Pt.toF64) = true :=
  ⟨firstOrder_exact, exampleRing_outside, exampleRing_convex,
    (InsidePoly_spec GoMath.firstOrder firstOrder_exact).1 _ _ exampleRing_outside,
    (InsidePoly_spec GoMath.firstOrder firstOrder_exact).2 _ exampleRing_convex⟩

/-! ## The loop of the geofence test as a count of edges -/

theorem foldl_step_eq (m : GoMath) (x y : F64) (l : List (F64 × F64)) (b : Bool)
    (prev : F64 × F64) :
    l.foldl (InsidePoly.step m x y) (b, prev) =
      (xor b (xorAll ((l.zip (prev :: l)).map (fun e => InsidePoly.crosses m x y e.1 e.2))),
        l.getLastD prev) := by
  induction l generalizing b prev with
  | nil => simp [xorAll]
  | cons a t ih =>
    have hz : (a :: t).zip (prev :: a :: t) = (a, prev) :: t.zip (a :: t) := rfl
    rw [hz, List.map_cons, List.foldl_cons, xorAll, List.getLastD_cons]
    have hs : InsidePoly.step m x y (b, prev) a =
        (xor b (InsidePoly.crosses m x y a prev), a) := by
      unfold InsidePoly.step
      cases InsidePoly.crosses m x y a prev <;> cases b <;> rfl
    rw [hs, ih]
    cases b <;> cases InsidePoly.crosses m x y a prev <;> simp

/-- The value of `InsidePoly` is the parity of the number of pairs of
`ringEdges` that the condition of the loop accepts. -/
theorem InsidePoly_eq_xorAll (m : GoMath) (p : F64 × F64) (vs : List (F64 × F64)) :
    InsidePoly m p vs =
      xorAll ((ringEdges vs).map (fun e => InsidePoly.crosses m p.1 p.2 e.1 e.2)) := by
  unfold InsidePoly ringEdges
  cases vs.getLast? with
  | none => rfl
  | some last =>
    simp only
    rw [foldl_step_eq]
    simp

theorem crosses_self (m : GoMath) (x y : F64) (v : F64 × F64) :
    InsidePoly.crosses m x y v v = false := by
  simp [InsidePoly.crosses]

theorem InsidePoly_closed_cons (m : GoMath) (p v : F64 × F64) (vs : List (F64 × F64)) :
    InsidePoly m p (v :: vs ++ [v]) = InsidePoly m p (v :: vs) := by
  have h1 : (v :: vs ++ [v]).getLast? = some v := List.getLast?_concat _
  have h2 : (v :: vs).getLast? = some (vs.getLastD v) := by
    rw [List.getLast?_cons, List.getLastD_eq_getLast?]
  unfold InsidePoly
  rw [h1, h2]
  simp only
  rw [List.cons_append, List.foldl_cons, List.foldl_append, List.foldl_cons, List.foldl_nil,
    List.foldl_cons]
  have hs : InsidePoly.step m p.1 p.2 (false, v) v = (false, v) := by
    unfold InsidePoly.step
    rw [crosses_self]
    rfl
  rw [hs, foldl_step_eq, foldl_step_eq]
  unfold InsidePoly.step
  simp only
  cases InsidePoly.crosses m p.1 p.2 v (vs.getLastD v) <;>
    cases xorAll ((vs.zip (v :: vs)).map (fun e => InsidePoly.crosses m p.1 p.2 e.1 e.2)) <;>
    simp

/-- C22: for every arithmetic, every point and every ring with at least one
vertex, `InsidePoly` gives the same result for the ring and for the ring with
its first vertex repeated at the end. -/
theorem InsidePoly_closed (m : GoMath) (p : F64 × F64) (vs : List (F64 × F64))
    (h : vs ≠ []) : InsidePoly m p (vs ++ [vs.head h]) = InsidePoly m p vs := by
  cases vs with
  | nil => exact absurd rfl h
  | cons v t => exact InsidePoly_closed_cons m p v t

theorem InsidePoly_closed_witness :
    ∃ h : exampleGlobals.boundaryPts ≠ [],
      InsidePoly exampleGlobals.math (examplePacket.Lon, examplePacket.Lat)
          (exampleGlobals.boundaryPts ++ [exampleGlobals.boundaryPts.head h]) =
        InsidePoly exampleGlobals.math (examplePacket.Lon, examplePacket.Lat)
          exampleGlobals.boundaryPts :=
  ⟨by simp [exampleGlobals], InsidePoly_closed _ _ _ _⟩

/-! ## The ray rule -/

theorem crossesQ_eq_rayRule (P A B : Pt) : crossesQ P A B = rayRule P A B := by
  rw [Bool.eq_iff_iff]
  simp only [crossesQ, rayRule, xAtHeight, Bool.and_eq_true, bne_iff_ne, ne_eq,
    decide_eq_decide, decide_eq_true_eq, gt_iff_lt]
  rw [add_comm A.1]
  refine and_congr_left (fun _ => ?_)
  rcases le_total A.2 B.2 with h | h
  · rw [min_eq_left h, max_eq_right h]
    constructor
    · intro hne
      by_cases h1 : P.2 < A.2
      · exact absurd (iff_of_true h1 (lt_of_lt_of_le h1 h)) hne
      · by_cases h2 : P.2 < B.2
        · exact ⟨not_lt.1 h1, h2⟩
        · exact absurd (iff_of_false h1 h2) hne
    · rintro ⟨h1, h2⟩ hiff
      exact absurd (hiff.2 h2) (not_lt.2 h1)
  · rw [min_eq_right h, max_eq_left h]
    constructor
    · intro hne
      by_cases h1 : P.2 < B.2
      · exact absurd (iff_of_true (lt_of_lt_of_le h1 h) h1) hne
      · by_cases h2 : P.2 < A.2
        · exact ⟨not_lt.1 h1, h2⟩
        · exact absurd (iff_of_false h2 h1) hne
    · rintro ⟨h1, h2⟩ hiff
      exact absurd (hiff.1 h2) (not_lt.2 h1)

theorem xorAll_eq_true_iff {α : Type} (c : α → Bool) (l : List α) :
    xorAll (l.map c) = true ↔ Odd (l.countP c) := by
  induction l with
  | nil => simp [xorAll]
  | cons a t ih =>
    rw [List.map_cons, xorAll, List.countP_cons]
    cases hc : c a with
    | false =>
      simp only [Bool.false_xor, Bool.false_eq_true, if_false, add_zero]
      exact ih
    | true =>
      simp only [Bool.true_xor, if_true, Nat.odd_add_one, Bool.not_eq_true', ← ih]
      cases xorAll (t.map c) <;> simp

theorem ringEdges_length {α : Type} (vs : List α) : (ringEdges vs).length = vs.length := by
  rw [← List.length_map (ringEdges vs) Prod.fst, ringEdges_fst]

theorem ringEdges_getElem? {α : Type} (vs : List α) (i : Nat) (a b : α) (ha : vs[i]? = some a)
    (hb : vs[(i + vs.length - 1) % vs.length]? = some b) : (ringEdges vs)[i]? = some (a, b) := by
  have hi : i < vs.length := (List.getElem?_eq_some_iff.1 ha).1
  unfold ringEdges
  cases hl : vs.getLast? with
  | none =>
    rw [List.getLast?_eq_none_iff] at hl
    rw [hl] at hi
    simp at hi
  | some last =>
    simp only
    rw [List.getElem?_zip_eq_some]
    refine ⟨ha, ?_⟩
    cases i with
    | zero =>
      have e : (0 + vs.length - 1) % vs.length = vs.length - 1 := by
        rw [Nat.zero_add]
        exact Nat.mod_eq_of_lt (by omega)
      rw [e, ← List.getLast?_eq_getElem?, hl] at hb
      simpa using hb
    | succ k =>
      have e : (k + 1 + vs.length - 1) % vs.length = k := by
        have : k + 1 + vs.length - 1 = k + vs.length := by omega
        rw [this, Nat.add_mod_right]
        exact Nat.mod_eq_of_lt (by omega)
      rw [e] at hb
      simpa using hb

/-- C21 (the statement as made fails): the origin and the ring
`exampleDiamond`.  For the edge between `(0, 1)` and `(1, 0)` the height 0 of
the point is the height of an end, not strictly between the heights of the
ends, and the loop of `InsidePoly` toggles; no edge satisfies the rule with
"strictly between", so the count is 0, and `InsidePoly` is true. -/
theorem InsidePoly_not_strictly_between :
    GoMath.firstOrder.Exact ∧
    InsidePoly.crosses GoMath.firstOrder (F64.fin 0) (F64.fin 0)
      (Pt.toF64 (0, 1)) (Pt.toF64 (1, 0)) = true ∧
    rayRuleStrict (0, 0) (0, 1) (1, 0) = false ∧
    ((0, 1), (1, 0)) ∈ ringEdges exampleDiamond ∧
    (ringEdges exampleDiamond).countP (fun e => rayRuleStrict (0, 0) e.1 e.2) = 0 ∧
    InsidePoly GoMath.firstOrder (Pt.toF64 (0, 0)) (exampleDiamond.map Pt.toF64) = true := by
  refine ⟨firstOrder_exact, ?_, ?_, ?_, ?_, ?_⟩
  · simp [InsidePoly.crosses, Pt.toF64, GoMath.firstOrder, F64.gt, F64.lt]
  · simp [rayRuleStrict, xAtHeight]
  · simp [ringEdges, exampleDiamond]
  · simp [ringEdges, exampleDiamond, rayRuleStrict, xAtHeight, List.countP_cons]
  · simp [InsidePoly, InsidePoly.step, InsidePoly.crosses, exampleDiamond, Pt.toF64,
      GoMath.firstOrder, F64.gt, F64.lt]

/-- C21 (as amended): with exact arithmetic on rational coordinates, the loop
of `InsidePoly` toggles for an edge exactly when the height of the point is at
least the smaller and less than the greater of the heights of the ends and the
point is to the left of the point where the edge meets the horizontal line
through it; `InsidePoly` is true exactly when the number of such edges is odd,
the edges being the pairs of a vertex and the vertex before it, the first
vertex with the last. -/
theorem InsidePoly_ray_rule (m : GoMath) (hm : m.Exact) (P : Pt) (vs : List Pt) :
    (∀ A B : Pt,
      InsidePoly.crosses m (F64.fin P.1) (F64.fin P.2) (Pt.toF64 A) (Pt.toF64 B) = true ↔
        (min A.2 B.2 ≤ P.2 ∧ P.2 < max A.2 B.2) ∧ P.1 < xAtHeight A B P.2) ∧
    (InsidePoly m (Pt.toF64 P) (vs.map Pt.toF64) = true ↔
      Odd ((ringEdges vs).countP (fun e => rayRule P e.1 e.2))) ∧
    (ringEdges vs).length = vs.length ∧
    (∀ (i : Nat) (a b : Pt), vs[i]? = some a →
      vs[(i + vs.length - 1) % vs.length]? = some b → (ringEdges vs)[i]? = some (a, b)) := by
  refine ⟨?_, ?_, ringEdges_length vs, ringEdges_getElem? vs⟩
  · intro A B
    rw [crosses_exact m hm, crossesQ_eq_rayRule]
    simp [rayRule]
  · rw [InsidePoly_exact m hm, insideQ]
    have hfun : (fun e : Pt × Pt => crossesQ P e.1 e.2) = fun e => rayRule P e.1 e.2 :=
      funext (fun e => crossesQ_eq_rayRule P e.1 e.2)
    rw [hfun]
    exact xorAll_eq_true_iff _ _

theorem InsidePoly_ray_rule_witness :
    GoMath.firstOrder.Exact ∧
    ((∀ A B : Pt,
      InsidePoly.crosses GoMath.firstOrder (F64.fin 0) (F64.fin 0) (Pt.toF64 A) (Pt.toF64 B)
          = true ↔
        (min A.2 B.2 ≤ 0 ∧ 0 < max A.2 B.2) ∧ 0 < xAtHeight A B 0) ∧
    (InsidePoly GoMath.firstOrder (Pt.toF64 (0, 0)) (exampleDiamond.map Pt.toF64) = true ↔
      Odd ((ringEdges exampleDiamond).countP (fun e => rayRule (0, 0) e.1 e.2))) ∧
    (ringEdges exampleDiamond).length = exampleDiamond.length ∧
    (∀ (i : Nat) (a b : Pt), exampleDiamond[i]? = some a →
      exampleDiamond[(i + exampleDiamond.length - 1) % exampleDiamond.length]? = some b →
      (ringEdges exampleDiamond)[i]? = some (a, b))) :=
  ⟨firstOrder_exact, InsidePoly_ray_rule GoMath.firstOrder firstOrder_exact (0, 0) exampleDiamond⟩

/-! ## Records that end the batch -/

theorem record_of_outside (g : Globals) (ro : RecordOutcomes) (pkt : SHPacket) (p : Process)
    (hout : InsidePoly g.math (pkt.Lon, pkt.Lat) g.boundaryPts = false)
    (hby : g.bypassLocationFilter = false) :
    messagePubHandler.record g ro pkt p = (Flow.stop, p) := by
  simp [messagePubHandler.record, hout, hby]

theorem record_of_lookup_failure (g : Globals) (ro : RecordOutcomes) (pkt : SHPacket)
    (p : Process)
    (hin : InsidePoly g.math (pkt.Lon, pkt.Lat) g.boundaryPts = true ∨
      g.bypassLocationFilter = true)
    (hclaim : (claimSonde p.sondeMutex pkt.Serial).1 = true) (hfail : ro.lookupFails = true) :
    messagePubHandler.record g ro pkt p = (Flow.stop, p) := by
  have hcond : ((!InsidePoly g.math (pkt.Lon, pkt.Lat) g.boundaryPts) &&
      !g.bypassLocationFilter) = false := by
    rcases hin with h | h <;> simp [h]
  have htbl : claimSonde p.sondeMutex pkt.Serial =
      (true, (claimSonde p.sondeMutex pkt.Serial).2) := by
    rw [← hclaim]
  have hrel := claim_release _ _ _ htbl
  unfold messagePubHandler.record
  rw [hcond, htbl]
  simp [hfail, hrel]

theorem messagePubHandler_of_stop (g : Globals) (ro : RecordOutcomes) (pkt : SHPacket)
    (rest : List (SHPacket × RecordOutcomes)) (p p' : Process)
    (h : messagePubHandler.record g ro pkt p = (Flow.stop, p')) :
    messagePubHandler g ((pkt, ro) :: rest) none p = p' := by
  simp [messagePubHandler, messagePubHandler.loop, h]

theorem examplePacket_inside :
    InsidePoly exampleGlobals.math (examplePacket.Lon, examplePacket.Lat)
      exampleGlobals.boundaryPts = true := by
  simp [InsidePoly, InsidePoly.step, InsidePoly.crosses, exampleGlobals, exampleConfig,
    examplePacket, GoMath.firstOrder, F64.lt, F64.gt]
  norm_num

theorem exampleOutsidePacket_outside :
    InsidePoly exampleGlobals.math (exampleOutsidePacket.Lon, exampleOutsidePacket.Lat)
      exampleGlobals.boundaryPts = false := by
  simp [InsidePoly, InsidePoly.step, InsidePoly.crosses, exampleGlobals, exampleConfig,
    exampleOutsidePacket, examplePacket, GoMath.firstOrder, F64.lt, F64.gt]
  norm_num

theorem messagePubHandler_examplePacket :
    messagePubHandler exampleGlobals [(examplePacket, exampleRecordOutcomes)] none emptyProcess =
      { world := handleNewSonde exampleConfig exampleOutcomes examplePacket emptyWorld,
        sondeMutex := [] } := by
  have hin := examplePacket_inside
  have hclaim : claimSonde emptyProcess.sondeMutex examplePacket.Serial =
      (true, [(examplePacket.Serial, ())]) := rfl
  have hrel : releaseSonde [(examplePacket.Serial, ())] examplePacket.Serial = [] := by
    simp [releaseSonde, GoMap.delete]
  have hdisp : messagePubHandler.dispatch exampleGlobals exampleOutcomes examplePacket
      (emptyProcess.world.store.get examplePacket.Serial) emptyProcess.world =
      handleNewSonde exampleConfig exampleOutcomes examplePacket emptyWorld := by
    simp [messagePubHandler.dispatch, messagePubHandler.iMet, emptyProcess, emptyWorld,
      GoMap.get, examplePacket, exampleGlobals]
  simp only [messagePubHandler, messagePubHandler.loop, messagePubHandler.record, hin,
    Bool.not_true, Bool.false_and, Bool.false_eq_true, if_false, hclaim, hrel,
    exampleRecordOutcomes, hdisp]

/-- C23 (the defect): a record outside the boundary (bypass flag off) and a
record whose session lookup fails make `messagePubHandler` return, so no
later record of the batch is handled.  In the example `examplePacket` is
inside the boundary, its claim succeeds and on its own it is processed by
`handleNewSonde`; placed after a record of another device that is outside
the boundary, or whose lookup fails, it is not processed at all. -/
theorem messagePubHandler_drop_ends_batch :
    (∀ (g : Globals) (ro : RecordOutcomes) (pkt : SHPacket)
        (rest : List (SHPacket × RecordOutcomes)) (p : Process),
      InsidePoly g.math (pkt.Lon, pkt.Lat) g.boundaryPts = false →
      g.bypassLocationFilter = false →
      messagePubHandler g ((pkt, ro) :: rest) none p = p) ∧
    (∀ (g : Globals) (ro : RecordOutcomes) (pkt : SHPacket)
        (rest : List (SHPacket × RecordOutcomes)) (p : Process),
      (InsidePoly g.math (pkt.Lon, pkt.Lat) g.boundaryPts = true ∨
        g.bypassLocationFilter = true) →
      (claimSonde p.sondeMutex pkt.Serial).1 = true → ro.lookupFails = true →
      messagePubHandler g ((pkt, ro) :: rest) none p = p) ∧
    InsidePoly exampleGlobals.math (examplePacket.Lon, examplePacket.Lat)
      exampleGlobals.boundaryPts = true ∧
    (claimSonde emptyProcess.sondeMutex examplePacket.Serial).1 = true ∧
    exampleOutsidePacket.Serial ≠ examplePacket.Serial ∧
    exampleOtherPacket.Serial ≠ examplePacket.Serial ∧
    (messagePubHandler exampleGlobals [(examplePacket, exampleRecordOutcomes)] none
        emptyProcess).world.log =
      [Event.reverseGeocode examplePacket.Lat examplePacket.Lon,
       Event.sendDiscordWebhook exampleConfig.webhookURL false,
       Event.saveSondeSession examplePacket.Serial
         { handleNewSonde.session exampleConfig examplePacket with
           Webhook := exampleConfig.webhookURL ++ "/messages/" ++ "77" }] ∧
    messagePubHandler exampleGlobals
      [(exampleOutsidePacket, exampleRecordOutcomes), (examplePacket, exampleRecordOutcomes)]
      none emptyProcess = emptyProcess ∧
    messagePubHandler exampleGlobals
      [(exampleOtherPacket, exampleLookupFails), (examplePacket, exampleRecordOutcomes)]
      none emptyProcess = emptyProcess := by
  refine ⟨?_, ?_, examplePacket_inside, rfl, by decide, by decide, ?_, ?_, ?_⟩
  · intro g ro pkt rest p hout hby
    exact messagePubHandler_of_stop g ro pkt rest p p (record_of_outside g ro pkt p hout hby)
  · intro g ro pkt rest p hin hclaim hfail
    exact messagePubHandler_of_stop g ro pkt rest p p
      (record_of_lookup_failure g ro pkt p hin hclaim hfail)
  · rw [messagePubHandler_examplePacket]
    have h := (handleNewSonde_of_sent exampleConfig exampleOutcomes examplePacket emptyWorld
      "77" rfl rfl).1
    simpa [emptyWorld] using h
  · exact messagePubHandler_of_stop _ _ _ _ _ _
      (record_of_outside _ _ _ _ exampleOutsidePacket_outside rfl)
  · exact messagePubHandler_of_stop _ _ _ _ _ _
      (record_of_lookup_failure _ _ _ _ (Or.inl examplePacket_inside) rfl rfl)

/-! ## The iMet comparison and the previous record -/

theorem toInt_exampleIMetFraction : F64.toInt exampleIMetFraction.Alt = 12000 := by
  have hq : ((120007 : ℚ) / 10) = ((120007 : ℤ) : ℚ) / ((10 : ℤ) : ℚ) := by norm_num
  have hnum : ((120007 : ℚ) / 10).num = 120007 := by
    rw [hq]
    exact Rat.num_div_eq_of_coprime (by norm_num) (by norm_num)
  have hden : ((120007 : ℚ) / 10).den = 10 := by
    rw [hq]
    have := Rat.den_div_eq_of_coprime (a := 120007) (b := 10) (by norm_num) (by norm_num)
    exact_mod_cast this
  show F64.toInt (F64.fin (120007 / 10)) = 12000
  unfold F64.toInt
  simp only [hnum, hden]
  decide

theorem record_exampleIMetHigh :
    messagePubHandler.record exampleGlobals exampleRecordOutcomes exampleIMetHigh
      exampleProcess = (Flow.next, exampleProcess) := by
  have hin : InsidePoly exampleGlobals.math (exampleIMetHigh.Lon, exampleIMetHigh.Lat)
      exampleGlobals.boundaryPts = true := exampleIMet_inside
  have hget : exampleProcess.world.store.get exampleIMetHigh.Serial
      = some exampleIMetSession := by
    simp [exampleProcess, exampleIMetWorld, exampleIMetHigh, exampleIMetPacket, GoMap.get]
  have hof : F64.ofInt exampleIMetSession.IMetAlt = F64.fin 15000 :=
    F64.ofInt_of_natAbs_le _ (by decide)
  have hsup : handleSonde.suppressed exampleGlobals.updateInterval
      (messagePubHandler.iMet exampleIMetHigh (some exampleIMetSession)).1
      { exampleIMetSession with IMetAlt := F64.toInt exampleIMetHigh.Alt } = true := by
    rw [iMet_of_session _ _ rfl, hof]
    simp [handleSonde.suppressed, exampleGlobals, exampleConfig, exampleIMetHigh,
      exampleIMetPacket, exampleIMetSession, wrap64, F64.lt]
    norm_num
  have hdisp : messagePubHandler.dispatch exampleGlobals exampleRecordOutcomes.calls
      exampleIMetHigh (some exampleIMetSession) exampleProcess.world
      = exampleProcess.world := by
    unfold messagePubHandler.dispatch
    have h2 : (messagePubHandler.iMet exampleIMetHigh (some exampleIMetSession)).2
        = some { exampleIMetSession with IMetAlt := F64.toInt exampleIMetHigh.Alt } := by
      rw [iMet_of_session _ _ rfl]
    rw [h2]
    exact handleSonde_of_suppressed _ _ _ _ _ hsup
  have hclaim : claimSonde exampleProcess.sondeMutex exampleIMetHigh.Serial
      = (true, [(exampleIMetHigh.Serial, ())]) := by
    simp [claimSonde, exampleProcess, GoMap.get, GoMap.set]
  unfold messagePubHandler.record
  rw [hin, hclaim]
  simp only [Bool.not_true, Bool.false_and, Bool.false_eq_true, if_false, hget]
  have : exampleRecordOutcomes.lookupFails = false := rfl
  simp only [this, Bool.false_eq_true, if_false, hdisp]
  simp [releaseSonde, GoMap.delete, exampleProcess]

/-- C13 (the statement as made fails): the comparison is with the altitude
held in the session, not with the altitude of the previous record.  The
record at 20000 m is suppressed by the gate and leaves the session at 15000;
the next record, at 18000 m, is lower than the previous record and gets the
vertical velocity +1.  And the session keeps the altitude as an integer: after
the record at 12000.7 m the session handed on holds 12000, against which the
next record, at 12000.5 m, lower than the previous one, gets +1. -/
theorem iMet_velocity_not_previous_record :
    exampleIMetHigh.Manufacturer = "Intermet Systems" ∧
    exampleIMetNext.Serial = exampleIMetHigh.Serial ∧
    F64.lt exampleIMetNext.Alt exampleIMetHigh.Alt = true ∧
    messagePubHandler.record exampleGlobals exampleRecordOutcomes exampleIMetHigh
      exampleProcess = (Flow.next, exampleProcess) ∧
    (messagePubHandler.iMet exampleIMetNext
      ((messagePubHandler.record exampleGlobals exampleRecordOutcomes exampleIMetHigh
        exampleProcess).2.world.store.get exampleIMetNext.Serial)).1.VelV = F64.fin 1 ∧
    F64.lt exampleIMetFractionNext.Alt exampleIMetFraction.Alt = true ∧
    (messagePubHandler.iMet exampleIMetFraction (some exampleIMetSession)).2 =
      some { exampleIMetSession with IMetAlt := 12000 } ∧
    (messagePubHandler.iMet exampleIMetFractionNext
      (some { exampleIMetSession with IMetAlt := 12000 })).1.VelV = F64.fin 1 := by
  have hget : exampleProcess.world.store.get exampleIMetNext.Serial
      = some exampleIMetSession := by
    simp [exampleProcess, exampleIMetWorld, exampleIMetNext, exampleIMetPacket, GoMap.get]
  have hof : F64.ofInt exampleIMetSession.IMetAlt = F64.fin 15000 :=
    F64.ofInt_of_natAbs_le _ (by decide)
  have hof2 : F64.ofInt ({ exampleIMetSession with IMetAlt := 12000 } : SondeSession).IMetAlt
      = F64.fin 12000 := F64.ofInt_of_natAbs_le _ (by decide)
  refine ⟨rfl, rfl, ?_, record_exampleIMetHigh, ?_, ?_, ?_, ?_⟩
  · simp [exampleIMetNext, exampleIMetHigh, exampleIMetPacket, F64.lt]
    norm_num
  · rw [record_exampleIMetHigh, hget, iMet_of_session _ _ rfl, hof]
    simp [exampleIMetSession, exampleIMetNext, exampleIMetPacket, F64.lt]
    norm_num
  · simp [exampleIMetFractionNext, exampleIMetFraction, exampleIMetPacket, F64.lt]
    norm_num
  · rw [iMet_of_session _ _ rfl, toInt_exampleIMetFraction]
  · rw [iMet_of_session _ _ rfl, hof2]
    simp [exampleIMetFractionNext, exampleIMetPacket, F64.lt]
    norm_num

/-- Witness for C13 as amended: the iMet record at 12000 m against the
session that holds 15000 gets the vertical velocity -1. -/
theorem iMet_velocity_witness :
    exampleIMetPacket.Manufacturer = "Intermet Systems" ∧ exampleIMetSession.IMetAlt ≠ 0 ∧
    (messagePubHandler.iMet exampleIMetPacket (some exampleIMetSession)).1.VelV =
      F64.fin (-1) :=
  ⟨rfl, by decide,
    (((iMet_velocity exampleGlobals exampleOutcomes exampleIMetPacket exampleIMetSession none
      exampleIMetWorld).1 rfl (by decide)).2.2 12000 rfl (by decide)).1
        (by norm_num [exampleIMetSession])⟩

/-! ## The throttle gate and the range of `int64` -/

/-- C2 (the statement as made fails): with the update interval `2^63 - 1` the
sum `session.Time + updateInterval` wraps around to a negative number, so the
first comparison of the gate is false and the record is processed, although
its receive time is before `t0 + I` and it is not below 3048 m. -/
theorem handleSonde_gate_wraps :
    inInt64 exampleConfigMaxInterval.updateInterval ∧
    inInt64 exampleIMetSession.Time ∧
    inInt64 exampleIMetPacket.TimeReceived ∧
    exampleIMetPacket.TimeReceived <
      exampleIMetSession.Time + exampleConfigMaxInterval.updateInterval ∧
    F64.lt exampleIMetPacket.Alt (F64.fin 3048) = false ∧
    wrap64 (exampleIMetSession.Time + exampleConfigMaxInterval.updateInterval) =
      1700000000 - 2 ^ 63 - 1 ∧
    handleSonde.suppressed exampleConfigMaxInterval.updateInterval exampleIMetPacket
      exampleIMetSession = false ∧
    ∃ rest, (handleSonde exampleConfigMaxInterval exampleOutcomes exampleIMetPacket
        exampleIMetSession exampleIMetWorld).log =
      exampleIMetWorld.log ++
        Event.reverseGeocode exampleIMetPacket.Lat exampleIMetPacket.Lon :: rest := by
  have hw : wrap64 (exampleIMetSession.Time + exampleConfigMaxInterval.updateInterval) =
      1700000000 - 2 ^ 63 - 1 := by decide
  have hs : handleSonde.suppressed exampleConfigMaxInterval.updateInterval exampleIMetPacket
      exampleIMetSession = false := by
    unfold handleSonde.suppressed
    rw [hw]
    have : ¬ exampleIMetPacket.TimeReceived < 1700000000 - 2 ^ 63 - 1 := by decide
    rw [if_neg this]
  refine ⟨⟨by decide, by decide⟩, ⟨by decide, by decide⟩, ⟨by decide, by decide⟩, by decide,
    ?_, hw, hs, handleSonde_of_passed _ _ _ _ _ hs⟩
  simp [exampleIMetPacket, F64.lt]
  norm_num

/-! ## The proximity index and a point beyond the range of the conversion to radians -/

end Balloony
